import Mathlib

/-! dwm (engstrand-config build): a verification development

A shallow embedding of the decision core of `dwm.c` / `config.h`:

* the fake-signal parser (`fake_signal`, `propertynotify`) over C strings,
* rule matching (`applyrules`),
* the client list / focus stack / tag state machine (`attachtop`, `zoom`,
  `swallow`, `unmanage`, `view`, `toggleview`, ...),
* the `tile` layout with its unsigned arithmetic.

C strings are lists of characters without the terminating NUL.  Pointers to
`Client` objects are natural numbers (addresses); a singly linked list is the
list of the addresses met when following `next` (or `snext`) from its head.
-/

namespace Dwm

/-! ## C strings and the `scanf` directives used by `fake_signal` -/

/-- The C-locale `isspace`: space, `\t`, `\n`, `\v`, `\f`, `\r`. -/
def isspace (c : Char) : Bool :=
  c.toNat = 32 || (9 ≤ c.toNat && c.toNat ≤ 13)

/-- The C `strncmp(a, b, n) == 0` on NUL-free strings: the first `n` characters
agree, a string that ends earlier counting as ended by its NUL. -/
def strncmp_eq (a b : List Char) (n : Nat) : Bool :=
  a.take n == b.take n

/-- The C `strstr(hay, needle) != NULL`. -/
def strstr (hay needle : List Char) : Bool :=
  decide (needle <:+: hay)

/-- One `%s` directive: skips white space, then stores the maximal run of
non-space characters.  Returns the token, the number of characters consumed and
the unread rest; `none` is an input failure (end of input before a token). -/
def scan_s (s : List Char) : Option (List Char × Nat × List Char) :=
  let r := s.dropWhile isspace
  if r.isEmpty then none
  else
    let tok := r.takeWhile (fun c => !isspace c)
    some (tok, (s.length - r.length) + tok.length, r.dropWhile (fun c => !isspace c))

/-- What `sscanf(s, "%s%n%s%n", str_sig, &len_str_sig, param, &n)` leaves behind:
its return value and the objects it assigned (`none`: not assigned). -/
structure Scan2 where
  paramn : Int
  str_sig : Option (List Char)
  len_str_sig : Option Nat
  param : Option (List Char)
  n : Option Nat
deriving DecidableEq, Repr

/-- The call `sscanf(s, "%s%n%s%n", ...)`: two `%s` conversions, each followed
by a `%n` that records the number of characters read so far and is not counted
in the return value.  An input failure before the first conversion returns `EOF`. -/
def sscanf_s_n_s_n (s : List Char) : Scan2 :=
  match scan_s s with
  | none => { paramn := -1, str_sig := none, len_str_sig := none, param := none, n := none }
  | some (t1, k1, r1) =>
    match scan_s r1 with
    | none => { paramn := 1, str_sig := some t1, len_str_sig := some k1, param := none, n := none }
    | some (t2, k2, _) =>
      { paramn := 2, str_sig := some t1, len_str_sig := some k1, param := some t2, n := some (k1 + k2) }

/-- Value of a digit character in the given base. -/
def digitVal (base : Nat) (c : Char) : Option Nat :=
  let v :=
    if 48 ≤ c.toNat && c.toNat ≤ 57 then c.toNat - 48
    else if 97 ≤ c.toNat && c.toNat ≤ 102 then c.toNat - 87
    else if 65 ≤ c.toNat && c.toNat ≤ 70 then c.toNat - 55
    else 99
  if v < base then some v else none

/-- Reads the longest prefix of digits of the base; returns the value and how
many digits were read. -/
def readDigits (base : Nat) : List Char → Nat → Nat → Nat × Nat
  | [], acc, k => (acc, k)
  | c :: cs, acc, k =>
    match digitVal base c with
    | some v => readDigits base cs (acc * base + v) (k + 1)
    | none => (acc, k)

/-- An optional sign in front of a number: `true` for `-`. -/
def readSign : List Char → Bool × List Char
  | c :: cs => if c.toNat = 45 then (true, cs) else if c.toNat = 43 then (false, cs) else (false, c :: cs)
  | [] => (false, [])

/-- The conversion `sscanf(s, "%i", &arg.i)`: white space, optional sign, then
an integer whose base is taken from its prefix (`0x` hexadecimal, `0` octal,
decimal otherwise).  `none`: nothing was stored (matching failure) or the value
does not fit an `int`, so `arg.i` holds no defined value. -/
def sscanf_i (s : List Char) : Option Int :=
  let (neg, r) := readSign (s.dropWhile isspace)
  let (mag, k) :=
    match r with
    | c0 :: cx :: rest =>
      if c0.toNat = 48 && (cx.toNat = 120 || cx.toNat = 88) && (digitVal 16 (rest.headD ' ')).isSome then
        readDigits 16 rest 0 0
      else if c0.toNat = 48 then readDigits 8 r 0 0
      else readDigits 10 r 0 0
    | _ => readDigits 10 r 0 0
  if k = 0 then none
  else
    let v : Int := if neg then -(mag : Int) else (mag : Int)
    if -2147483648 ≤ v ∧ v ≤ 2147483647 then some v else none

/-- The conversion `sscanf(s, "%u", &arg.ui)`: white space, optional sign, then
a decimal integer; a negative input is negated modulo 2^32.  `none`: nothing
was stored or the magnitude does not fit an `unsigned int`. -/
def sscanf_u (s : List Char) : Option Nat :=
  let (neg, r) := readSign (s.dropWhile isspace)
  let (mag, k) := readDigits 10 r 0 0
  if k = 0 then none
  else if mag ≤ 4294967295 then some (if neg then (4294967296 - mag) % 4294967296 else mag)
  else none

/-! ## Arguments, actions and the signal table (`config.h`) -/

/-- The `Arg` union as `fake_signal` fills it: all zero, or the member that the
conversion wrote.  `F` is the type of `float` values. -/
inductive Arg (F : Type) where
  | zero : Arg F
  | i (v : Int) : Arg F
  | ui (v : Nat) : Arg F
  | f (x : F) : Arg F
deriving DecidableEq, Repr

/-- The functions that the signal table of `config.h` points to. -/
inductive Func where
  | focusstack | setmfact | togglebar | incnmaster | togglefloating | focusmon
  | tagmon | zoom | view | viewall | viewex | toggleviewex | incgaps | togglegaps
  | defaultgaps | tag | tagall | tagex | toggletagex | killclient | setlayout
  | setlayoutex | reloadxresources
deriving DecidableEq, Repr

/-- One row of `signals[]`: the name and the function (never NULL in the table). -/
structure Signal where
  sig : List Char
  func : Func
deriving DecidableEq, Repr

/-- The table `signals[]` of `config.h`, in declaration order. -/
def signals : List Signal :=
  [ ⟨"focusstack".toList, .focusstack⟩,
    ⟨"setmfact".toList, .setmfact⟩,
    ⟨"togglebar".toList, .togglebar⟩,
    ⟨"incnmaster".toList, .incnmaster⟩,
    ⟨"togglefloating".toList, .togglefloating⟩,
    ⟨"focusmon".toList, .focusmon⟩,
    ⟨"tagmon".toList, .tagmon⟩,
    ⟨"zoom".toList, .zoom⟩,
    ⟨"view".toList, .view⟩,
    ⟨"viewall".toList, .viewall⟩,
    ⟨"viewex".toList, .viewex⟩,
    ⟨"toggleview".toList, .view⟩,
    ⟨"toggleviewex".toList, .toggleviewex⟩,
    ⟨"incgaps".toList, .incgaps⟩,
    ⟨"togglegaps".toList, .togglegaps⟩,
    ⟨"defaultgaps".toList, .defaultgaps⟩,
    ⟨"tag".toList, .tag⟩,
    ⟨"tagall".toList, .tagall⟩,
    ⟨"tagex".toList, .tagex⟩,
    ⟨"toggletag".toList, .tag⟩,
    ⟨"toggletagex".toList, .toggletagex⟩,
    ⟨"killclient".toList, .killclient⟩,
    ⟨"setlayout".toList, .setlayout⟩,
    ⟨"setlayoutex".toList, .setlayoutex⟩,
    ⟨"xresources".toList, .reloadxresources⟩ ]

/-! ## `gettextprop`, `fake_signal`, `propertynotify` -/

/-- The call `gettextprop(root, XA_WM_NAME, text, size)`: `prop` is the text of
the property (`none`: the property cannot be read).  Returns `none` for the
return value 0 and the text cut to `size - 1` characters for the return value 1. -/
def gettextprop (prop : Option (List Char)) (size : Nat) : Option (List Char) :=
  if size = 0 then none
  else
    match prop with
    | none => none
    | some [] => none
    | some t => some (t.take (size - 1))

/-- The loop over `signals[]` at the end of `fake_signal`: every row whose name
agrees with `str_sig` on the first `len_str_sig` characters is called, in table
order, with the same argument. -/
def dispatch {F : Type} (str_sig : List Char) (len_str_sig : Nat) (arg : Arg F) :
    List Signal → List (Func × Arg F)
  | [] => []
  | s :: rest =>
    if strncmp_eq str_sig s.sig len_str_sig then (s.func, arg) :: dispatch str_sig len_str_sig arg rest
    else dispatch str_sig len_str_sig arg rest

/-- The function `fake_signal`.  `strtof` is the `%f` conversion of the C
library, `prop` the root window name.  The result is the return value together
with the calls made, in order; `none` stands for undefined behaviour: a buffer
overrun (`str_sig[50]`, `param[16]`) or the use of an object that `sscanf`
left unassigned. -/
def fake_signal {F : Type} (strtof : List Char → Option F) (prop : Option (List Char)) :
    Option (Int × List (Func × Arg F)) :=
  let indicator := "fsignal:".toList
  let len_indicator := indicator.length
  match gettextprop prop 256 with
  | none => some (0, [])
  | some fsignal =>
    let len_fsignal := fsignal.length
    if (if len_indicator > len_fsignal then false else strncmp_eq indicator fsignal len_indicator) then
      let sc := sscanf_s_n_s_n (fsignal.drop len_indicator)
      if (sc.str_sig.getD []).length ≥ 50 ∨ (sc.param.getD []).length ≥ 16 then none
      else
        let arg? : Option (Option (Arg F)) :=
          if sc.paramn = 1 then some (some Arg.zero)
          else if sc.paramn > 2 then some none
          else
            match sc.param, sc.n, sc.len_str_sig with
            | some param, some n, some len_str_sig =>
              if strncmp_eq param "i".toList (n - len_str_sig) then
                (sscanf_i (fsignal.drop (len_indicator + n))).map (fun v => some (Arg.i v))
              else if strncmp_eq param "ui".toList (n - len_str_sig) then
                (sscanf_u (fsignal.drop (len_indicator + n))).map (fun v => some (Arg.ui v))
              else if strncmp_eq param "f".toList (n - len_str_sig) then
                (strtof (fsignal.drop (len_indicator + n))).map (fun v => some (Arg.f v))
              else some none
            | _, _, _ => none
        match arg? with
        | none => none
        | some none => some (1, [])
        | some (some arg) =>
          match sc.str_sig, sc.len_str_sig with
          | some str_sig, some len_str_sig => some (1, dispatch str_sig len_str_sig arg signals)
          | _, _ => none
    else some (0, [])

/-- The status texts `stextc` and `stexts` that `updatestatus` derives from the
root window name: printable characters go to both, bytes 11..31 to `stextc`
only, bytes 1..10 to `stexts` only. -/
def updatestatus (version : List Char) (prop : Option (List Char)) : List Char × List Char :=
  match gettextprop prop 256 with
  | some raw =>
    (raw.filter (fun c => decide (32 ≤ c.toNat) || decide (10 < c.toNat)),
     raw.filter (fun c => decide (32 ≤ c.toNat) || decide (c.toNat ≤ 10)))
  | none => ("dwm-".toList ++ version, "dwm-".toList ++ version)

/-- The root-window `XA_WM_NAME` branch of `propertynotify`:
`if (!fake_signal()) updatestatus();`.  The state is the pair of status texts;
the result also lists the calls made by `fake_signal`. -/
def propertynotify_root {F : Type} (strtof : List Char → Option F) (version : List Char)
    (prop : Option (List Char)) (st : List Char × List Char) :
    Option ((List Char × List Char) × List (Func × Arg F)) :=
  match fake_signal strtof prop with
  | none => none
  | some (r, calls) => if r = 0 then some (updatestatus version prop, calls) else some (st, calls)

/-! ## Data model (`dwm.c` structs, `config.h` tables) -/

/-- The table `tags[]` of `config.h`. -/
def tags : List String := ["1", "2", "3", "4", "5", "6", "7", "8", "9"]

/-- The macro `TAGMASK`: `(1 << LENGTH(tags)) - 1`. -/
def TAGMASK : Nat := (1 <<< tags.length) - 1

/-- The constant `~0` of type `unsigned int`. -/
def UINT_MAX : Nat := 4294967295

/-- The fields of `struct Client` that decide list membership, visibility, focus
and swallowing.  `mon` and `swallowing` are pointers (addresses of `Monitor`
and `Client` objects); the `int` flags hold 0 or 1.  The title `name` is passed
to `applyrules` directly; the geometry fields of the same struct are kept in
`Geom` below, only the resize code touches them. -/
structure Client where
  tags : Nat
  isfixed : Bool
  isfloating : Bool
  isurgent : Bool
  neverfocus : Bool
  oldstate : Bool
  isfullscreen : Bool
  isterminal : Bool
  noswallow : Bool
  issticky : Bool
  pid : Nat
  swallowing : Option Nat
  mon : Nat
  win : Nat
deriving DecidableEq, Repr

/-- The arrange functions a `Layout` can point to. -/
inductive ArrangeFn where
  | tile | centeredmaster
deriving DecidableEq, Repr

/-- The struct `Layout`: symbol and arrange function (`none` for NULL). -/
structure Layout where
  symbol : List Char
  arrange : Option ArrangeFn
deriving DecidableEq, Repr

/-- The table `layouts[]` of `config.h`.  A `const Layout *` is modelled by the
index of the row it points to. -/
def layouts : List Layout :=
  [ ⟨"[]=".toList, some ArrangeFn.tile⟩, ⟨"|M|".toList, some ArrangeFn.centeredmaster⟩ ]

/-- The test `lt->arrange != NULL` for a pointer into `layouts[]`. -/
def hasArrange (lt : Nat) : Bool :=
  match layouts.get? lt with
  | some l => l.arrange.isSome
  | none => false

/-- The struct `Pertag`; the arrays have `LENGTH(tags) + 1` slots and are
modelled as functions of the index. -/
structure Pertag (F : Type) where
  curtag : Nat
  prevtag : Nat
  nmasters : Nat → Int
  mfacts : Nat → F
  sellts : Nat → Nat
  ltidxs : Nat → Nat → Nat
  showbars : Nat → Bool

/-- The struct `Monitor`.  `clients` and `stack` are the linked lists through
`next` and `snext`; `tagset` and `lt` are the two-slot arrays. -/
structure Monitor (F : Type) where
  mfact : F
  nmaster : Int
  num : Int
  by_ : Int
  mx : Int
  my : Int
  mw : Int
  mh : Int
  wx : Int
  wy : Int
  ww : Int
  wh : Int
  gappiv : Int
  gappov : Int
  gappih : Int
  gappoh : Int
  seltags : Nat
  sellt : Nat
  tagset : Nat → Nat
  showbar : Bool
  topbar : Bool
  clients : List Nat
  sel : Option Nat
  stack : List Nat
  lt : Nat → Nat
  pertag : Pertag F

/-- The struct `Rule`; NULL strings are `none`. -/
structure Rule where
  class_ : Option (List Char)
  instance_ : Option (List Char)
  title : Option (List Char)
  tags : Nat
  isfloating : Bool
  isterminal : Bool
  noswallow : Bool
  monitor : Int
deriving DecidableEq, Repr

/-- The table `rules[]` of `config.h`, in declaration order. -/
def rules : List Rule :=
  [ ⟨none, some "ferdi".toList, none, 1 <<< 3, false, false, false, 1⟩,
    ⟨some "firefox".toList, none, none, 1 <<< 1, false, false, true, -1⟩,
    ⟨some "Gimp".toList, none, none, 1 <<< 8, false, false, false, -1⟩,
    ⟨some "St".toList, none, none, 0, false, true, false, -1⟩,
    ⟨some "spotify".toList, none, none, 1 <<< 4, false, false, false, 1⟩,
    ⟨some "tidal".toList, none, none, 1 <<< 4, false, false, false, 1⟩,
    ⟨none, none, some "Event Tester".toList, 0, true, false, true, -1⟩,
    ⟨none, none, some "Picture-in-Picture".toList, 0, true, false, true, -1⟩ ]

/-- The string `broken`. -/
def broken : List Char := "broken".toList

/-- The process-wide state: the heap of `Client` and `Monitor` objects by
address, the monitor list `mons`, `selmon`, `prevzoom` and the bar height `bh`. -/
structure State (F : Type) where
  client : Nat → Client
  mon : Nat → Monitor F
  mons : List Nat
  selmon : Nat
  prevzoom : Option Nat
  bh : Int

/-- Assignment to one slot of an array or one object of a heap. -/
def upd {α : Type} (f : Nat → α) (i : Nat) (v : α) : Nat → α :=
  fun j => if j = i then v else f j

/-- Assignment `*c = v` to the client object at address `c`. -/
def State.setClient {F : Type} (s : State F) (c : Nat) (v : Client) : State F :=
  { s with client := upd s.client c v }

/-- Assignment `*m = v` to the monitor object at address `m`. -/
def State.setMon {F : Type} (s : State F) (m : Nat) (v : Monitor F) : State F :=
  { s with mon := upd s.mon m v }

/-- The expression `m->tagset[m->seltags]`. -/
def Monitor.seltagset {F : Type} (m : Monitor F) : Nat := m.tagset m.seltags

/-- The macro `ISVISIBLEONTAG(C, T)`. -/
def ISVISIBLEONTAG (c : Client) (t : Nat) : Bool := (c.tags &&& t) != 0

/-- The macro `ISVISIBLE(C)`: `(C->tags & C->mon->tagset[C->mon->seltags]) || C->issticky`. -/
def ISVISIBLE {F : Type} (s : State F) (c : Nat) : Bool :=
  ((s.client c).tags &&& (s.mon (s.client c).mon).seltagset) != 0 || (s.client c).issticky

/-! ## Rule matching -/

/-- The condition of the `if` in the loop of `applyrules`. -/
def ruleMatches (r : Rule) (name class_ instance_ : List Char) : Bool :=
  (match r.title with | none => true | some t => strstr name t)
  && (match r.class_ with | none => true | some t => strstr class_ t)
  && (match r.instance_ with | none => true | some t => strstr instance_ t)

/-- The search `for (m = mons; m && m->num != r->monitor; m = m->next);`. -/
def findMonByNum {F : Type} (s : State F) (num : Int) : Option Nat :=
  s.mons.find? (fun m => (s.mon m).num == num)

/-- The body of the loop of `applyrules` for one rule. -/
def applyrule {F : Type} (s : State F) (name class_ instance_ : List Char) (c : Client) (r : Rule) :
    Client :=
  if ruleMatches r name class_ instance_ then
    { c with
      isterminal := r.isterminal
      noswallow := r.noswallow
      isfloating := r.isfloating
      tags := c.tags ||| r.tags
      mon := match findMonByNum s r.monitor with
        | some m => m
        | none => c.mon }
  else c

/-- The function `applyrules` on the client object `c` (not yet on any list),
for a rule table `rs`; `name` is `c->name`, `res_class` and `res_name` are the
two strings of the class hint (`none`: not set).  Returns the new content of `*c`. -/
def applyrules {F : Type} (rs : List Rule) (s : State F) (name : List Char)
    (res_class res_name : Option (List Char)) (c : Client) : Client :=
  let class_ := res_class.getD broken
  let instance_ := res_name.getD broken
  let c1 := rs.foldl (applyrule s name class_ instance_) { c with isfloating := false, tags := 0 }
  { c1 with tags := if (c1.tags &&& TAGMASK) != 0 then c1.tags &&& TAGMASK
                    else (s.mon c1.mon).seltagset }

/-! ## Client list and focus stack -/

/-- The function `attach`: `c->next = c->mon->clients; c->mon->clients = c;`. -/
def attach {F : Type} (s : State F) (c : Nat) : State F :=
  let m := (s.client c).mon
  s.setMon m { s.mon m with clients := c :: (s.mon m).clients }

/-- The loop and the insertion of `attachtop` on the list that starts at
`below`, with the current value of the counter `n`: `tiled b` is
`!(b->isfloating || !ISVISIBLEONTAG(b, c->tags))`. -/
def attachtopGo (tiled : Nat → Bool) (nmaster : Int) (c : Nat) : Int → List Nat → List Nat
  | _, [] => [c]
  | _, [b] => [b, c]
  | n, b :: b2 :: rest =>
    if !tiled b || n != nmaster then
      b :: attachtopGo tiled nmaster c (if !tiled b then n + 0 else n + 1) (b2 :: rest)
    else b :: c :: b2 :: rest

/-- The function `attachtop`: the counter starts at 1, the master count is
that of `selmon`, the list is that of `c->mon`. -/
def attachtop {F : Type} (s : State F) (c : Nat) : State F :=
  let m := (s.client c).mon
  let tiled := fun b => !((s.client b).isfloating || !ISVISIBLEONTAG (s.client b) (s.client c).tags)
  s.setMon m { s.mon m with
    clients := attachtopGo tiled (s.mon s.selmon).nmaster c 1 (s.mon m).clients }

/-- The function `attachstack`. -/
def attachstack {F : Type} (s : State F) (c : Nat) : State F :=
  let m := (s.client c).mon
  s.setMon m { s.mon m with stack := c :: (s.mon m).stack }

/-- The function `detach`, for a client that is on the list of its monitor:
the node is unlinked. -/
def detach {F : Type} (s : State F) (c : Nat) : State F :=
  let m := (s.client c).mon
  s.setMon m { s.mon m with clients := (s.mon m).clients.erase c }

/-- The function `detachstack`, for a client that is on the stack of its
monitor: the node is unlinked, and when it was the selection the first visible
client of the remaining stack is selected. -/
def detachstack {F : Type} (s : State F) (c : Nat) : State F :=
  let m := (s.client c).mon
  let s1 := s.setMon m { s.mon m with stack := (s.mon m).stack.erase c }
  if (s1.mon m).sel = some c then
    s1.setMon m { s1.mon m with sel := (s1.mon m).stack.find? (fun t => ISVISIBLE s1 t) }
  else s1

/-- The test of `nexttiled`: `!(c->isfloating || !ISVISIBLE(c))`. -/
def isTiled {F : Type} (s : State F) (c : Nat) : Bool :=
  !((s.client c).isfloating || !ISVISIBLE s c)

/-- The function `nexttiled` on the list that starts at its argument. -/
def nexttiled {F : Type} (s : State F) (l : List Nat) : Option Nat :=
  l.find? (isTiled s)

/-- The list that starts at `c->next`, for a client `c` on the list `l`. -/
def nextOf (l : List Nat) (c : Nat) : List Nat :=
  (l.dropWhile (fun x => x != c)).drop 1

/-- The loop of `findbefore` on the list that starts at `tmp`: the first node
whose `next` is `c` (`none` for NULL). -/
def findbeforeGo (c : Option Nat) : List Nat → Option Nat
  | [] => none
  | [t] => if c = none then some t else none
  | t :: u :: rest => if some u = c then some t else findbeforeGo c (u :: rest)

/-- The function `findbefore`. -/
def findbefore {F : Type} (s : State F) (c : Option Nat) : Option Nat :=
  if c = (s.mon s.selmon).clients.head? then none
  else findbeforeGo c (s.mon s.selmon).clients

/-- The statements `x->next = at->next; at->next = x;` on a list that holds `at`. -/
def insertAfter (at_ x : Nat) : List Nat → List Nat
  | [] => []
  | a :: rest => if a = at_ then a :: x :: rest else a :: insertAfter at_ x rest

/-- The first two statements of `focus(c)`: the client that is focused in the
end, the argument when it is visible and else the first visible client of the
stack of `selmon` (`none` for NULL). -/
def focusTarget {F : Type} (s : State F) (c : Option Nat) : Option Nat :=
  match c with
  | some x => if ISVISIBLE s x then some x else (s.mon s.selmon).stack.find? (fun t => ISVISIBLE s t)
  | none => (s.mon s.selmon).stack.find? (fun t => ISVISIBLE s t)

/-- The function `focus`.  `unfocus`, `grabbuttons`, `setfocus` and `drawbars`
only talk to the X server. -/
def focus {F : Type} (s : State F) (c : Option Nat) : State F :=
  match focusTarget s c with
  | some x =>
    let s1 := if (s.client x).mon ≠ s.selmon then { s with selmon := (s.client x).mon } else s
    let s2 := if (s1.client x).isurgent then s1.setClient x { s1.client x with isurgent := false } else s1
    let s3 := attachstack (detachstack s2 x) x
    s3.setMon s3.selmon { s3.mon s3.selmon with sel := some x }
  | none => s.setMon s.selmon { s.mon s.selmon with sel := none }

/-- The function `arrange`: `showhide`, `arrangemon` and `restack` move and
resize windows (see `tile`); none of the fields of `State` is written. -/
def arrange {F : Type} (s : State F) (_m : Option Nat) : State F := s

/-! ## Zoom -/

/-- The block `if (c == nexttiled(selmon->clients)) ...` of `zoom`, entered
with `c = selmon->sel` and `at = NULL`: either the function returns (left, with
the state reached) or it goes on with a state and the values of `c` and `at`. -/
def zoomBlock {F : Type} (s : State F) : State F ⊕ (State F × Option Nat × Option Nat) :=
  let m := s.mon s.selmon
  if m.sel = nexttiled s m.clients then
    let at_ := findbefore s s.prevzoom
    let cprevious :=
      match at_ with
      | some a => nexttiled s (nextOf m.clients a)
      | none => none
    if cprevious = none ∨ cprevious ≠ s.prevzoom then
      let s1 := { s with prevzoom := none }
      match m.sel with
      | none => Sum.inl s1
      | some c0 =>
        match nexttiled s (nextOf (s.mon (s.client c0).mon).clients c0) with
        | none => Sum.inl s1
        | some c1 => Sum.inr (s1, some c1, at_)
    else Sum.inr (s, cprevious, at_)
  else Sum.inr (s, m.sel, none)

/-- The body of `if (c != cold && at)` in `zoom`: `prevzoom = cold`, and when
`cold` is not `at` itself, `cold` is unlinked and linked in again behind `at`. -/
def zoomSwap {F : Type} (s2 : State F) (cold at_ : Option Nat) : State F :=
  let s3 := { s2 with prevzoom := cold }
  match cold, at_ with
  | some co, some a =>
    if a ≠ co then
      let s4 := detach s3 co
      s4.setMon s4.selmon
        { s4.mon s4.selmon with clients := insertAfter a co (s4.mon s4.selmon).clients }
    else s3
  | _, _ => s3

/-- The statements of `zoom` after that block, from `cold = nexttiled(...)` on.
`none` stands for the NULL dereference in `detach(c)` when `c` is NULL. -/
def zoomTail {F : Type} (s1 : State F) (c at0 : Option Nat) : Option (State F) :=
  let cold := nexttiled s1 (s1.mon s1.selmon).clients
  let at_ := if c ≠ cold ∧ at0 = none then findbefore s1 c else at0
  match c with
  | none => none
  | some c =>
    let s2 := attach (detach s1 c) c
    let s3 := if some c ≠ cold ∧ at_.isSome then zoomSwap s2 cold at_ else s2
    let s5 := focus s3 (some c)
    some (arrange s5 (some (s5.client c).mon))

/-- The function `zoom`. -/
def zoom {F : Type} (s : State F) : Option (State F) :=
  let m := s.mon s.selmon
  if !hasArrange (m.lt m.sellt)
      || (match m.sel with | some x => (s.client x).isfloating | none => false) then some s
  else
    match zoomBlock s with
    | Sum.inl r => some r
    | Sum.inr (s1, c, at0) => zoomTail s1 c at0

/-! ## Swallowing and unmanaging -/

/-- The constant `swallowfloating` of `config.h`. -/
def swallowfloating : Bool := false

/-- The clients of all monitors in the order of the nested loops
`for (m = mons; ...) for (c = m->clients; ...)`. -/
def allClients {F : Type} (s : State F) : List Nat :=
  (s.mons.map (fun m => (s.mon m).clients)).flatten

/-- The function `wintoclient`. -/
def wintoclient {F : Type} (s : State F) (w : Nat) : Option Nat :=
  (allClients s).find? (fun c => (s.client c).win == w)

/-- The function `swallowingclient`. -/
def swallowingclient {F : Type} (s : State F) (w : Nat) : Option Nat :=
  (allClients s).find? (fun c =>
    match (s.client c).swallowing with
    | some sw => (s.client sw).win == w
    | none => false)

/-- The function `setfullscreen` (the geometry is restored by `resizeclient`). -/
def setfullscreen {F : Type} (s : State F) (c : Nat) (fullscreen : Bool) : State F :=
  let cl := s.client c
  if fullscreen && !cl.isfullscreen then
    s.setClient c { cl with isfullscreen := true, oldstate := cl.isfloating, isfloating := true }
  else if !fullscreen && cl.isfullscreen then
    arrange (s.setClient c { cl with isfullscreen := false, isfloating := cl.oldstate }) (some cl.mon)
  else s

/-- The function `swallow(p, c)`. -/
def swallow {F : Type} (s : State F) (p c : Nat) : State F :=
  if (s.client c).noswallow || (s.client c).isterminal then s
  else if (s.client c).noswallow && !swallowfloating && (s.client c).isfloating then s
  else
    let s1 := detachstack (detach s c) c
    let s2 := s1.setClient p { s1.client p with swallowing := some c }
    let s3 := s2.setClient c { s2.client c with mon := (s2.client p).mon }
    let w := (s3.client p).win
    let s4 := s3.setClient p { s3.client p with win := (s3.client c).win }
    let s5 := s4.setClient c { s4.client c with win := w }
    arrange s5 (some (s5.client p).mon)

/-- The function `unswallow(c)`, for a client with `c->swallowing != NULL`. -/
def unswallow {F : Type} (s : State F) (c : Nat) : State F :=
  match (s.client c).swallowing with
  | none => s
  | some sw =>
    let s1 := s.setClient c { s.client c with win := (s.client sw).win }
    let s2 := s1.setClient c { s1.client c with swallowing := none }
    let s3 := setfullscreen s2 c false
    let s4 := arrange s3 (some (s3.client c).mon)
    let s5 := focus s4 none
    arrange s5 (some (s5.client c).mon)

/-- The function `unmanage(c, destroyed)`; `destroyed` only selects X requests. -/
def unmanage {F : Type} (s : State F) (c : Nat) (_destroyed : Bool) : State F :=
  let m := (s.client c).mon
  if ((s.client c).swallowing).isSome then unswallow s c
  else
    match swallowingclient s (s.client c).win with
    | some sc =>
      let s1 := s.setClient sc { s.client sc with swallowing := none }
      focus (arrange s1 (some m)) none
    | none =>
      let s1 := detachstack (detach s c) c
      focus (arrange s1 (some m)) none

/-- The handler `destroynotify` for the window `w`. -/
def destroynotify {F : Type} (s : State F) (w : Nat) : State F :=
  match wintoclient s w with
  | some c => unmanage s c true
  | none =>
    match swallowingclient s w with
    | some c =>
      match (s.client c).swallowing with
      | some sw => unmanage s sw true
      | none => s
    | none => s

/-! ## Per-tag settings and tag switching -/

/-- The function `updatebarpos`. -/
def updatebarpos {F : Type} (bh : Int) (m : Monitor F) : Monitor F :=
  let m1 := { m with wy := m.my, wh := m.mh }
  if m1.showbar then
    let m2 := { m1 with wh := m1.wh - bh }
    let m3 := { m2 with by_ := if m2.topbar then m2.wy else m2.wy + m2.wh }
    { m3 with wy := if m3.topbar then m3.wy + bh else m3.wy }
  else { m1 with by_ := -bh }

/-- The function `createmon`: the object that it returns.  `mfact0` and
`nmaster0` are the configured `mfact` and `nmaster`, the four gap values are
the current values of the globals `gappih`, `gappiv`, `gappoh`, `gappov`. -/
def createmon {F : Type} (mfact0 : F) (nmaster0 : Int) (gih giv goh gov : Int) : Monitor F :=
  { mfact := mfact0, nmaster := nmaster0, num := 0, by_ := 0,
    mx := 0, my := 0, mw := 0, mh := 0, wx := 0, wy := 0, ww := 0, wh := 0,
    gappiv := giv, gappov := gov, gappih := gih, gappoh := goh,
    seltags := 0, sellt := 0, tagset := fun _ => 1,
    showbar := true, topbar := true,
    clients := [], sel := none, stack := [],
    lt := fun i => if i = 0 then 0 else 1 % layouts.length,
    pertag :=
      { curtag := 1, prevtag := 1,
        nmasters := fun _ => nmaster0,
        mfacts := fun _ => mfact0,
        sellts := fun _ => 0,
        ltidxs := fun _ i => if i = 0 then 0 else 1 % layouts.length,
        showbars := fun _ => true } }

/-- The function `togglebar`. -/
def togglebar {F : Type} (s : State F) : State F :=
  let m := s.mon s.selmon
  let v := !m.showbar
  let m1 := { m with showbar := v, pertag := { m.pertag with showbars := upd m.pertag.showbars m.pertag.curtag v } }
  arrange (s.setMon s.selmon (updatebarpos s.bh m1)) (some s.selmon)

/-- The function `setnmaster`. -/
def setnmaster {F : Type} (s : State F) (i : Int) : State F :=
  let m := s.mon s.selmon
  arrange (s.setMon s.selmon
    { m with nmaster := i, pertag := { m.pertag with nmasters := upd m.pertag.nmasters m.pertag.curtag i } })
    (some s.selmon)

/-- The function `incnmaster`. -/
def incnmaster {F : Type} (s : State F) (i : Int) : State F :=
  setnmaster s (max ((s.mon s.selmon).nmaster + i) 0)

/-- The function `setlayout`; `v` is `arg->v`, a pointer into `layouts[]`
(`none` for a NULL `arg` or `arg->v`). -/
def setlayout {F : Type} (s : State F) (v : Option Nat) : State F :=
  let m := s.mon s.selmon
  let m1 :=
    if v = none ∨ v ≠ some (m.lt m.sellt) then
      let x := (m.pertag.sellts m.pertag.curtag) ^^^ 1
      { m with sellt := x, pertag := { m.pertag with sellts := upd m.pertag.sellts m.pertag.curtag x } }
    else m
  let m2 :=
    match v with
    | some p =>
      { m1 with
        lt := upd m1.lt m1.sellt p
        pertag := { m1.pertag with
          ltidxs := upd m1.pertag.ltidxs m1.pertag.curtag
            (upd (m1.pertag.ltidxs m1.pertag.curtag) m1.sellt p) } }
    | none => m1
  arrange (s.setMon s.selmon m2) (some s.selmon)

/-- The function `setlayoutex`, for an argument that keeps the index inside
`layouts[]` or one past its end. -/
def setlayoutex {F : Type} (s : State F) (i : Int) : State F :=
  let k := (((s.mon s.selmon).sellt : Int) + i) % 4294967296
  let k := if k = layouts.length then 0 else k
  setlayout s (some k.toNat)

/-- The arithmetic on `float` values that `setmfact` performs, kept abstract:
`lt1 x` is `x < 1.0`, `add`, `sub1 x` is `x - 1.0`, `outside f` is
`f < 0.05 || f > 0.95`. -/
structure FloatOps (F : Type) where
  lt1 : F → Bool
  add : F → F → F
  sub1 : F → F
  outside : F → Bool

/-- The function `setmfact` for a non-NULL argument. -/
def setmfact {F : Type} (fl : FloatOps F) (s : State F) (x : F) : State F :=
  let m := s.mon s.selmon
  if !hasArrange (m.lt m.sellt) then s
  else
    let f := if fl.lt1 x then fl.add x m.mfact else fl.sub1 x
    if fl.outside f then s
    else
      arrange (s.setMon s.selmon
        { m with mfact := f, pertag := { m.pertag with mfacts := upd m.pertag.mfacts m.pertag.curtag f } })
        (some s.selmon)

/-- The loop `for (i = 0; !(x & 1 << i); i++);` for an `x` with a bit set
among the lowest 32. -/
def lowbit (x : Nat) : Nat :=
  ((List.range 32).find? (fun i => (x &&& (1 <<< i)) != 0)).getD 32

/-- The tail shared by `view` and `toggleview`: the settings of the current
tag are copied from the `Pertag` arrays, the bar is toggled when its state
differs, then `focus(NULL)` and `arrange(selmon)`. -/
def applyPertag {F : Type} (s : State F) : State F :=
  let m := s.mon s.selmon
  let p := m.pertag
  let m1 := { m with nmaster := p.nmasters p.curtag, mfact := p.mfacts p.curtag, sellt := p.sellts p.curtag }
  let m2 := { m1 with lt := upd m1.lt m1.sellt (p.ltidxs p.curtag m1.sellt) }
  let m3 := { m2 with lt := upd m2.lt (m2.sellt ^^^ 1) (p.ltidxs p.curtag (m2.sellt ^^^ 1)) }
  let s1 := s.setMon s.selmon m3
  let s2 := if m3.showbar != p.showbars p.curtag then togglebar s1 else s1
  arrange (focus s2 none) (some s2.selmon)

/-- The function `view`; `ui` is `arg->ui`. -/
def view {F : Type} (s : State F) (ui : Nat) : State F :=
  let m := s.mon s.selmon
  if ui &&& TAGMASK = m.seltagset then s
  else
    let m1 := { m with seltags := m.seltags ^^^ 1 }
    let m2 :=
      if (ui &&& TAGMASK) != 0 then
        { m1 with
          tagset := upd m1.tagset m1.seltags (ui &&& TAGMASK)
          pertag := { m1.pertag with
            prevtag := m1.pertag.curtag
            curtag := if ui = UINT_MAX then 0 else lowbit ui + 1 } }
      else
        { m1 with pertag := { m1.pertag with prevtag := m1.pertag.curtag, curtag := m1.pertag.prevtag } }
    applyPertag (s.setMon s.selmon m2)

/-- The function `toggleview`; `none` stands for the shift `1 << (curtag - 1)`
with `curtag == 0`, whose count is out of range. -/
def toggleview {F : Type} (s : State F) (ui : Nat) : Option (State F) :=
  let m := s.mon s.selmon
  let newtagset := m.seltagset ^^^ (ui &&& TAGMASK)
  if newtagset != 0 then
    let m1 := { m with tagset := upd m.tagset m.seltags newtagset }
    let m2 :=
      if newtagset = UINT_MAX then
        { m1 with pertag := { m1.pertag with prevtag := m1.pertag.curtag, curtag := 0 } }
      else m1
    if m2.pertag.curtag = 0 then none
    else
      let m3 :=
        if (newtagset &&& (1 <<< (m2.pertag.curtag - 1))) = 0 then
          { m2 with pertag := { m2.pertag with prevtag := m2.pertag.curtag, curtag := lowbit newtagset + 1 } }
        else m2
      some (applyPertag (s.setMon s.selmon m3))
  else some s

/-- The function `toggleview` as the machine runs it: `sh` is the value that
the shift `1 << (curtag - 1)` yields when `curtag` is 0 and its count is out of
range (bit 31 where the count is taken modulo 32, 0 where it is not); for every
other `curtag` the function is `toggleview`. -/
def toggleviewShift {F : Type} (sh : Nat) (s : State F) (ui : Nat) : State F :=
  let m := s.mon s.selmon
  let newtagset := m.seltagset ^^^ (ui &&& TAGMASK)
  if newtagset != 0 then
    let m1 := { m with tagset := upd m.tagset m.seltags newtagset }
    let m2 :=
      if newtagset = UINT_MAX then
        { m1 with pertag := { m1.pertag with prevtag := m1.pertag.curtag, curtag := 0 } }
      else m1
    let bit := if m2.pertag.curtag = 0 then sh else 1 <<< (m2.pertag.curtag - 1)
    let m3 :=
      if (newtagset &&& bit) = 0 then
        { m2 with pertag := { m2.pertag with prevtag := m2.pertag.curtag, curtag := lowbit newtagset + 1 } }
      else m2
    applyPertag (s.setMon s.selmon m3)
  else s

/-! ## Tagging and floating -/

/-- The function `tag`. -/
def tag {F : Type} (s : State F) (ui : Nat) : State F :=
  match (s.mon s.selmon).sel with
  | some c =>
    if (ui &&& TAGMASK) != 0 then
      let s1 := s.setClient c { s.client c with tags := ui &&& TAGMASK }
      arrange (focus s1 none) (some s1.selmon)
    else s
  | none => s

/-- The function `toggletag`. -/
def toggletag {F : Type} (s : State F) (ui : Nat) : State F :=
  match (s.mon s.selmon).sel with
  | none => s
  | some c =>
    let newtags := (s.client c).tags ^^^ (ui &&& TAGMASK)
    if newtags != 0 then
      let s1 := s.setClient c { s.client c with tags := newtags }
      arrange (focus s1 none) (some s1.selmon)
    else s

/-- The function `togglesticky`. -/
def togglesticky {F : Type} (s : State F) : State F :=
  match (s.mon s.selmon).sel with
  | none => s
  | some c =>
    arrange (s.setClient c { s.client c with issticky := !(s.client c).issticky }) (some s.selmon)

/-- The function `togglefloating` (the `resize` call only changes geometry). -/
def togglefloating {F : Type} (s : State F) : State F :=
  match (s.mon s.selmon).sel with
  | none => s
  | some c =>
    if (s.client c).isfullscreen then s
    else
      arrange (s.setClient c
        { s.client c with isfloating := !(s.client c).isfloating || (s.client c).isfixed })
        (some s.selmon)

/-! ## Managing a new window -/

/-- What the X server reports about a window that is about to be managed:
window, owner pid, title, class hint, transient-for hint, whether its state is
fullscreen, whether its type is dialog, the `isfixed` that `updatesizehints`
computes, and the WM hints (urgency flag, input hint when set). -/
structure NewWindow where
  win : Nat
  pid : Nat
  name : List Char
  res_class : Option (List Char)
  res_name : Option (List Char)
  trans : Option Nat
  fullscreen : Bool
  dialog : Bool
  isfixed : Bool
  wmhints : Option (Bool × Option Bool)
deriving DecidableEq, Repr

/-- The function `isdescprocess(p, c)` with the parent lookup as a parameter.
The loop ends when the chain of parents reaches `p` or 0; `fuel` bounds the
number of steps and `none` reports that it did not suffice. -/
def isdescprocess (getparentprocess : Nat → Nat) : Nat → Nat → Nat → Option Nat
  | 0, _, _ => none
  | fuel + 1, p, c =>
    if p != c && c != 0 then isdescprocess getparentprocess fuel p (getparentprocess c)
    else some c

/-- The loop of `termforwin` over the clients of all monitors. -/
def termforwinGo {F : Type} (getparentprocess : Nat → Nat) (fuel : Nat) (s : State F) (w : Client) :
    List Nat → Option (Option Nat)
  | [] => some none
  | c :: rest =>
    if (s.client c).isterminal && ((s.client c).swallowing).isNone && (s.client c).pid != 0 then
      match isdescprocess getparentprocess fuel (s.client c).pid w.pid with
      | none => none
      | some r => if r != 0 then some (some c) else termforwinGo getparentprocess fuel s w rest
    else termforwinGo getparentprocess fuel s w rest

/-- The function `termforwin` for the new client `w` (not yet on a list). -/
def termforwin {F : Type} (getparentprocess : Nat → Nat) (fuel : Nat) (s : State F) (w : Client) :
    Option (Option Nat) :=
  if w.pid = 0 || w.isterminal then some none
  else termforwinGo getparentprocess fuel s w (allClients s)

/-- The object that `ecalloc` returns in `manage`, with `win` and `pid` set. -/
def newClient (w : NewWindow) : Client :=
  { tags := 0, isfixed := false, isfloating := false, isurgent := false, neverfocus := false,
    oldstate := false, isfullscreen := false, isterminal := false, noswallow := false,
    issticky := false, pid := w.pid, swallowing := none, mon := 0, win := w.win }

/-- The function `manage` for the rule table `rs`; `c` is the address of the
new `Client` object.  `none`: the process walk of `termforwin` ran out of fuel. -/
def manage {F : Type} (rs : List Rule) (getparentprocess : Nat → Nat) (fuel : Nat)
    (s : State F) (c : Nat) (w : NewWindow) : Option (State F) :=
  let c0 := newClient w
  let t := match w.trans with
    | some tw => wintoclient s tw
    | none => none
  let r : Option (Client × Option Nat) :=
    match t with
    | some t => some ({ c0 with mon := (s.client t).mon, tags := (s.client t).tags }, none)
    | none =>
      let c1 := applyrules rs s w.name w.res_class w.res_name { c0 with mon := s.selmon }
      (termforwin getparentprocess fuel s c1).map (fun term => (c1, term))
  match r with
  | none => none
  | some (c1, term) =>
    -- updatewindowtype
    let c2 := if w.fullscreen && !c1.isfullscreen then
        { c1 with isfullscreen := true, oldstate := c1.isfloating, isfloating := true } else c1
    let c3 := if w.dialog then { c2 with isfloating := true } else c2
    -- updatesizehints
    let c4 := { c3 with isfixed := w.isfixed }
    -- updatewmhints
    let c5 :=
      match w.wmhints with
      | some (u, input) =>
        let c5 := if (s.mon s.selmon).sel = some c ∧ u then c4 else { c4 with isurgent := u }
        match input with
        | some i => { c5 with neverfocus := !i }
        | none => { c5 with neverfocus := false }
      | none => c4
    let c6 := if !c5.isfloating then
        { c5 with isfloating := w.trans.isSome || c5.isfixed, oldstate := w.trans.isSome || c5.isfixed }
      else c5
    let s1 := s.setClient c c6
    let s2 := attachstack (attachtop s1 c) c
    let s3 := s2.setMon c6.mon { s2.mon c6.mon with sel := some c }
    let s4 := arrange s3 (some c6.mon)
    let s5 := match term with
      | some p => swallow s4 p c
      | none => s4
    some (focus s5 none)

/-! ## Stack navigation and moving clients between monitors -/

/-- The macro `INC(X)`. -/
def INC (x : Int) : Int := x + 2000

/-- The macro `ISINC(X)`. -/
def ISINC (x : Int) : Bool := x > 1000 && x < 3000

/-- The macro `GETINC(X)`. -/
def GETINC (x : Int) : Int := x - 2000

/-- The macro `MOD(N,M)`; `%` of C truncates. -/
def MOD (n m : Int) : Int := if Int.tmod n m < 0 then Int.tmod n m + m else Int.tmod n m

/-- The constant `PREVSEL`. -/
def PREVSEL : Int := 3000

/-- The number of visible clients of a list: the counter `i += ISVISIBLE(c) ? 1 : 0`. -/
def countVisible {F : Type} (s : State F) (l : List Nat) : Int :=
  ((l.filter (fun c => ISVISIBLE s c)).length : Int)

/-- The function `stackpos`; `i` is `arg->i`.  `none` stands for a loop that
runs off the client list (the client looked for is not on it) and for the
remainder by zero. -/
def stackpos {F : Type} (s : State F) (i : Int) : Option Int :=
  let m := s.mon s.selmon
  if m.clients = [] then some (-1)
  else if i = PREVSEL then
    match m.stack.find? (fun l => !(!ISVISIBLE s l || some l == m.sel)) with
    | none => some (-1)
    | some l =>
      if l ∈ m.clients then some (countVisible s (m.clients.takeWhile (fun c => c != l)))
      else none
  else if ISINC i then
    match m.sel with
    | none => some (-1)
    | some sl =>
      if sl ∈ m.clients then
        let k := countVisible s (m.clients.takeWhile (fun c => c != sl))
        let n := k + countVisible s (m.clients.dropWhile (fun c => c != sl))
        if n = 0 then none else some (MOD (k + GETINC i) n)
      else none
  else if i < 0 then some (max (countVisible s m.clients + i) 0)
  else some i

/-- The function `focusstack`; `i` is `arg->i`.  `restack` only talks to the X
server.  `none` stands for a selected client that is not on the client list of
`selmon`: the loop `for (i = selmon->clients; i != selmon->sel; ...)` then runs
off the list. -/
def focusstack {F : Type} (s : State F) (i : Int) : Option (State F) :=
  match (s.mon s.selmon).sel with
  | none => some s
  | some sel =>
    let l := (s.mon s.selmon).clients
    if sel ∈ l then
      let c :=
        if GETINC i > 0 then
          match (nextOf l sel).find? (fun c => ISVISIBLE s c) with
          | some c => some c
          | none => l.find? (fun c => ISVISIBLE s c)
        else
          match ((l.takeWhile (fun c => c != sel)).filter (fun c => ISVISIBLE s c)).getLast? with
          | some c => some c
          | none => ((l.dropWhile (fun c => c != sel)).filter (fun c => ISVISIBLE s c)).getLast?
      match c with
      | some c => some (focus s (some c))
      | none => some s
    else none

/-- The function `sendmon`.  `unfocus` only talks to the X server. -/
def sendmon {F : Type} (s : State F) (c m : Nat) : State F :=
  if (s.client c).mon = m then s
  else
    let s1 := detachstack (detach s c) c
    let s2 := s1.setClient c { s1.client c with mon := m, tags := (s1.mon m).seltagset }
    let s3 := attachstack (attachtop s2 c) c
    arrange (focus s3 none) none

/-- The function `tagall`: `tag` with the argument `~0`. -/
def tagall {F : Type} (s : State F) : State F := tag s UINT_MAX

/-- The function `tagex`: `tag` with the argument `1 << arg->ui`; `sh` is the
value that the shift yields when its result does not fit `int` (a count of 31
or more). -/
def tagex {F : Type} (sh : Nat) (s : State F) (ui : Nat) : State F :=
  tag s (if ui < 31 then 1 <<< ui else sh)

/-! ## Start-up -/

/-- The state that `setup` leaves on a single screen of size `sw` x `sh`:
`updategeom` creates one monitor (kept at address 0) that covers the screen and
calls `updatebarpos`; no client is managed and `prevzoom` is NULL. -/
def setupState {F : Type} (mfact0 : F) (nmaster0 : Int) (gih giv goh gov : Int) (sw sh bh : Int) :
    State F :=
  { client := fun _ =>
      { tags := 0, isfixed := false, isfloating := false, isurgent := false, neverfocus := false,
        oldstate := false, isfullscreen := false, isterminal := false, noswallow := false,
        issticky := false, pid := 0, swallowing := none, mon := 0, win := 0 }
    mon := fun _ => updatebarpos bh { createmon mfact0 nmaster0 gih giv goh gov with mw := sw, mh := sh, ww := sw, wh := sh }
    mons := [0]
    selmon := 0
    prevzoom := none
    bh := bh }

/-! ## Geometry: `applysizehints`, `resize`, `tile` -/

/-- Conversion to `unsigned int`: the value modulo 2^32. -/
def u32 (x : Int) : Int := x % 4294967296

/-- Conversion of an `unsigned int` value to `int` (two's complement). -/
def i32 (x : Int) : Int := (x + 2147483648) % 4294967296 - 2147483648

/-- The geometry and size-hint fields of `struct Client`. -/
structure Geom (F : Type) where
  x : Int
  y : Int
  w : Int
  h : Int
  oldx : Int
  oldy : Int
  oldw : Int
  oldh : Int
  bw : Int
  oldbw : Int
  basew : Int
  baseh : Int
  incw : Int
  inch : Int
  maxw : Int
  maxh : Int
  minw : Int
  minh : Int
  mina : F
  maxa : F

/-- The macro `WIDTH(X)`. -/
def WIDTH {F : Type} (c : Geom F) : Int := c.w + 2 * c.bw

/-- The macro `HEIGHT(X)`. -/
def HEIGHT {F : Type} (c : Geom F) : Int := c.h + 2 * c.bw

/-- The `float` arithmetic of the geometry code, kept abstract: `pos a` is
`a > 0`; `ltRatio a p q` is `a < (float)p / q`; `mulRound p a` is the `int`
that `p * a + 0.5` converts to; `mulTrunc u a` is the `unsigned int` that the
product of the `unsigned int` `u` and `a` converts to. -/
structure GeomFloat (F : Type) where
  pos : F → Bool
  ltRatio : F → Int → Int → Bool
  mulRound : Int → F → Int
  mulTrunc : Int → F → Int

/-- The globals that the geometry code reads: screen size `sw`, `sh`, bar height
`bh`, and the `unsigned int` variables `borderpx` and `gapsenabled`. -/
structure LayoutEnv where
  sw : Int
  sh : Int
  bh : Int
  borderpx : Int
  gapsenabled : Int

/-- The constant `resizehints` of `config.h`. -/
def resizehints : Bool := false

/-- The constant `smartgaps` of `config.h`. -/
def smartgaps : Int := 0

/-- A requested geometry: the arguments `x, y, w, h, bw` of `resize`. -/
structure Req where
  x : Int
  y : Int
  w : Int
  h : Int
  bw : Int
deriving DecidableEq, Repr

/-- The function `applysizehints` for a client `c` of the monitor `m`;
`isfloating` is `c->isfloating`.  Returns the adjusted values of `*x, *y, *w,
*h, *bw` and the return value.  Arithmetic on `int` is exact (an overflow is
undefined in C). -/
def applysizehints {F : Type} (fl : GeomFloat F) (env : LayoutEnv) (m : Monitor F)
    (isfloating : Bool) (c : Geom F) (rq : Req) (interact : Bool) : Req × Bool :=
  let w := max 1 rq.w
  let h := max 1 rq.h
  let bw := rq.bw
  let x := rq.x
  let y := rq.y
  let (x, y) :=
    if interact then
      let x := if x > env.sw then env.sw - WIDTH c else x
      let y := if y > env.sh then env.sh - HEIGHT c else y
      let x := if x + w + 2 * bw < 0 then 0 else x
      let y := if y + h + 2 * bw < 0 then 0 else y
      (x, y)
    else
      let x := if x ≥ m.wx + m.ww then m.wx + m.ww - WIDTH c else x
      let y := if y ≥ m.wy + m.wh then m.wy + m.wh - HEIGHT c else y
      let x := if x + w + 2 * bw ≤ m.wx then m.wx else x
      let y := if y + h + 2 * bw ≤ m.wy then m.wy else y
      (x, y)
  let h := if h < env.bh then env.bh else h
  let w := if w < env.bh then env.bh else w
  let (w, h) :=
    if resizehints || isfloating || !hasArrange (m.lt m.sellt) then
      let baseismin := c.basew = c.minw ∧ c.baseh = c.minh
      let (w, h) := if ¬ baseismin then (w - c.basew, h - c.baseh) else (w, h)
      let (w, h) :=
        if fl.pos c.mina && fl.pos c.maxa then
          if fl.ltRatio c.maxa w h then (fl.mulRound h c.maxa, h)
          else if fl.ltRatio c.mina h w then (w, fl.mulRound w c.mina)
          else (w, h)
        else (w, h)
      let (w, h) := if baseismin then (w - c.basew, h - c.baseh) else (w, h)
      let w := if c.incw ≠ 0 then w - Int.tmod w c.incw else w
      let h := if c.inch ≠ 0 then h - Int.tmod h c.inch else h
      let w := max (w + c.basew) c.minw
      let h := max (h + c.baseh) c.minh
      let w := if c.maxw ≠ 0 then min w c.maxw else w
      let h := if c.maxh ≠ 0 then min h c.maxh else h
      (w, h)
    else (w, h)
  (⟨x, y, w, h, bw⟩, decide (x ≠ c.x ∨ y ≠ c.y ∨ w ≠ c.w ∨ h ≠ c.h ∨ bw ≠ c.bw))

/-- The function `resizeclient`. -/
def resizeclient {F : Type} (c : Geom F) (rq : Req) : Geom F :=
  { c with oldx := c.x, x := rq.x, oldy := c.y, y := rq.y, oldw := c.w, w := rq.w,
           oldh := c.h, h := rq.h, oldbw := c.bw, bw := rq.bw }

/-- The function `resize`. -/
def resize {F : Type} (fl : GeomFloat F) (env : LayoutEnv) (m : Monitor F) (isfloating : Bool)
    (c : Geom F) (rq : Req) (interact : Bool) : Geom F :=
  let r := applysizehints fl env m isfloating c rq interact
  if r.2 then resizeclient c r.1 else c

/-- The function `monhasgaps`. -/
def monhasgaps {F : Type} (env : LayoutEnv) (m : Monitor F) : Bool :=
  env.gapsenabled ≠ 0 && (m.gappiv ≠ 0 || m.gappih ≠ 0 || m.gappov ≠ 0 || m.gappoh ≠ 0)

/-- The second loop of `tile` from the client at the head of `cs` on, with the
current values of `i`, `my`, `ty`; `cs` are the tiled clients of `m` in list
order (what `nexttiled` enumerates).  For every client the result holds the
geometry requested from `resize` and the client after the call. -/
def tileLoop {F : Type} (fl : GeomFloat F) (env : LayoutEnv) (m : Monitor F) (n bw mw oe ie : Int) :
    Int → Int → Int → List (Geom F) → List (Req × Geom F)
  | _, _, _, [] => []
  | i, my, ty, c :: cs =>
    if i < u32 m.nmaster then
      let r := u32 ((if n < u32 m.nmaster then n else u32 m.nmaster) - i)
      let h := u32 (m.wh - my - m.gappoh * oe - m.gappih * ie * (r - 1)) / r
      let rq : Req :=
        ⟨i32 (u32 (m.wx + m.gappov * oe)), i32 (u32 (m.wy + my)),
         i32 (u32 (mw - 2 * bw - m.gappiv * ie)), i32 (u32 (h - 2 * bw)), i32 bw⟩
      let c1 := resize fl env m false c rq false
      let my1 := if u32 (my + HEIGHT c1 + m.gappih * ie) < u32 m.wh
        then u32 (my + HEIGHT c1 + m.gappih * ie) else my
      (rq, c1) :: tileLoop fl env m n bw mw oe ie (u32 (i + 1)) my1 ty cs
    else
      let r := u32 (n - i)
      let h := u32 (m.wh - ty - m.gappoh * oe - m.gappih * ie * (r - 1)) / r
      let rq : Req :=
        ⟨i32 (u32 (m.wx + mw + m.gappov * oe)), i32 (u32 (m.wy + ty)),
         i32 (u32 (m.ww - mw - 2 * bw - 2 * m.gappov * oe)), i32 (u32 (h - 2 * bw)), i32 bw⟩
      let c1 := resize fl env m false c rq false
      let ty1 := if u32 (ty + HEIGHT c1 + m.gappih * ie) < u32 m.wh
        then u32 (ty + HEIGHT c1 + m.gappih * ie) else ty
      (rq, c1) :: tileLoop fl env m n bw mw oe ie (u32 (i + 1)) my ty1 cs

/-- The function `tile` on the monitor `m`, traced: `sel` is the monitor
`selmon` (for `monhasgaps`), `cs` are the tiled clients of `m` in list order.
All locals are `unsigned int`. -/
def tileTrace {F : Type} (fl : GeomFloat F) (env : LayoutEnv) (sel m : Monitor F)
    (cs : List (Geom F)) : List (Req × Geom F) :=
  let n : Int := u32 cs.length
  if n = 0 then []
  else
    let bw : Int := if n = 1 ∧ !monhasgaps env sel then 0 else u32 env.borderpx
    let ie : Int := u32 env.gapsenabled
    let oe : Int := if u32 smartgaps = n then 0 else u32 env.gapsenabled
    let mw : Int :=
      if n > u32 m.nmaster then
        (if m.nmaster ≠ 0 then u32 (fl.mulTrunc (u32 (m.ww + m.gappiv * ie)) m.mfact) else 0)
      else u32 (m.ww - 2 * m.gappov * oe + m.gappiv * ie)
    tileLoop fl env m n bw mw oe ie 0 (u32 (m.gappoh * oe)) (u32 (m.gappoh * oe)) cs

/-- The function `tile`: the clients after the call. -/
def tile {F : Type} (fl : GeomFloat F) (env : LayoutEnv) (sel m : Monitor F)
    (cs : List (Geom F)) : List (Geom F) :=
  (tileTrace fl env sel m cs).map (fun p => p.2)

/-! ## Rectangles -/

/-- A rectangle: origin, width and height. -/
structure Rect where
  x : Int
  y : Int
  w : Int
  h : Int
deriving DecidableEq, Repr

/-- The outer rectangle of a client: `x, y, WIDTH(c), HEIGHT(c)`. -/
def outer {F : Type} (c : Geom F) : Rect := ⟨c.x, c.y, WIDTH c, HEIGHT c⟩

/-- Two rectangles share a point. -/
def Overlap (a b : Rect) : Prop :=
  a.x < b.x + b.w ∧ b.x < a.x + a.w ∧ a.y < b.y + b.h ∧ b.y < a.y + a.h

instance (a b : Rect) : Decidable (Overlap a b) := by
  unfold Overlap; infer_instance

/-- The rectangles form one column: every one spans from `left` to `right`,
the first starts at `top`, each next one starts `gap` below the end of the one
before, and the last ends at `bottom`. -/
def IsColumn (left right bottom gap : Int) : Int → List Rect → Prop
  | _, [] => False
  | top, [r] => r.x = left ∧ r.x + r.w = right ∧ 0 < r.w ∧ 0 < r.h ∧ r.y = top ∧ r.y + r.h = bottom
  | top, r :: r2 :: rest =>
    r.x = left ∧ r.x + r.w = right ∧ 0 < r.w ∧ 0 < r.h ∧ r.y = top
    ∧ IsColumn left right bottom gap (r.y + r.h + gap) (r2 :: rest)

/-- The rectangles, with the gaps `goh`/`gov` at the edges and `gih`/`giv`
between neighbours, exactly fill the area `ax, ay, aw, ah`: the first `k`
form a column and the others a second column right of it, `giv` apart, or
(for `k = 0` or `k` the number of rectangles) all form a single column. -/
def FillsWithGaps (ax ay aw ah goh gov gih giv : Int) (k : Nat) (rs : List Rect) : Prop :=
  if k = 0 ∨ rs.length ≤ k then
    IsColumn (ax + gov) (ax + aw - gov) (ay + ah - goh) gih (ay + goh) rs
  else
    ∃ mid : Int,
      IsColumn (ax + gov) mid (ay + ah - goh) gih (ay + goh) (rs.take k)
      ∧ IsColumn (mid + giv) (ax + aw - gov) (ay + ah - goh) gih (ay + goh) (rs.drop k)

/-! ## Monitor lookup by rectangle -/

/-- The macro `INTERSECT(x,y,w,h,m)`: the area that the rectangle shares with
the window area of the monitor.  The operands are `int` values; every sum,
difference and product is reduced to the 32 bits of `int`, as the machine
does. -/
def INTERSECT {F : Type} (x y w h : Int) (m : Monitor F) : Int :=
  i32 (max 0 (i32 (min (i32 (x + w)) (i32 (m.wx + m.ww)) - max x m.wx))
    * max 0 (i32 (min (i32 (y + h)) (i32 (m.wy + m.wh)) - max y m.wy)))

/-- The loop of `recttomon` over the monitor list, with the current values of
`r` and `area`. -/
def recttomonGo {F : Type} (s : State F) (x y w h : Int) : List Nat → Nat → Int → Nat
  | [], r, _ => r
  | m :: rest, r, area =>
    if INTERSECT x y w h (s.mon m) > area then
      recttomonGo s x y w h rest m (INTERSECT x y w h (s.mon m))
    else recttomonGo s x y w h rest r area

/-- The function `recttomon`. -/
def recttomon {F : Type} (s : State F) (x y w h : Int) : Nat :=
  recttomonGo s x y w h s.mons s.selmon 0

/-- The rectangle and the window area of the monitor are such that no step of
`INTERSECT` leaves the range of `int`: the coordinates and sizes are below 2^29
in absolute value, and the area of the window area is below 2^31. -/
def RectRange {F : Type} (x y w h : Int) (m : Monitor F) : Prop :=
  (-536870912 < x ∧ x < 536870912) ∧ (-536870912 < y ∧ y < 536870912)
  ∧ (-536870912 < w ∧ w < 536870912) ∧ (-536870912 < h ∧ h < 536870912)
  ∧ (-536870912 < m.wx ∧ m.wx < 536870912) ∧ (-536870912 < m.wy ∧ m.wy < 536870912)
  ∧ (-536870912 < m.ww ∧ m.ww < 536870912) ∧ (-536870912 < m.wh ∧ m.wh < 536870912)
  ∧ max 0 m.ww * max 0 m.wh < 2147483648

instance {F : Type} (x y w h : Int) (m : Monitor F) : Decidable (RectRange x y w h m) := by
  unfold RectRange; infer_instance

/-! ## Configure requests -/

/-- The fields of `XConfigureRequestEvent` that `configurerequest` reads for a
managed window. -/
structure XConfigureRequestEvent where
  window : Nat
  value_mask : Nat
  x : Int
  y : Int
  width : Int
  height : Int
  border_width : Int
deriving DecidableEq, Repr

/-- The mask bit `CWX` of `X.h`. -/
def CWX : Nat := 1 <<< 0

/-- The mask bit `CWY` of `X.h`. -/
def CWY : Nat := 1 <<< 1

/-- The mask bit `CWWidth` of `X.h`. -/
def CWWidth : Nat := 1 <<< 2

/-- The mask bit `CWHeight` of `X.h`. -/
def CWHeight : Nat := 1 <<< 3

/-- The mask bit `CWBorderWidth` of `X.h`. -/
def CWBorderWidth : Nat := 1 <<< 4

/-- The branch of `configurerequest` for a managed client `c`: `floating` is
`c->isfloating`, `arranges` is `selmon->lt[selmon->sellt]->arrange != NULL`,
`m` is `c->mon`.  `configure` and `XMoveResizeWindow` only talk to the X
server.  The `int` sums are taken in the integers. -/
def configureClient {F : Type} (floating arranges : Bool) (m : Monitor F) (c : Geom F)
    (ev : XConfigureRequestEvent) : Geom F :=
  if ev.value_mask &&& CWBorderWidth ≠ 0 then { c with bw := ev.border_width }
  else if floating || !arranges then
    let c1 := if ev.value_mask &&& CWX ≠ 0 then { c with oldx := c.x, x := m.mx + ev.x } else c
    let c2 := if ev.value_mask &&& CWY ≠ 0 then { c1 with oldy := c1.y, y := m.my + ev.y } else c1
    let c3 := if ev.value_mask &&& CWWidth ≠ 0 then { c2 with oldw := c2.w, w := ev.width } else c2
    let c4 := if ev.value_mask &&& CWHeight ≠ 0 then { c3 with oldh := c3.h, h := ev.height } else c3
    let c5 := if c4.x + c4.w > m.mx + m.mw ∧ floating then
        { c4 with x := m.mx + (Int.tdiv m.mw 2 - Int.tdiv (WIDTH c4) 2) } else c4
    if c5.y + c5.h > m.my + m.mh ∧ floating then
      { c5 with y := m.my + (Int.tdiv m.mh 2 - Int.tdiv (HEIGHT c5) 2) } else c5
  else c

/-- The function `configurerequest` on the geometry of the clients: `geom c`
holds the geometry fields of the client at address `c`.  For a window that is
not managed the request is passed on to the X server and no client changes. -/
def configurerequest {F : Type} (s : State F) (geom : Nat → Geom F)
    (ev : XConfigureRequestEvent) : Nat → Geom F :=
  match wintoclient s ev.window with
  | some c =>
    upd geom c (configureClient (s.client c).isfloating
      (hasArrange ((s.mon s.selmon).lt (s.mon s.selmon).sellt)) (s.mon (s.client c).mon)
      (geom c) ev)
  | none => geom

/-! ## The layout `centeredmaster` -/

/-- The loop of `centeredmaster` from the client at the head of `cs` on, with
the current values of `i`, `my`, `oty`, `ety`; `n`, `bw`, `mw`, `mx`, `tw` are
the locals set before the loop, `cs` are the tiled clients of `m` in list
order.  For every client the result holds the geometry requested from `resize`
and the client after the call.  The width and height passed to `resize` are
reduced by `2*c->bw`, the border width the client has before the call. -/
def centeredmasterLoop {F : Type} (fl : GeomFloat F) (env : LayoutEnv) (m : Monitor F)
    (n bw mw mx tw : Int) : Int → Int → Int → Int → List (Geom F) → List (Req × Geom F)
  | _, _, _, _, [] => []
  | i, my, oty, ety, c :: cs =>
    if i < u32 m.nmaster then
      let h := u32 (m.wh - my) / u32 ((if n < u32 m.nmaster then n else u32 m.nmaster) - i)
      let rq : Req :=
        ⟨i32 (u32 (m.wx + mx)), i32 (u32 (m.wy + my)), i32 (u32 (mw - 2 * c.bw)),
         i32 (u32 (h - 2 * c.bw)), i32 bw⟩
      let c1 := resize fl env m false c rq false
      (rq, c1) :: centeredmasterLoop fl env m n bw mw mx tw (u32 (i + 1)) (u32 (my + HEIGHT c1))
        oty ety cs
    else if u32 (i - u32 m.nmaster) % 2 ≠ 0 then
      let h := u32 (m.wh - ety) / (u32 (1 + n - i) / 2)
      let rq : Req :=
        ⟨m.wx, i32 (u32 (m.wy + ety)), i32 (u32 (tw - 2 * c.bw)), i32 (u32 (h - 2 * c.bw)),
         i32 bw⟩
      let c1 := resize fl env m false c rq false
      (rq, c1) :: centeredmasterLoop fl env m n bw mw mx tw (u32 (i + 1)) my oty
        (u32 (ety + HEIGHT c1)) cs
    else
      let h := u32 (m.wh - oty) / (u32 (1 + n - i) / 2)
      let rq : Req :=
        ⟨i32 (u32 (m.wx + mx + mw)), i32 (u32 (m.wy + oty)), i32 (u32 (tw - 2 * c.bw)),
         i32 (u32 (h - 2 * c.bw)), i32 bw⟩
      let c1 := resize fl env m false c rq false
      (rq, c1) :: centeredmasterLoop fl env m n bw mw mx tw (u32 (i + 1)) my
        (u32 (oty + HEIGHT c1)) ety cs

/-- The local `bw` of `tile` and `centeredmaster` for `n` tiled clients; `sel`
is the monitor `selmon`, whose gaps `monhasgaps` is asked about. -/
def layoutBorder {F : Type} (env : LayoutEnv) (sel : Monitor F) (n : Int) : Int :=
  if n = 1 ∧ !monhasgaps env sel then 0 else u32 env.borderpx

/-- The locals `mw`, `mx`, `tw` of `centeredmaster` before the loop. -/
def centeredmasterAreas {F : Type} (fl : GeomFloat F) (m : Monitor F) (n : Int) :
    Int × Int × Int :=
  if n > u32 m.nmaster then
    let mw := if m.nmaster ≠ 0 then u32 (fl.mulTrunc m.ww m.mfact) else 0
    if u32 (n - u32 m.nmaster) > 1 then (mw, u32 (m.ww - mw) / 2, u32 (m.ww - mw) / 2)
    else (mw, 0, u32 (m.ww - mw))
  else (u32 m.ww, 0, u32 m.ww)

/-- The function `centeredmaster` on the monitor `m`, traced: `sel` is the
monitor `selmon`, `cs` are the tiled clients of `m` in list order.  All locals
are `unsigned int`. -/
def centeredmasterTrace {F : Type} (fl : GeomFloat F) (env : LayoutEnv) (sel m : Monitor F)
    (cs : List (Geom F)) : List (Req × Geom F) :=
  let n : Int := u32 cs.length
  if n = 0 then []
  else
    let a := centeredmasterAreas fl m n
    centeredmasterLoop fl env m n (layoutBorder env sel n) a.1 a.2.1 a.2.2 0 0 0 0 cs

/-- The function `centeredmaster`: the clients after the call. -/
def centeredmaster {F : Type} (fl : GeomFloat F) (env : LayoutEnv) (sel m : Monitor F)
    (cs : List (Geom F)) : List (Geom F) :=
  (centeredmasterTrace fl env sel m cs).map (fun p => p.2)

/-! ## Relations between states used in the statements -/

/-- The state `t` differs from `s` at most in the client lists, focus stacks
and selections of the monitors, in `prevzoom`, and in urgency flags. -/
def Frame {F : Type} (s t : State F) : Prop :=
  (∀ j, t.client j = { s.client j with isurgent := (t.client j).isurgent })
  ∧ (∀ m, t.mon m = { s.mon m with
        clients := (t.mon m).clients, stack := (t.mon m).stack, sel := (t.mon m).sel })
  ∧ t.mons = s.mons ∧ t.selmon = s.selmon ∧ t.bh = s.bh

/-- The client came out of `resize` with exactly the requested geometry: the
size-hint adjustment altered nothing. -/
def Unaltered {F : Type} (p : Req × Geom F) : Prop :=
  p.2.x = p.1.x ∧ p.2.y = p.1.y ∧ p.2.w = p.1.w ∧ p.2.h = p.1.h ∧ p.2.bw = p.1.bw

/-- The monitor geometry, gaps, border width and client count are non-negative
and below 2^28, so that none of the sums in `tile` leaves the range of `int`. -/
def InRange {F : Type} (env : LayoutEnv) (m : Monitor F) (n : Nat) : Prop :=
  0 ≤ m.wx ∧ m.wx < 268435456 ∧ 0 ≤ m.wy ∧ m.wy < 268435456
  ∧ 0 ≤ m.ww ∧ m.ww < 268435456 ∧ 0 ≤ m.wh ∧ m.wh < 268435456
  ∧ 0 ≤ m.gappiv ∧ m.gappiv < 268435456 ∧ 0 ≤ m.gappov ∧ m.gappov < 268435456
  ∧ 0 ≤ m.gappih ∧ m.gappih < 268435456 ∧ 0 ≤ m.gappoh ∧ m.gappoh < 268435456
  ∧ 0 ≤ env.borderpx ∧ env.borderpx < 268435456
  ∧ (env.gapsenabled = 0 ∨ env.gapsenabled = 1)
  ∧ 0 ≤ m.nmaster ∧ m.nmaster < 268435456 ∧ n < 268435456

instance {F : Type} (p : Req × Geom F) : Decidable (Unaltered p) := by
  unfold Unaltered; infer_instance

/-- The settings of the monitor (`nmaster`, `mfact`, selected layout slot, both
layout pointers and bar visibility) equal the `Pertag` entry of `curtag`. -/
def PertagApplied {F : Type} (m : Monitor F) : Prop :=
  m.nmaster = m.pertag.nmasters m.pertag.curtag
  ∧ m.mfact = m.pertag.mfacts m.pertag.curtag
  ∧ m.sellt = m.pertag.sellts m.pertag.curtag
  ∧ m.lt m.sellt = m.pertag.ltidxs m.pertag.curtag m.sellt
  ∧ m.lt (m.sellt ^^^ 1) = m.pertag.ltidxs m.pertag.curtag (m.sellt ^^^ 1)
  ∧ m.showbar = m.pertag.showbars m.pertag.curtag

/-- Bit `k` is the lowest bit set in the tag mask `x`: tag number `k + 1` is
the lowest-numbered tag of `x`. -/
def IsLowestTag (x k : Nat) : Prop :=
  (x &&& (1 <<< k)) ≠ 0 ∧ ∀ j < k, (x &&& (1 <<< j)) = 0

/-- The offset of stack client `k` in its column of `centeredmaster`: the
columns of the clients 0 and 1 start at `a` and `b`, and client `k + 2` starts
where client `k`, the one before it in the same column, ends; `hs` are the
outer heights of the clients after `resize`.  The sum is an `unsigned int`. -/
def columnOffset (hs : List Int) (a b : Int) : Nat → Int
  | 0 => a
  | 1 => b
  | k + 2 => u32 (columnOffset hs a b k + hs.getD k 0)

/-! ## Reachable states -/

/-- The invariant kept by the functions that write the `Pertag` settings:
`curtag` and `prevtag` are indices into the `Pertag` arrays, both tag-sets lie
within `TAGMASK`, and the settings of the monitor are those stored at `curtag`. -/
def PertagOk {F : Type} (m : Monitor F) : Prop :=
  m.pertag.curtag ≤ tags.length ∧ m.pertag.prevtag ≤ tags.length
  ∧ (∀ i, m.tagset i ≤ TAGMASK) ∧ PertagApplied m

/-- The monitor is an object that `createmon` returned, up to the fields that
`updategeom`, `updatebarpos` and `manage` fill in afterwards: its number, its
geometry, and its lists. -/
def FromCreatemon {F : Type} (m : Monitor F) : Prop :=
  ∃ (mfact0 : F) (nmaster0 gih giv goh gov : Int),
    { m with num := 0, by_ := 0, mx := 0, my := 0, mw := 0, mh := 0, wx := 0, wy := 0, ww := 0,
             wh := 0, clients := [], sel := none, stack := [] }
      = createmon mfact0 nmaster0 gih giv goh gov

/-- The states reached from monitors that `createmon` returned through `view`,
`toggleview` (with any value of its shift when `curtag` is 0), `setnmaster`,
`incnmaster`, `setmfact`, `setlayout` (with NULL or a pointer to an entry of
`layouts[]`), `setlayoutex` with +1 and `togglebar`. -/
inductive PertagReach {F : Type} (fl : FloatOps F) : State F → Prop
  | start (s : State F) : (∀ m, FromCreatemon (s.mon m)) → PertagReach fl s
  | view (s : State F) (ui : Nat) : PertagReach fl s → PertagReach fl (view s ui)
  | toggleview (s : State F) (sh ui : Nat) :
      PertagReach fl s → PertagReach fl (toggleviewShift sh s ui)
  | setnmaster (s : State F) (i : Int) : PertagReach fl s → PertagReach fl (setnmaster s i)
  | incnmaster (s : State F) (i : Int) : PertagReach fl s → PertagReach fl (incnmaster s i)
  | setmfact (s : State F) (x : F) : PertagReach fl s → PertagReach fl (setmfact fl s x)
  | setlayout (s : State F) (v : Option Nat) :
      (∀ p, v = some p → p < layouts.length) → PertagReach fl s → PertagReach fl (setlayout s v)
  | setlayoutex (s : State F) : PertagReach fl s → PertagReach fl (setlayoutex s 1)
  | togglebar (s : State F) : PertagReach fl s → PertagReach fl (togglebar s)

/-- The tag mask is not empty and holds only bits of `TAGMASK`. -/
def TagsOk (x : Nat) : Prop := x ≠ 0 ∧ x &&& TAGMASK = x

/-- Every client on the client list of a monitor has a tag mask that is not
empty and within `TAGMASK`, and so has each of the two tag-sets of every
monitor. -/
def TagInv {F : Type} (s : State F) : Prop :=
  (∀ m, ∀ x ∈ (s.mon m).clients, TagsOk (s.client x).tags)
  ∧ (∀ m i, TagsOk ((s.mon m).tagset i))

/-- The states reached from monitors that `createmon` returned, with no client
managed yet, through `manage` (which calls `applyrules` for the new client,
with any rule table), `tag`, `tagex`, `tagall`, `toggletag`, `sendmon`, `view`
and `toggleview`; `tagex` and `toggleview` with any value of a shift whose
count is out of range. -/
inductive TagReach {F : Type} : State F → Prop
  | start (s : State F) :
      (∀ m, FromCreatemon (s.mon m) ∧ (s.mon m).clients = []) → TagReach s
  | manage (s t : State F) (rs : List Rule) (getparentprocess : Nat → Nat) (fuel c : Nat)
      (w : NewWindow) :
      TagReach s → manage rs getparentprocess fuel s c w = some t → TagReach t
  | tag (s : State F) (ui : Nat) : TagReach s → TagReach (tag s ui)
  | tagex (s : State F) (sh ui : Nat) : TagReach s → TagReach (tagex sh s ui)
  | tagall (s : State F) : TagReach s → TagReach (tagall s)
  | toggletag (s : State F) (ui : Nat) : TagReach s → TagReach (toggletag s ui)
  | sendmon (s : State F) (c m : Nat) : TagReach s → TagReach (sendmon s c m)
  | view (s : State F) (ui : Nat) : TagReach s → TagReach (view s ui)
  | toggleview (s : State F) (sh ui : Nat) :
      TagReach s → TagReach (toggleviewShift sh s ui)

/-- The visible clients of a list other than `sel`, in list order: the clients
that the loop of `pushstack` counts. -/
def visibleOthers {F : Type} (s : State F) (sel : Nat) (l : List Nat) : List Nat :=
  l.filter (fun c => ISVISIBLE s c && c != sel)

/-! ## Concrete states used to instantiate the theorems -/

/-- A client object as `manage` leaves it for a plain window: tag mask `tags`,
window `win`, on the monitor at address 0. -/
def plainClient (tags win : Nat) : Client :=
  { tags := tags, isfixed := false, isfloating := false, isurgent := false, neverfocus := false,
    oldstate := false, isfullscreen := false, isterminal := false, noswallow := false,
    issticky := false, pid := 0, swallowing := none, mon := 0, win := win }

/-- A state with one monitor (address 0, tag 1 viewed, `nmaster` 1, tile layout)
that holds the given client list, focus stack and selection; `mfact` is kept in
hundredths. -/
def oneMonitor (clients stack : List Nat) (sel : Option Nat) (client : Nat → Client)
    (prevzoom : Option Nat) : State Nat :=
  { client := client
    mon := fun m =>
      if m = 0 then
        { updatebarpos 20 { createmon (55 : Nat) 1 10 10 10 10 with mw := 1920, mh := 1080 } with
          clients := clients, stack := stack, sel := sel }
      else createmon (55 : Nat) 1 10 10 10 10
    mons := [0]
    selmon := 0
    prevzoom := prevzoom
    bh := 20 }

/-- The `float` arithmetic instantiated with `mfact` kept in hundredths. -/
def hundredths : GeomFloat Nat :=
  { pos := fun a => decide (0 < a)
    ltRatio := fun a p q => decide ((a : Int) * q < 100 * p)
    mulRound := fun p a => (p * a + 50) / 100
    mulTrunc := fun u a => u * a / 100 }

/-- A client of 10 by 10 pixels at the origin with border width 1 and no size
hints. -/
def smallClient : Geom Nat :=
  { x := 0, y := 0, w := 10, h := 10, oldx := 0, oldy := 0, oldw := 0, oldh := 0, bw := 1,
    oldbw := 1, basew := 0, baseh := 0, incw := 0, inch := 0, maxw := 0, maxh := 0, minw := 0,
    minh := 0, mina := 0, maxa := 0 }

/-- A monitor of 1920 by 1080 pixels with a bar of 20 pixels at the top, one
master client and all four gaps 10. -/
def wideMonitor : Monitor Nat :=
  { createmon (55 : Nat) 1 10 10 10 10 with ww := 1920, wh := 1060, wy := 20 }

/-- The globals that go with `wideMonitor`. -/
def wideEnv : LayoutEnv := { sw := 1920, sh := 1080, bh := 20, borderpx := 1, gapsenabled := 1 }

/-- A monitor with a window area of 100 by 50 pixels, no master client and a
horizontal inner gap of 60 pixels. -/
def lowMonitor : Monitor Nat :=
  { createmon (55 : Nat) 0 60 0 0 0 with ww := 100, wh := 50 }

/-- The globals that go with `lowMonitor`. -/
def lowEnv : LayoutEnv := { sw := 100, sh := 70, bh := 20, borderpx := 1, gapsenabled := 1 }

/-- The client `smallClient` with border width 0, as an arrangement of a single
client without gaps leaves it. -/
def borderlessClient : Geom Nat := { smallClient with bw := 0 }

/-- The monitor `wideMonitor` with all four gaps 0, as `incgaps` with the
argument -10 leaves it. -/
def gaplessMonitor : Monitor Nat :=
  { wideMonitor with gappih := 0, gappiv := 0, gappoh := 0, gappov := 0 }

/-- The state `oneMonitor` with a second, empty monitor at address 1 on the
monitor list; monitor 0 is selected. -/
def twoMonitors (clients stack : List Nat) (sel : Option Nat) (client : Nat → Client) :
    State Nat :=
  { oneMonitor clients stack sel client none with mons := [0, 1] }

/-- The arithmetic of `setmfact` instantiated with non-negative values kept in
hundredths: 1.0 is 100, the bounds 0.05 and 0.95 are 5 and 95. -/
def hundredthsOps : FloatOps Nat :=
  { lt1 := fun a => decide (a < 100)
    add := fun a b => a + b
    sub1 := fun a => a - 100
    outside := fun f => decide (f < 5) || decide (f > 95) }

/-- A terminal client (window 11, process 5) as `manage` leaves it for a window
that the rule for `St` matches. -/
def terminalClient : Client := { plainClient 1 11 with isterminal := true, pid := 5 }

/-- Two monitors of 1920 by 1080 pixels side by side, each with a bar of 20
pixels at the top; the left one (address 0) is selected. -/
def sideBySide : State Nat :=
  { twoMonitors [] [] none (fun _ => plainClient 1 0) with
    mon := fun m => if m = 0 then wideMonitor
      else { wideMonitor with wx := 1920, mx := 1920, num := 1 } }

/-! # Theorems -/

theorem mem_dispatch {F : Type} (str : List Char) (len : Nat) (arg : Arg F) (s : Signal) :
    ∀ tbl : List Signal, s ∈ tbl → strncmp_eq str s.sig len = true →
      (s.func, arg) ∈ dispatch str len arg tbl := by
  intro tbl
  induction tbl with
  | nil => intro h; cases h
  | cons t rest ih =>
    intro hmem hcmp
    rcases List.mem_cons.mp hmem with h | h
    · subst h
      simp [dispatch, hcmp]
    · by_cases ht : strncmp_eq str t.sig len = true
      · simp only [dispatch, ht, if_true]
        exact List.mem_cons_of_mem _ (ih h hcmp)
      · simp only [dispatch, ht]
        exact ih h hcmp

theorem takeWhile_token (tok rest : List Char) (h : ∀ c ∈ tok, isspace c = false)
    (hr : ∀ c, rest.head? = some c → isspace c = true) :
    (tok ++ rest).takeWhile (fun c => !isspace c) = tok
    ∧ (tok ++ rest).dropWhile (fun c => !isspace c) = rest := by
  induction tok with
  | nil =>
    cases rest with
    | nil => simp
    | cons r rs =>
      have := hr r rfl
      simp [List.takeWhile, List.dropWhile, this]
  | cons c cs ih =>
    have hc : isspace c = false := h c (List.mem_cons_self _ _)
    have := ih (fun d hd => h d (List.mem_cons_of_mem _ hd))
    simp [List.takeWhile, List.dropWhile, hc, this]

theorem scan_s_token (tok rest : List Char) (hne : tok ≠ []) (h : ∀ c ∈ tok, isspace c = false)
    (hr : ∀ c, rest.head? = some c → isspace c = true) :
    scan_s (tok ++ rest) = some (tok, tok.length, rest) := by
  obtain ⟨c, cs, rfl⟩ := List.exists_cons_of_ne_nil hne
  have hc : isspace c = false := h c (List.mem_cons_self _ _)
  have hd : ((c :: cs) ++ rest).dropWhile isspace = (c :: cs) ++ rest := by
    simp [List.dropWhile, hc]
  have ht := takeWhile_token (c :: cs) rest h hr
  unfold scan_s
  simp only [hd, ht.1, ht.2]
  simp

theorem scan_s_space_token (tok rest : List Char) (hne : tok ≠ []) (h : ∀ c ∈ tok, isspace c = false)
    (hr : ∀ c, rest.head? = some c → isspace c = true) :
    scan_s (' ' :: (tok ++ rest)) = some (tok, tok.length + 1, rest) := by
  obtain ⟨c, cs, rfl⟩ := List.exists_cons_of_ne_nil hne
  have hc : isspace c = false := h c (List.mem_cons_self _ _)
  have hsp : isspace ' ' = true := by decide
  have hd : (' ' :: ((c :: cs) ++ rest)).dropWhile isspace = (c :: cs) ++ rest := by
    simp [List.dropWhile, hc, hsp]
  have ht := takeWhile_token (c :: cs) rest h hr
  unfold scan_s
  simp only [hd, ht.1, ht.2]
  simp
  omega

end Dwm

namespace Dwm

theorem drop_prefix_eq (a b : List Char) (k : Nat) (h : k = a.length) : (a ++ b).drop k = b := by
  subst h; exact List.drop_left _ _

theorem signals_wellformed :
    ∀ s ∈ signals, s.sig ≠ [] ∧ (∀ c ∈ s.sig, isspace c = false) ∧ s.sig.length < 50 := by
  decide

theorem gettextprop_short (t : List Char) (hne : t ≠ []) (hlen : t.length ≤ 255) :
    gettextprop (some t) 256 = some t := by
  cases t with
  | nil => exact absurd rfl hne
  | cons c cs =>
    have h : (c :: cs).take 255 = c :: cs := List.take_of_length_le hlen
    simp only [gettextprop]
    rw [show (256 - 1 : Nat) = 255 from rfl, h]
    simp

theorem fake_signal_name {F : Type} (strtof : List Char → Option F) (name : List Char)
    (hne : name ≠ []) (hsp : ∀ c ∈ name, isspace c = false) (hlen : name.length < 50) :
    fake_signal strtof (some ("fsignal:".toList ++ name))
      = some (1, dispatch name name.length Arg.zero signals) := by
  have hind : "fsignal:".toList = ['f', 's', 'i', 'g', 'n', 'a', 'l', ':'] := rfl
  have hg : gettextprop (some ("fsignal:".toList ++ name)) 256 = some ("fsignal:".toList ++ name) := by
    apply gettextprop_short
    · simp [hind]
    · simp [hind]; omega
  have hscan : scan_s name = some (name, name.length, []) := by
    have := scan_s_token name [] hne hsp (by simp)
    simpa using this
  have hscan2 : scan_s ([] : List Char) = none := by decide
  unfold fake_signal
  rw [hg]
  have hdrop : ("fsignal:".toList ++ name).drop ("fsignal:".toList).length = name := List.drop_left _ _
  have hcmp : strncmp_eq "fsignal:".toList ("fsignal:".toList ++ name) ("fsignal:".toList).length = true := by
    simp [strncmp_eq]
  have hl : ¬ (("fsignal:".toList).length > ("fsignal:".toList ++ name).length) := by
    simp
  simp only [hl, hcmp, hdrop, sscanf_s_n_s_n, hscan, hscan2, if_false, if_true]
  simp
  omega

theorem sscanf_two_tokens (name ty v : List Char)
    (hne : name ≠ []) (hsp : ∀ c ∈ name, isspace c = false)
    (hty : ty ≠ []) (htsp : ∀ c ∈ ty, isspace c = false) :
    sscanf_s_n_s_n (name ++ ' ' :: (ty ++ ' ' :: v))
      = { paramn := 2, str_sig := some name, len_str_sig := some name.length,
          param := some ty, n := some (name.length + (ty.length + 1)) } := by
  have h1 := scan_s_token name (' ' :: (ty ++ ' ' :: v)) hne hsp
    (by intro c hc; simp at hc; subst hc; decide)
  have h2 := scan_s_space_token ty (' ' :: v) hty htsp
    (by intro c hc; simp at hc; subst hc; decide)
  simp only [sscanf_s_n_s_n, h1, h2]

theorem fake_signal_typed {F : Type} (strtof : List Char → Option F) (name ty v : List Char)
    (hne : name ≠ []) (hsp : ∀ c ∈ name, isspace c = false) (hlen : name.length < 50)
    (hty : ty = "i".toList ∨ ty = "ui".toList ∨ ty = "f".toList)
    (htot : ("fsignal:".toList ++ (name ++ ' ' :: (ty ++ ' ' :: v))).length ≤ 255) :
    fake_signal strtof (some ("fsignal:".toList ++ (name ++ ' ' :: (ty ++ ' ' :: v))))
      = ((if ty = "i".toList then (sscanf_i (' ' :: v)).map Arg.i
          else if ty = "ui".toList then (sscanf_u (' ' :: v)).map Arg.ui
          else (strtof (' ' :: v)).map Arg.f).map
          (fun arg => ((1 : Int), dispatch name name.length arg signals))) := by
  have hind : "fsignal:".toList = ['f', 's', 'i', 'g', 'n', 'a', 'l', ':'] := rfl
  have hg := gettextprop_short ("fsignal:".toList ++ (name ++ ' ' :: (ty ++ ' ' :: v)))
    (by simp [hind]) htot
  have htne : ty ≠ [] := by rcases hty with h | h | h <;> subst h <;> decide
  have htsp : ∀ c ∈ ty, isspace c = false := by rcases hty with h | h | h <;> subst h <;> decide
  have hsc := sscanf_two_tokens name ty v hne hsp htne htsp
  have hdrop : ("fsignal:".toList ++ (name ++ ' ' :: (ty ++ ' ' :: v))).drop ("fsignal:".toList).length
      = name ++ ' ' :: (ty ++ ' ' :: v) := List.drop_left _ _
  have hdrop2 : ("fsignal:".toList ++ (name ++ ' ' :: (ty ++ ' ' :: v))).drop
      (("fsignal:".toList).length + (name.length + (ty.length + 1))) = ' ' :: v := by
    have e : "fsignal:".toList ++ (name ++ ' ' :: (ty ++ ' ' :: v))
        = ("fsignal:".toList ++ name ++ ' ' :: ty) ++ ' ' :: v := by simp
    rw [e]
    apply drop_prefix_eq
    simp
    omega
  have hcmp : strncmp_eq "fsignal:".toList ("fsignal:".toList ++ (name ++ ' ' :: (ty ++ ' ' :: v)))
      ("fsignal:".toList).length = true := by
    simp [strncmp_eq]
  have hl : ¬ (("fsignal:".toList).length > ("fsignal:".toList ++ (name ++ ' ' :: (ty ++ ' ' :: v))).length) := by
    simp
  have hsub : name.length + (ty.length + 1) - name.length = ty.length + 1 := by omega
  have hlen2 : ¬ ((name.length ≥ 50) ∨ (ty.length ≥ 16)) := by
    rcases hty with h | h | h <;> subst h <;> simp <;> omega
  unfold fake_signal
  rw [hg]
  simp only [hl, hcmp, hdrop, hsc, hdrop2, hsub, if_false, if_true, Option.getD_some, hlen2]
  rcases hty with h | h | h <;> subst h
  · have c1 : strncmp_eq "i".toList "i".toList ("i".toList.length + 1) = true := by decide
    simp only [c1, if_true]
    cases sscanf_i (' ' :: v) <;> simp
  · have c1 : strncmp_eq "ui".toList "i".toList ("ui".toList.length + 1) = false := by decide
    have c2 : strncmp_eq "ui".toList "ui".toList ("ui".toList.length + 1) = true := by decide
    have c3 : ¬ ("ui".toList = "i".toList) := by decide
    simp only [c1, c2, c3, if_true, if_false]
    cases sscanf_u (' ' :: v) <;> simp
  · have c1 : strncmp_eq "f".toList "i".toList ("f".toList.length + 1) = false := by decide
    have c2 : strncmp_eq "f".toList "ui".toList ("f".toList.length + 1) = false := by decide
    have c4 : strncmp_eq "f".toList "f".toList ("f".toList.length + 1) = true := by decide
    have c3 : ¬ ("f".toList = "i".toList) := by decide
    have c5 : ¬ ("f".toList = "ui".toList) := by decide
    simp only [c1, c2, c3, c4, c5, if_true, if_false]
    cases strtof (' ' :: v) <;> simp

theorem sscanf_i_space (v : List Char) : sscanf_i (' ' :: v) = sscanf_i v := by
  have h : isspace ' ' = true := by decide
  simp [sscanf_i, List.dropWhile, h]

theorem sscanf_u_space (v : List Char) : sscanf_u (' ' :: v) = sscanf_u v := by
  have h : isspace ' ' = true := by decide
  simp [sscanf_u, List.dropWhile, h]

/-- C5: for every registered signal name, `fsignal:<name>` calls the registered
function with the all-zero argument, `fsignal:<name> i <v>` and
`fsignal:<name> ui <v>` call it with the integer that `%i` / `%u` decode from
`<v>`, `fsignal:<name> f <v>` calls it with the float that `%f` decodes, and
`fake_signal` returns 1 each time; `fsignal:togglebar` calls exactly
`togglebar` with the zero argument. -/
theorem C5_fake_signal_invokes_registered {F : Type} (strtof : List Char → Option F)
    (s : Signal) (hs : s ∈ signals) :
    (∃ calls, fake_signal strtof (some ("fsignal:".toList ++ s.sig)) = some (1, calls)
        ∧ (s.func, Arg.zero) ∈ calls)
    ∧ (∀ (v : List Char) (n : Int),
        ("fsignal:".toList ++ (s.sig ++ ' ' :: ("i".toList ++ ' ' :: v))).length ≤ 255 →
        sscanf_i v = some n →
        ∃ calls, fake_signal strtof
            (some ("fsignal:".toList ++ (s.sig ++ ' ' :: ("i".toList ++ ' ' :: v)))) = some (1, calls)
          ∧ (s.func, Arg.i n) ∈ calls)
    ∧ (∀ (v : List Char) (n : Nat),
        ("fsignal:".toList ++ (s.sig ++ ' ' :: ("ui".toList ++ ' ' :: v))).length ≤ 255 →
        sscanf_u v = some n →
        ∃ calls, fake_signal strtof
            (some ("fsignal:".toList ++ (s.sig ++ ' ' :: ("ui".toList ++ ' ' :: v)))) = some (1, calls)
          ∧ (s.func, Arg.ui n) ∈ calls)
    ∧ (∀ (v : List Char) (x : F),
        ("fsignal:".toList ++ (s.sig ++ ' ' :: ("f".toList ++ ' ' :: v))).length ≤ 255 →
        strtof (' ' :: v) = some x →
        ∃ calls, fake_signal strtof
            (some ("fsignal:".toList ++ (s.sig ++ ' ' :: ("f".toList ++ ' ' :: v)))) = some (1, calls)
          ∧ (s.func, Arg.f x) ∈ calls)
    ∧ fake_signal strtof (some "fsignal:togglebar".toList) = some (1, [(Func.togglebar, Arg.zero)]) := by
  obtain ⟨hne, hsp, hlen⟩ := signals_wellformed s hs
  have hself : strncmp_eq s.sig s.sig s.sig.length = true := by simp [strncmp_eq]
  refine ⟨?_, ?_, ?_, ?_, ?_⟩
  · exact ⟨_, fake_signal_name strtof s.sig hne hsp hlen, mem_dispatch _ _ _ s signals hs hself⟩
  · intro v n htot hv
    refine ⟨_, ?_, mem_dispatch s.sig s.sig.length (Arg.i n) s signals hs hself⟩
    rw [fake_signal_typed strtof s.sig "i".toList v hne hsp hlen (Or.inl rfl) htot]
    simp [sscanf_i_space, hv]
  · intro v n htot hv
    refine ⟨_, ?_, mem_dispatch s.sig s.sig.length (Arg.ui n) s signals hs hself⟩
    rw [fake_signal_typed strtof s.sig "ui".toList v hne hsp hlen (Or.inr (Or.inl rfl)) htot]
    have c3 : ¬ ("ui".toList = "i".toList) := by decide
    simp [sscanf_u_space, hv, c3]
  · intro v x htot hv
    refine ⟨_, ?_, mem_dispatch s.sig s.sig.length (Arg.f x) s signals hs hself⟩
    rw [fake_signal_typed strtof s.sig "f".toList v hne hsp hlen (Or.inr (Or.inr rfl)) htot]
    have c3 : ¬ ("f".toList = "i".toList) := by decide
    have c5 : ¬ ("f".toList = "ui".toList) := by decide
    simp [hv, c3, c5]
  · rw [show "fsignal:togglebar".toList = "fsignal:".toList ++ "togglebar".toList from rfl,
      fake_signal_name strtof "togglebar".toList (by decide) (by decide) (by decide)]
    rfl

theorem C5_fake_signal_invokes_registered_witness :
    (⟨"setmfact".toList, Func.setmfact⟩ : Signal) ∈ signals
    ∧ (∃ calls, fake_signal (fun _ => some (10 : Nat)) (some "fsignal:setmfact f 0.10".toList)
          = some (1, calls) ∧ (Func.setmfact, Arg.f 10) ∈ calls)
    ∧ (∃ calls, fake_signal (fun _ => some (10 : Nat)) (some "fsignal:setmfact i 42".toList)
          = some (1, calls) ∧ (Func.setmfact, Arg.i 42) ∈ calls) :=
  ⟨by decide,
   (C5_fake_signal_invokes_registered (fun _ => some (10 : Nat)) ⟨"setmfact".toList, Func.setmfact⟩
      (by decide)).2.2.2.1 "0.10".toList 10 (by decide) rfl,
   (C5_fake_signal_invokes_registered (fun _ => some (10 : Nat)) ⟨"setmfact".toList, Func.setmfact⟩
      (by decide)).2.1 "42".toList 42 (by decide) (by decide)⟩


/-- C6 (failing input): the text `fsignal:togglebar i 1 2` has four tokens, one
more than name, type tag and value, and `fake_signal` still calls `togglebar`
(with the integer 1): the return value of `sscanf` with two conversions is
never above 2, so the test `paramn > 2` cannot reject it. -/
theorem C6_extra_token_still_invokes {F : Type} (strtof : List Char → Option F) :
    fake_signal strtof (some "fsignal:togglebar i 1 2".toList)
      = some (1, [(Func.togglebar, Arg.i 1)])
    ∧ (sscanf_s_n_s_n "togglebar i 1 2".toList).paramn = 2 := by
  constructor
  · rfl
  · decide

/-- C7 (failing input): `fsignal:tag ui 1` calls `tagmon`, `tag`, `tagall` and
`tagex`, every function whose signal name starts with `tag`, not `tag` alone. -/
theorem C7_prefix_match_invokes_several {F : Type} (strtof : List Char → Option F) :
    fake_signal strtof (some "fsignal:tag ui 1".toList)
      = some (1, [(Func.tagmon, Arg.ui 1), (Func.tag, Arg.ui 1), (Func.tagall, Arg.ui 1),
                  (Func.tagex, Arg.ui 1)]) := by
  rfl


theorem applyrule_fold_tags {F : Type} (s : State F) (name cls inst : List Char) :
    ∀ (rs : List Rule) (c : Client),
      (rs.foldl (applyrule s name cls inst) c).tags
        = (rs.filter (fun r => ruleMatches r name cls inst)).foldl (fun t r => t ||| r.tags) c.tags := by
  intro rs
  induction rs with
  | nil => intro c; rfl
  | cons r rest ih =>
    intro c
    by_cases h : ruleMatches r name cls inst = true
    · simp only [List.foldl_cons, List.filter_cons, h, if_true, ih]
      simp [applyrule, h]
    · simp only [List.foldl_cons, List.filter_cons, h, ih]
      simp [applyrule, h]

/-- C8: `applyrules` gives the client the bitwise OR of the tag masks of all
matching rules, masked by `TAGMASK`, and the active tag-set of its monitor when
that is zero; with the rule table of `config.h`, a window of class `Gimp` whose
instance holds no `ferdi` and whose title holds neither `Event Tester` nor
`Picture-in-Picture` gets the tag mask `1 << 8` and stays on its monitor (no
monitor has the number -1 of the Gimp rule). -/
theorem C8_applyrules_tags_and_gimp {F : Type} (s : State F) (name : List Char)
    (res_class res_name : Option (List Char)) (c : Client) :
    (∀ rs : List Rule,
      (applyrules rs s name res_class res_name c).tags
        = (let t := ((rs.filter (fun r => ruleMatches r name (res_class.getD broken)
                      (res_name.getD broken))).foldl (fun t r => t ||| r.tags) 0) &&& TAGMASK
           if t ≠ 0 then t
           else (s.mon (applyrules rs s name res_class res_name c).mon).seltagset))
    ∧ (res_class = some "Gimp".toList →
        strstr (res_name.getD broken) "ferdi".toList = false →
        strstr name "Event Tester".toList = false →
        strstr name "Picture-in-Picture".toList = false →
        (∀ m ∈ s.mons, (s.mon m).num ≠ -1) →
        (applyrules rules s name res_class res_name c).tags = 1 <<< 8
        ∧ (applyrules rules s name res_class res_name c).mon = c.mon) := by
  constructor
  · intro rs
    simp only [applyrules, applyrule_fold_tags]
    by_cases h : ((rs.filter (fun r => ruleMatches r name (res_class.getD broken)
        (res_name.getD broken))).foldl (fun t r => t ||| r.tags) 0) &&& TAGMASK = 0
    · simp [h]
    · simp [h]
  · intro hc hi ht1 ht2 hm
    subst hc
    have hfind : findMonByNum s (-1) = none := by
      simp only [findMonByNum, List.find?_eq_none]
      intro m hmem
      simpa using hm m hmem
    have m1 : ruleMatches ⟨none, some "ferdi".toList, none, 1 <<< 3, false, false, false, 1⟩ name
        "Gimp".toList (res_name.getD broken) = false := by
      simp only [ruleMatches, hi]; rfl
    have m2 : ruleMatches ⟨some "firefox".toList, none, none, 1 <<< 1, false, false, true, -1⟩ name
        "Gimp".toList (res_name.getD broken) = false := by
      have g : strstr "Gimp".toList "firefox".toList = false := by decide
      simp only [ruleMatches, g]; rfl
    have m3 : ruleMatches ⟨some "Gimp".toList, none, none, 1 <<< 8, false, false, false, -1⟩ name
        "Gimp".toList (res_name.getD broken) = true := by
      have g : strstr "Gimp".toList "Gimp".toList = true := by decide
      simp only [ruleMatches, g]; rfl
    have m4 : ruleMatches ⟨some "St".toList, none, none, 0, false, true, false, -1⟩ name
        "Gimp".toList (res_name.getD broken) = false := by
      have g : strstr "Gimp".toList "St".toList = false := by decide
      simp only [ruleMatches, g]; rfl
    have m5 : ruleMatches ⟨some "spotify".toList, none, none, 1 <<< 4, false, false, false, 1⟩ name
        "Gimp".toList (res_name.getD broken) = false := by
      have g : strstr "Gimp".toList "spotify".toList = false := by decide
      simp only [ruleMatches, g]; rfl
    have m6 : ruleMatches ⟨some "tidal".toList, none, none, 1 <<< 4, false, false, false, 1⟩ name
        "Gimp".toList (res_name.getD broken) = false := by
      have g : strstr "Gimp".toList "tidal".toList = false := by decide
      simp only [ruleMatches, g]; rfl
    have m7 : ruleMatches ⟨none, none, some "Event Tester".toList, 0, true, false, true, -1⟩ name
        "Gimp".toList (res_name.getD broken) = false := by
      simp only [ruleMatches, ht1]; rfl
    have m8 : ruleMatches ⟨none, none, some "Picture-in-Picture".toList, 0, true, false, true, -1⟩ name
        "Gimp".toList (res_name.getD broken) = false := by
      simp only [ruleMatches, ht2]; rfl
    have hT : ((0 ||| 1 <<< 8) &&& TAGMASK) = 1 <<< 8 := by decide
    have hT2 : ((1 <<< 8 : Nat) != 0) = true := by decide
    simp only [applyrules, rules, List.foldl_cons, List.foldl_nil, applyrule, Option.getD_some,
      m1, m2, m3, m4, m5, m6, m7, m8, if_true, hfind, hT, hT2]
    have hT3 : 256 &&& TAGMASK = 256 := by decide
    simp [hT3]

theorem C8_applyrules_tags_and_gimp_witness :
    (applyrules rules
        ({ client := fun _ => newClient ⟨0, 0, [], none, none, none, false, false, false, none⟩,
           mon := fun _ => createmon (0 : Nat) 1 10 10 10 10, mons := [0], selmon := 0,
           prevzoom := none, bh := 20 } : State Nat)
        "GNU Image Manipulation Program".toList (some "Gimp".toList) (some "gimp".toList)
        (newClient ⟨7, 0, [], none, none, none, false, false, false, none⟩)).tags = 1 <<< 8
    ∧ (applyrules rules
        ({ client := fun _ => newClient ⟨0, 0, [], none, none, none, false, false, false, none⟩,
           mon := fun _ => createmon (0 : Nat) 1 10 10 10 10, mons := [0], selmon := 0,
           prevzoom := none, bh := 20 } : State Nat)
        "GNU Image Manipulation Program".toList (some "Gimp".toList) (some "gimp".toList)
        (newClient ⟨7, 0, [], none, none, none, false, false, false, none⟩)).mon = 0 :=
  (C8_applyrules_tags_and_gimp _ _ _ _ _).2 rfl (by decide) (by decide) (by decide) (by decide)


theorem attachtopGo_spec (tiled : Nat → Bool) (nm : Int) (c : Nat) :
    ∀ (l : List Nat) (n : Int), 1 ≤ n → n ≤ nm →
      ∃ pre post, l = pre ++ post ∧ attachtopGo tiled nm c n l = pre ++ c :: post
        ∧ ((∃ b pre', pre = pre' ++ [b] ∧ tiled b = true ∧ (n - 1) + (pre.countP tiled : Int) = nm)
           ∨ (post = [] ∧ (n - 1) + (l.countP tiled : Int) < nm)) := by
  intro l
  induction l with
  | nil =>
    intro n h1 h2
    exact ⟨[], [], rfl, rfl, Or.inr ⟨rfl, by simp; omega⟩⟩
  | cons b t ih =>
    intro n h1 h2
    cases t with
    | nil =>
      refine ⟨[b], [], rfl, rfl, ?_⟩
      by_cases hb : tiled b = true
      · by_cases hn : n = nm
        · exact Or.inl ⟨b, [], rfl, hb, by simp [hb]; omega⟩
        · exact Or.inr ⟨rfl, by simp [hb]; omega⟩
      · exact Or.inr ⟨rfl, by simp [hb]; omega⟩
    | cons b2 rest =>
      by_cases hb : tiled b = true
      · by_cases hn : n = nm
        · refine ⟨[b], b2 :: rest, rfl, ?_, Or.inl ⟨b, [], rfl, hb, by simp [hb]; omega⟩⟩
          simp [attachtopGo, hb, hn]
        · obtain ⟨pre, post, hl, hr, hc⟩ := ih (n + 1) (by omega) (by omega)
          refine ⟨b :: pre, post, by simp [hl], ?_, ?_⟩
          · simp [attachtopGo, hb, hn, hr]
          · rcases hc with ⟨x, pre', hp, hx, hcnt⟩ | ⟨hp, hcnt⟩
            · exact Or.inl ⟨x, b :: pre', by simp [hp], hx, by
                rw [List.countP_cons_of_pos _ _ hb]; push_cast; omega⟩
            · exact Or.inr ⟨hp, by
                rw [List.countP_cons_of_pos _ _ hb]; push_cast; omega⟩
      · obtain ⟨pre, post, hl, hr, hc⟩ := ih n h1 h2
        refine ⟨b :: pre, post, by simp [hl], ?_, ?_⟩
        · simp [attachtopGo, hb, hr]
        · rcases hc with ⟨x, pre', hp, hx, hcnt⟩ | ⟨hp, hcnt⟩
          · exact Or.inl ⟨x, b :: pre', by simp [hp], hx, by
              rw [List.countP_cons_of_neg _ _ hb]; omega⟩
          · exact Or.inr ⟨hp, by
              rw [List.countP_cons_of_neg _ _ hb]; omega⟩

/-- C9: for a master count `nmaster >= 1` (that of `selmon`, which `attachtop`
reads), `attachtop` splits the client list of `c->mon` into `pre ++ post`
without reordering it and puts `c` between the two parts, where `pre` ends with
the `nmaster`-th client that is not floating and shares a tag with `c`, or is
the whole list when there are fewer such clients; with `nmaster = 1` and such a
client at the head, `c` becomes the second client and the head stays first. -/
theorem C9_attachtop_position {F : Type} (s : State F) (c : Nat)
    (hn : 1 ≤ (s.mon s.selmon).nmaster) :
    (∃ pre post,
      (s.mon (s.client c).mon).clients = pre ++ post
      ∧ ((attachtop s c).mon (s.client c).mon).clients = pre ++ c :: post
      ∧ ((∃ b pre', pre = pre' ++ [b]
            ∧ (s.client b).isfloating = false ∧ ISVISIBLEONTAG (s.client b) (s.client c).tags = true
            ∧ ((pre.countP (fun b => !((s.client b).isfloating
                  || !ISVISIBLEONTAG (s.client b) (s.client c).tags)) : Nat) : Int)
                = (s.mon s.selmon).nmaster)
         ∨ (post = []
            ∧ (((s.mon (s.client c).mon).clients.countP (fun b => !((s.client b).isfloating
                  || !ISVISIBLEONTAG (s.client b) (s.client c).tags)) : Nat) : Int)
                < (s.mon s.selmon).nmaster)))
    ∧ (∀ b rest, (s.mon s.selmon).nmaster = 1 → (s.mon (s.client c).mon).clients = b :: rest →
        (s.client b).isfloating = false → ISVISIBLEONTAG (s.client b) (s.client c).tags = true →
        ((attachtop s c).mon (s.client c).mon).clients = b :: c :: rest) := by
  have hr : ((attachtop s c).mon (s.client c).mon).clients
      = attachtopGo (fun b => !((s.client b).isfloating
          || !ISVISIBLEONTAG (s.client b) (s.client c).tags)) (s.mon s.selmon).nmaster c 1
          (s.mon (s.client c).mon).clients := by
    simp [attachtop, State.setMon, upd]
  constructor
  · obtain ⟨pre, post, hl, hres, hc⟩ := attachtopGo_spec
      (fun b => !((s.client b).isfloating || !ISVISIBLEONTAG (s.client b) (s.client c).tags))
      (s.mon s.selmon).nmaster c (s.mon (s.client c).mon).clients 1 (le_refl 1) hn
    refine ⟨pre, post, hl, by rw [hr, hres], ?_⟩
    rcases hc with ⟨x, pre', hp, hx, hcnt⟩ | ⟨hp, hcnt⟩
    · refine Or.inl ⟨x, pre', hp, ?_, ?_, by omega⟩
      · simp at hx; exact hx.1
      · simp at hx; exact hx.2
    · exact Or.inr ⟨hp, by omega⟩
  · intro b rest h1 hl hf hv
    rw [hr, hl, h1]
    cases rest with
    | nil => rfl
    | cons b2 r => simp [attachtopGo, hf, hv]

theorem C9_attachtop_position_witness :
    ((attachtop
        ({ client := fun i => { newClient ⟨i, 0, [], none, none, none, false, false, false, none⟩ with tags := 1 },
           mon := fun _ => { createmon (0 : Nat) 1 10 10 10 10 with clients := [5, 6] },
           mons := [0], selmon := 0, prevzoom := none, bh := 20 } : State Nat) 7).mon 0).clients
      = [5, 7, 6] :=
  (C9_attachtop_position _ 7 (by decide)).2 5 [6] rfl rfl rfl rfl


/-- C2 (failing input): after `view(1<<1)`, `toggleview(1<<2)`, `toggleview(1<<1)`
and `view(0)` tag 1 is viewed while `pertag->curtag` is 2.  From there, with
the bar switched off, `view(1<<4)` followed by `view(1<<0)` comes back to tag 1
with the bar switched on: the round trip loads the `Pertag` entry 1 and not the
values that were live before leaving. -/
theorem C2_round_trip_after_toggleview :
    ∃ s3 s4 : State Nat,
      toggleview (view (setupState 55 1 10 10 10 10 1920 1080 20) (1 <<< 1)) (1 <<< 2) = some s3
      ∧ toggleview s3 (1 <<< 1) = some s4
      ∧ ((view s4 0).mon 0).seltagset = 1 <<< 0
      ∧ ((view s4 0).mon 0).pertag.curtag = 2
      ∧ ((togglebar (view s4 0)).mon 0).seltagset = 1 <<< 0
      ∧ ((togglebar (view s4 0)).mon 0).showbar = false
      ∧ ((view (togglebar (view s4 0)) (1 <<< 4)).mon 0).seltagset = 1 <<< 4
      ∧ ((view (view (togglebar (view s4 0)) (1 <<< 4)) (1 <<< 0)).mon 0).seltagset = 1 <<< 0
      ∧ ((view (view (togglebar (view s4 0)) (1 <<< 4)) (1 <<< 0)).mon 0).showbar = true := by
  refine ⟨_, _, rfl, rfl, ?_⟩
  decide

/-- C10 (failing input): a window is managed on tag 1, made sticky, tag 2 is
viewed (the sticky client stays selected) and `togglesticky` is called again:
the client is still the selection of the monitor and is not visible. -/
theorem C10_togglesticky_keeps_hidden_selection :
    ∃ s1 : State Nat,
      manage rules (fun _ => 0) 64 (setupState 55 1 10 10 10 10 1920 1080 20) 100
        ⟨7, 0, "xterm".toList, some "XTerm".toList, some "xterm".toList, none, false, false, false, none⟩
        = some s1
      ∧ ((togglesticky (view (togglesticky s1) (1 <<< 1))).mon 0).sel = some 100
      ∧ ISVISIBLE (togglesticky (view (togglesticky s1) (1 <<< 1))) 100 = false
      ∧ (s1.mon 0).sel = some 100 ∧ ISVISIBLE s1 100 = true := by
  refine ⟨_, rfl, ?_⟩
  decide


@[simp] theorem upd_same {α : Type} (f : Nat → α) (i : Nat) (v : α) : upd f i v i = v := by
  simp [upd]

theorem upd_other {α : Type} (f : Nat → α) (i j : Nat) (v : α) (h : j ≠ i) : upd f i v j = f j := by
  simp [upd, h]

@[simp] theorem setMon_client {F : Type} (s : State F) (m : Nat) (v : Monitor F) :
    (s.setMon m v).client = s.client := rfl

@[simp] theorem setMon_selmon {F : Type} (s : State F) (m : Nat) (v : Monitor F) :
    (s.setMon m v).selmon = s.selmon := rfl

@[simp] theorem setMon_prevzoom {F : Type} (s : State F) (m : Nat) (v : Monitor F) :
    (s.setMon m v).prevzoom = s.prevzoom := rfl

@[simp] theorem setMon_mons {F : Type} (s : State F) (m : Nat) (v : Monitor F) :
    (s.setMon m v).mons = s.mons := rfl

theorem setMon_mon {F : Type} (s : State F) (m : Nat) (v : Monitor F) (j : Nat) :
    (s.setMon m v).mon j = if j = m then v else s.mon j := rfl

@[simp] theorem setClient_mon {F : Type} (s : State F) (c : Nat) (v : Client) :
    (s.setClient c v).mon = s.mon := rfl

@[simp] theorem setClient_selmon {F : Type} (s : State F) (c : Nat) (v : Client) :
    (s.setClient c v).selmon = s.selmon := rfl

@[simp] theorem setClient_mons {F : Type} (s : State F) (c : Nat) (v : Client) :
    (s.setClient c v).mons = s.mons := rfl

@[simp] theorem setClient_prevzoom {F : Type} (s : State F) (c : Nat) (v : Client) :
    (s.setClient c v).prevzoom = s.prevzoom := rfl

theorem setClient_client {F : Type} (s : State F) (c : Nat) (v : Client) (j : Nat) :
    (s.setClient c v).client j = if j = c then v else s.client j := rfl

/-- What `detachstack` and `attachstack` of the same client leave behind. -/
theorem restack_frame {F : Type} (s : State F) (x : Nat) :
    (attachstack (detachstack s x) x).client = s.client
    ∧ (attachstack (detachstack s x) x).selmon = s.selmon
    ∧ (attachstack (detachstack s x) x).prevzoom = s.prevzoom
    ∧ (∀ m, ((attachstack (detachstack s x) x).mon m).clients = (s.mon m).clients)
    ∧ (∀ m, ((attachstack (detachstack s x) x).mon m).stack
        = if m = (s.client x).mon then x :: (s.mon m).stack.erase x else (s.mon m).stack)
    ∧ (∀ m, (attachstack (detachstack s x) x).mon m
        = { s.mon m with stack := ((attachstack (detachstack s x) x).mon m).stack,
                         sel := ((attachstack (detachstack s x) x).mon m).sel })
    ∧ (attachstack (detachstack s x) x).mons = s.mons := by
  unfold attachstack detachstack
  by_cases h : (s.mon (s.client x).mon).sel = some x
  · simp [setMon_mon, h]
    refine ⟨?_, ?_, ?_⟩ <;> intro m <;> by_cases hm : m = (s.client x).mon <;> simp [hm]
  · simp [setMon_mon, h]
    refine ⟨?_, ?_, ?_⟩ <;> intro m <;> by_cases hm : m = (s.client x).mon <;> simp [hm]

theorem ISVISIBLE_congr {F : Type} (s t : State F) (x : Nat)
    (h1 : (t.client x).tags = (s.client x).tags) (h2 : (t.client x).issticky = (s.client x).issticky)
    (h3 : (t.client x).mon = (s.client x).mon)
    (h4 : (t.mon (s.client x).mon).seltagset = (s.mon (s.client x).mon).seltagset) :
    ISVISIBLE t x = ISVISIBLE s x := by
  simp [ISVISIBLE, h1, h2, h3, h4]

/-- What `focus` changes: the stack of the monitor of the focused client, the
selection, `selmon`, and the urgency flag of the focused client. -/
theorem focus_frame {F : Type} (s : State F) (c : Option Nat) :
    (focus s c).prevzoom = s.prevzoom
    ∧ (focus s c).mons = s.mons
    ∧ (∀ m, ((focus s c).mon m).clients = (s.mon m).clients)
    ∧ (∀ m, ((focus s c).mon m).stack
        = match focusTarget s c with
          | some x => if m = (s.client x).mon then x :: (s.mon m).stack.erase x else (s.mon m).stack
          | none => (s.mon m).stack)
    ∧ (∀ j, (focus s c).client j = { s.client j with isurgent := ((focus s c).client j).isurgent })
    ∧ (∀ m, (focus s c).mon m
        = { s.mon m with stack := ((focus s c).mon m).stack, sel := ((focus s c).mon m).sel })
    ∧ (focus s c).selmon = (match focusTarget s c with
          | some x => (s.client x).mon
          | none => s.selmon)
    ∧ ((focus s c).mon (focus s c).selmon).sel = focusTarget s c := by
  unfold focus
  cases hT : focusTarget s c with
  | none =>
    simp only []
    refine ⟨rfl, rfl, ?_, ?_, ?_, ?_, rfl, ?_⟩
    · intro m; by_cases hm : m = s.selmon <;> simp [setMon_mon, hm]
    · intro m; by_cases hm : m = s.selmon <;> simp [setMon_mon, hm]
    · intro j; rfl
    · intro m; by_cases hm : m = s.selmon <;> simp [setMon_mon, hm]
    · simp [setMon_mon]
  | some x =>
    simp only []
    generalize hs1 : (if (s.client x).mon ≠ s.selmon then { s with selmon := (s.client x).mon } else s) = s1
    have e1 : s1.client = s.client ∧ s1.mon = s.mon ∧ s1.prevzoom = s.prevzoom ∧ s1.mons = s.mons
        ∧ s1.selmon = (s.client x).mon := by
      subst hs1
      by_cases h : (s.client x).mon = s.selmon <;> simp [h]
    obtain ⟨e1c, e1m, e1p, e1l, e1s⟩ := e1
    generalize hs2 : (if (s1.client x).isurgent = true then
      s1.setClient x { s1.client x with isurgent := false } else s1) = s2
    have e2 : s2.mon = s.mon ∧ s2.prevzoom = s.prevzoom ∧ s2.mons = s.mons
        ∧ s2.selmon = (s.client x).mon
        ∧ (∀ j, s2.client j = { s.client j with isurgent := (s2.client j).isurgent }) := by
      subst hs2
      by_cases h : (s1.client x).isurgent = true
      · simp only [h, if_true, setClient_mon, setClient_prevzoom, setClient_mons, setClient_selmon]
        refine ⟨e1m, e1p, e1l, e1s, ?_⟩
        intro j
        by_cases hj : j = x
        · subst hj; simp [setClient_client, e1c]
        · simp [setClient_client, hj, e1c]
      · simp only [h]
        refine ⟨e1m, e1p, e1l, e1s, ?_⟩
        intro j; simp [e1c]
    obtain ⟨e2m, e2p, e2l, e2s, e2c⟩ := e2
    obtain ⟨r1, r2, r3, r4, r5, r6, r7⟩ := restack_frame s2 x
    have hxm : (s2.client x).mon = (s.client x).mon := by rw [e2c x]
    refine ⟨?_, ?_, ?_, ?_, ?_, ?_, ?_, ?_⟩
    · simp [r3, e2p]
    · simp [r7, e2l]
    · intro m
      by_cases hm : m = (attachstack (detachstack s2 x) x).selmon <;> simp [setMon_mon, hm, r4, e2m]
    · intro m
      by_cases hm : m = (attachstack (detachstack s2 x) x).selmon
      · simp only [setMon_mon, hm, if_true]
        rw [r5, hxm, e2m]
      · simp only [setMon_mon, hm, if_false]
        rw [r5, hxm, e2m]
    · intro j
      simp only [setMon_client, r1]
      exact e2c j
    · intro m
      by_cases hm : m = (attachstack (detachstack s2 x) x).selmon
      · simp only [setMon_mon, hm, if_true]
        rw [r6]
        simp [e2m]
      · simp only [setMon_mon, hm, if_false]
        rw [r6]
        simp [e2m]
    · simp [r2, e2s]
    · simp [setMon_mon]

theorem swallow_frame {F : Type} (s : State F) (p c : Nat) (hpc : p ≠ c)
    (hterm : (s.client c).isterminal = false) (hns : (s.client c).noswallow = false) :
    (swallow s p c).client p = { s.client p with swallowing := some c, win := (s.client c).win }
    ∧ (swallow s p c).client c = { s.client c with mon := (s.client p).mon, win := (s.client p).win }
    ∧ (swallow s p c).selmon = s.selmon
    ∧ (∀ m, ((swallow s p c).mon m).clients
        = if m = (s.client c).mon then (s.mon m).clients.erase c else (s.mon m).clients)
    ∧ (∀ m, ((swallow s p c).mon m).stack
        = if m = (s.client c).mon then (s.mon m).stack.erase c else (s.mon m).stack) := by
  have hcp : c ≠ p := fun h => hpc h.symm
  unfold swallow
  simp only [hterm, hns, Bool.or_self, Bool.false_and, if_false, Bool.false_eq_true, arrange]
  unfold detachstack detach
  by_cases h : (s.mon (s.client c).mon).sel = some c
  · refine ⟨?_, ?_, ?_, ?_, ?_⟩
    · simp [setMon_mon, setClient_client, h, hpc, hcp]
    · simp [setMon_mon, setClient_client, h, hpc, hcp, hterm, hns]
    · simp [setMon_mon, setClient_client, h, hpc, hcp]
    · intro m; by_cases hm : m = (s.client c).mon <;> simp [setMon_mon, setClient_client, h, hm]
    · intro m; by_cases hm : m = (s.client c).mon <;> simp [setMon_mon, setClient_client, h, hm]
  · refine ⟨?_, ?_, ?_, ?_, ?_⟩
    · simp [setMon_mon, setClient_client, h, hpc, hcp]
    · simp [setMon_mon, setClient_client, h, hpc, hcp, hterm, hns]
    · simp [setMon_mon, setClient_client, h, hpc, hcp]
    · intro m; by_cases hm : m = (s.client c).mon <;> simp [setMon_mon, setClient_client, h, hm]
    · intro m; by_cases hm : m = (s.client c).mon <;> simp [setMon_mon, setClient_client, h, hm]

theorem setfullscreen_off_frame {F : Type} (s : State F) (c : Nat) :
    ((setfullscreen s c false).client c).isfullscreen = false
    ∧ ((setfullscreen s c false).client c).win = (s.client c).win
    ∧ ((setfullscreen s c false).client c).swallowing = (s.client c).swallowing
    ∧ ((setfullscreen s c false).client c).mon = (s.client c).mon
    ∧ (setfullscreen s c false).mon = s.mon
    ∧ (setfullscreen s c false).selmon = s.selmon := by
  unfold setfullscreen
  by_cases h : (s.client c).isfullscreen = true
  · simp [h, arrange, setClient_client]
  · simp [h]

/-- C4: for a client `c` that is neither terminal-flagged nor no-swallow-flagged
and a different client `p` on the lists of its monitor, `swallow(p, c)`
followed by `unmanage(p)` gives `p` its original window back, clears
`p->swallowing` and the fullscreen flag, and leaves `p` on the client list and
the focus stack of its monitor with `c` on neither (each list holds a client at
most once, and only clients of its own monitor). -/
theorem C4_swallow_unmanage_round_trip {F : Type} (s : State F) (p c : Nat) (hpc : p ≠ c)
    (hterm : (s.client c).isterminal = false) (hns : (s.client c).noswallow = false)
    (hpl : p ∈ (s.mon (s.client p).mon).clients) (hps : p ∈ (s.mon (s.client p).mon).stack)
    (hnd1 : ∀ m, (s.mon m).clients.Nodup) (hnd2 : ∀ m, (s.mon m).stack.Nodup)
    (hown1 : ∀ m, c ∈ (s.mon m).clients → m = (s.client c).mon)
    (hown2 : ∀ m, c ∈ (s.mon m).stack → m = (s.client c).mon) :
    ((unmanage (swallow s p c) p true).client p).win = (s.client p).win
    ∧ ((unmanage (swallow s p c) p true).client p).swallowing = none
    ∧ ((unmanage (swallow s p c) p true).client p).isfullscreen = false
    ∧ ((unmanage (swallow s p c) p true).client p).mon = (s.client p).mon
    ∧ p ∈ ((unmanage (swallow s p c) p true).mon (s.client p).mon).clients
    ∧ p ∈ ((unmanage (swallow s p c) p true).mon (s.client p).mon).stack
    ∧ c ∉ ((unmanage (swallow s p c) p true).mon (s.client p).mon).clients
    ∧ c ∉ ((unmanage (swallow s p c) p true).mon (s.client p).mon).stack := by
  obtain ⟨a1, a2, a3, a4, a5⟩ := swallow_frame s p c hpc hterm hns
  generalize swallow s p c = t at *
  have hcp : c ≠ p := fun h => hpc h.symm
  -- the state after the first statements of `unswallow`
  have hun : unmanage t p true
      = focus (setfullscreen ((t.setClient p { t.client p with win := (t.client c).win }).setClient p
          { (t.setClient p { t.client p with win := (t.client c).win }).client p with
            swallowing := none }) p false) none := by
    simp [unmanage, unswallow, a1, arrange]
  generalize hu : (setfullscreen ((t.setClient p { t.client p with win := (t.client c).win }).setClient p
          { (t.setClient p { t.client p with win := (t.client c).win }).client p with
            swallowing := none }) p false) = u at hun
  obtain ⟨b1, b2, b3, b4, b5, b6⟩ := setfullscreen_off_frame
    ((t.setClient p { t.client p with win := (t.client c).win }).setClient p
          { (t.setClient p { t.client p with win := (t.client c).win }).client p with
            swallowing := none }) p
  rw [hu] at b1 b2 b3 b4 b5 b6
  simp only [setClient_client, if_true, setClient_mon, setClient_selmon] at b2 b3 b4 b5 b6
  rw [a2] at b2
  rw [a1] at b4
  simp only [] at b2 b4
  obtain ⟨f1, f2, f3, f4, f5, f6, f7, f8⟩ := focus_frame u none
  rw [hun]
  -- the lists of `u` are those of `t`
  have hcl : ∀ m, c ∉ (u.mon m).clients := by
    intro m hm
    rw [b5, a4] at hm
    by_cases h : m = (s.client c).mon
    · rw [if_pos h] at hm
      exact (List.Nodup.not_mem_erase (hnd1 m)) hm
    · rw [if_neg h] at hm
      exact h (hown1 m hm)
  have hst : ∀ m, c ∉ (u.mon m).stack := by
    intro m hm
    rw [b5, a5] at hm
    by_cases h : m = (s.client c).mon
    · rw [if_pos h] at hm
      exact (List.Nodup.not_mem_erase (hnd2 m)) hm
    · rw [if_neg h] at hm
      exact h (hown2 m hm)
  have hpl' : p ∈ (u.mon (s.client p).mon).clients := by
    rw [b5, a4]
    split
    · exact (List.mem_erase_of_ne hpc).mpr hpl
    · exact hpl
  have hps' : p ∈ (u.mon (s.client p).mon).stack := by
    rw [b5, a5]
    split
    · exact (List.mem_erase_of_ne hpc).mpr hps
    · exact hps
  refine ⟨?_, ?_, ?_, ?_, ?_, ?_, ?_, ?_⟩
  · rw [f5 p]; exact b2
  · rw [f5 p]; exact b3
  · rw [f5 p]; exact b1
  · rw [f5 p]; exact b4
  · rw [f3]; exact hpl'
  · rw [f4]
    cases hT : focusTarget u none with
    | none => exact hps'
    | some x =>
      simp only []
      split
      · by_cases hx : p = x
        · subst hx; exact List.mem_cons_self _ _
        · exact List.mem_cons_of_mem _ ((List.mem_erase_of_ne hx).mpr hps')
      · exact hps'
  · rw [f3]; exact hcl _
  · rw [f4]
    cases hT : focusTarget u none with
    | none => exact hst _
    | some x =>
      simp only []
      have hx : x ∈ (u.mon u.selmon).stack := by
        simp only [focusTarget] at hT
        exact List.mem_of_find?_eq_some hT
      have hxc : c ≠ x := by
        intro h; subst h; exact hst _ hx
      split
      · intro hmem
        rcases List.mem_cons.mp hmem with h | h
        · exact hxc h
        · exact hst _ (List.mem_of_mem_erase h)
      · exact hst _

theorem C4_swallow_unmanage_round_trip_witness :
    ((unmanage (swallow (oneMonitor [1, 2] [2, 1] (some 2)
        (fun i => if i = 1 then { plainClient 1 11 with isterminal := true } else plainClient 1 22) none)
        1 2) 1 true).client 1).win = 11
    ∧ ((unmanage (swallow (oneMonitor [1, 2] [2, 1] (some 2)
        (fun i => if i = 1 then { plainClient 1 11 with isterminal := true } else plainClient 1 22) none)
        1 2) 1 true).mon 0).clients = [1] :=
  ⟨(C4_swallow_unmanage_round_trip (oneMonitor [1, 2] [2, 1] (some 2)
      (fun i => if i = 1 then { plainClient 1 11 with isterminal := true } else plainClient 1 22) none)
      1 2 (by decide) rfl rfl (by decide) (by decide)
      (by intro m; by_cases h : m = 0 <;> simp [oneMonitor, h, createmon])
      (by intro m; by_cases h : m = 0 <;> simp [oneMonitor, h, createmon])
      (by intro m; by_cases h : m = 0 <;> simp [oneMonitor, h, createmon, plainClient])
      (by intro m; by_cases h : m = 0 <;> simp [oneMonitor, h, createmon, plainClient])).1,
   by decide⟩


/-! ### Lists: `findbefore`, `nextOf`, `insertAfter` -/

theorem findbeforeGo_mem (c : Option Nat) : ∀ (l : List Nat) (a : Nat),
    findbeforeGo c l = some a → a ∈ l := by
  intro l
  induction l with
  | nil => intro a h; simp [findbeforeGo] at h
  | cons t r ih =>
    intro a h
    cases r with
    | nil =>
      simp only [findbeforeGo] at h
      split at h
      · simp at h; simp [h]
      · simp at h
    | cons u rest =>
      simp only [findbeforeGo] at h
      split at h
      · simp at h; simp [h]
      · exact List.mem_cons_of_mem _ (ih a h)

theorem nextOf_cons_self (a : Nat) (l : List Nat) : nextOf (a :: l) a = l := by
  simp [nextOf, List.dropWhile]

theorem nextOf_cons_ne (t a : Nat) (l : List Nat) (h : t ≠ a) : nextOf (t :: l) a = nextOf l a := by
  have h2 : (t != a) = true := by simpa using h
  simp [nextOf, List.dropWhile, h2]

/-- On a duplicate-free list, a member that is not the head has a predecessor,
`findbefore` returns it, and the list continues after it with that member. -/
theorem findbeforeGo_some (x : Nat) : ∀ (l : List Nat), l.Nodup → x ∈ l → l.head? ≠ some x →
    ∃ a post, findbeforeGo (some x) l = some a ∧ nextOf l a = x :: post ∧ a ≠ x := by
  intro l
  induction l with
  | nil => intro _ h; cases h
  | cons t r ih =>
    intro hnd hx hh
    have htx : t ≠ x := by
      intro h; apply hh; simp [h]
    cases r with
    | nil =>
      simp at hx
      exact absurd hx.symm htx
    | cons u rest =>
      by_cases hu : u = x
      · subst hu
        refine ⟨t, rest, by simp [findbeforeGo], nextOf_cons_self _ _, htx⟩
      · have hx' : x ∈ u :: rest := by
          rcases List.mem_cons.mp hx with h | h
          · exact absurd h.symm htx
          · exact h
        have hnd' : (u :: rest).Nodup := (List.nodup_cons.mp hnd).2
        obtain ⟨a, post, h1, h2, h3⟩ := ih hnd' hx' (by simp; exact hu)
        have ha : a ∈ u :: rest := findbeforeGo_mem _ _ _ h1
        have hta : t ≠ a := by
          intro h; subst h
          exact (List.nodup_cons.mp hnd).1 ha
        refine ⟨a, post, ?_, ?_, h3⟩
        · simp only [findbeforeGo]
          rw [if_neg (by simpa using hu)]
          exact h1
        · rw [nextOf_cons_ne _ _ _ hta]; exact h2

theorem insertAfter_head (a x h : Nat) (t : List Nat) :
    (insertAfter a x (h :: t)).head? = some h := by
  simp only [insertAfter]
  split <;> rfl

theorem insertAfter_perm (a x : Nat) : ∀ (l : List Nat), a ∈ l →
    (insertAfter a x l).Perm (x :: l) := by
  intro l
  induction l with
  | nil => intro h; cases h
  | cons b r ih =>
    intro h
    simp only [insertAfter]
    by_cases hb : b = a
    · rw [if_pos hb]
      exact List.Perm.swap x b r
    · rw [if_neg hb]
      have : a ∈ r := by
        rcases List.mem_cons.mp h with h | h
        · exact absurd h.symm hb
        · exact h
      exact ((ih this).cons b).trans (List.Perm.swap x b r)

theorem nexttiled_cons_tiled {F : Type} (s : State F) (x : Nat) (l : List Nat)
    (h : isTiled s x = true) : nexttiled s (x :: l) = some x := by
  simp [nexttiled, List.find?, h]

theorem nexttiled_of_head {F : Type} (s : State F) (x : Nat) (l : List Nat)
    (hh : l.head? = some x) (h : isTiled s x = true) : nexttiled s l = some x := by
  cases l with
  | nil => simp at hh
  | cons y r =>
    simp at hh; subst hh
    exact nexttiled_cons_tiled s y r h

theorem nexttiled_some {F : Type} (s : State F) (l : List Nat) (x : Nat)
    (h : nexttiled s l = some x) : isTiled s x = true ∧ x ∈ l := by
  unfold nexttiled at h
  exact ⟨by simpa using List.find?_some h, List.mem_of_find?_eq_some h⟩

theorem nextOf_subset (l : List Nat) (a x : Nat) (h : x ∈ nextOf l a) : x ∈ l := by
  unfold nextOf at h
  exact (List.dropWhile_sublist _).subset (List.mem_of_mem_drop h)


/-! ### Frames -/

theorem Frame.refl {F : Type} (s : State F) : Frame s s :=
  ⟨fun _ => rfl, fun _ => rfl, rfl, rfl, rfl⟩

theorem Frame.trans {F : Type} {s t u : State F} (h1 : Frame s t) (h2 : Frame t u) : Frame s u := by
  obtain ⟨a1, a2, a3, a4, a5⟩ := h1
  obtain ⟨b1, b2, b3, b4, b5⟩ := h2
  refine ⟨?_, ?_, by rw [b3, a3], by rw [b4, a4], by rw [b5, a5]⟩
  · intro j
    rw [b1 j]
    conv => lhs; rw [a1 j]
  · intro m
    rw [b2 m]
    conv => lhs; rw [a2 m]

theorem Frame.tiled_eq {F : Type} {s t : State F} (h : Frame s t) (x : Nat) :
    isTiled t x = isTiled s x := by
  obtain ⟨a1, a2, _, _, _⟩ := h
  have e1 := a1 x
  have e2 := a2 (s.client x).mon
  unfold isTiled ISVISIBLE Monitor.seltagset
  rw [e1]
  simp only []
  rw [e2]

theorem Frame.visible_eq {F : Type} {s t : State F} (h : Frame s t) (x : Nat) :
    ISVISIBLE t x = ISVISIBLE s x := by
  obtain ⟨a1, a2, _, _, _⟩ := h
  have e1 := a1 x
  have e2 := a2 (s.client x).mon
  unfold ISVISIBLE Monitor.seltagset
  rw [e1]
  simp only []
  rw [e2]

theorem Frame.nexttiled_eq {F : Type} {s t : State F} (h : Frame s t) (l : List Nat) :
    nexttiled t l = nexttiled s l := by
  unfold nexttiled
  congr 1
  funext x
  exact h.tiled_eq x

theorem Frame.clientMon {F : Type} {s t : State F} (h : Frame s t) (x : Nat) :
    (t.client x).mon = (s.client x).mon := by
  rw [h.1 x]

theorem Frame.isfloating {F : Type} {s t : State F} (h : Frame s t) (x : Nat) :
    (t.client x).isfloating = (s.client x).isfloating := by
  rw [h.1 x]

theorem Frame.lt {F : Type} {s t : State F} (h : Frame s t) (m : Nat) :
    (t.mon m).lt = (s.mon m).lt ∧ (t.mon m).sellt = (s.mon m).sellt := by
  rw [h.2.1 m]
  exact ⟨rfl, rfl⟩

theorem restack_bh {F : Type} (s : State F) (x : Nat) :
    (attachstack (detachstack s x) x).bh = s.bh := by
  unfold attachstack detachstack
  by_cases h : (s.mon (s.client x).mon).sel = some x <;> simp [setMon_mon, h, State.setMon]

theorem focus_bh {F : Type} (s : State F) (c : Option Nat) : (focus s c).bh = s.bh := by
  unfold focus
  cases focusTarget s c with
  | none => rfl
  | some x =>
    simp only []
    show (attachstack (detachstack _ x) x).bh = s.bh
    rw [restack_bh]
    by_cases h1 : (s.client x).mon = s.selmon
    · simp only [h1, ne_eq, not_true_eq_false, if_false]
      split <;> rfl
    · simp only [h1, ne_eq, not_false_eq_true, if_true]
      split <;> rfl

theorem focus_Frame {F : Type} (s : State F) (c : Nat) (hv : ISVISIBLE s c = true)
    (hm : (s.client c).mon = s.selmon) :
    Frame s (focus s (some c)) ∧ (focus s (some c)).prevzoom = s.prevzoom
    ∧ (∀ m, ((focus s (some c)).mon m).clients = (s.mon m).clients)
    ∧ ((focus s (some c)).mon s.selmon).sel = some c := by
  obtain ⟨f1, f2, f3, f4, f5, f6, f7, f8⟩ := focus_frame s (some c)
  have hT : focusTarget s (some c) = some c := by simp [focusTarget, hv]
  rw [hT] at f7 f8
  simp only [] at f7
  rw [hm] at f7
  refine ⟨⟨f5, ?_, f2, f7, ?_⟩, f1, f3, ?_⟩
  · intro m
    conv => lhs; rw [f6 m]
    rw [f3 m]
  · exact focus_bh s _
  · rw [← f7]; exact f8

theorem reattach_Frame {F : Type} (s : State F) (c : Nat) :
    Frame s (attach (detach s c) c) ∧ (attach (detach s c) c).prevzoom = s.prevzoom
    ∧ (attach (detach s c) c).client = s.client
    ∧ (∀ m, ((attach (detach s c) c).mon m).clients
        = if m = (s.client c).mon then c :: (s.mon m).clients.erase c else (s.mon m).clients)
    ∧ (∀ m, ((attach (detach s c) c).mon m).sel = (s.mon m).sel) := by
  unfold attach detach
  refine ⟨⟨?_, ?_, rfl, rfl, rfl⟩, rfl, rfl, ?_, ?_⟩
  · intro j; rfl
  · intro m; by_cases hm : m = (s.client c).mon <;> simp [setMon_mon, hm]
  · intro m; by_cases hm : m = (s.client c).mon <;> simp [setMon_mon, hm]
  · intro m; by_cases hm : m = (s.client c).mon <;> simp [setMon_mon, hm]

/-! ### Zoom -/

theorem zoomSwap_same {F : Type} (t2 : State F) (co : Nat) :
    zoomSwap t2 (some co) (some co) = { t2 with prevzoom := some co } := by
  simp [zoomSwap]

theorem zoomSwap_ne {F : Type} (t2 : State F) (co a : Nat) (h : a ≠ co)
    (hco : (t2.client co).mon = t2.selmon) :
    zoomSwap t2 (some co) (some a)
      = { t2 with
          prevzoom := some co
          mon := upd t2.mon t2.selmon
            { t2.mon t2.selmon with
              clients := insertAfter a co ((t2.mon t2.selmon).clients.erase co) } } := by
  simp only [zoomSwap, h, ne_eq, not_false_eq_true, if_true, detach, hco, State.setMon]
  congr 1
  funext j
  by_cases hj : j = t2.selmon <;> simp [upd, hj]

theorem zoomSwap_spec {F : Type} (t2 : State F) (co a : Nat)
    (hco : (t2.client co).mon = t2.selmon) :
    Frame t2 (zoomSwap t2 (some co) (some a))
    ∧ (zoomSwap t2 (some co) (some a)).prevzoom = some co
    ∧ ((zoomSwap t2 (some co) (some a)).mon t2.selmon).clients
        = (if a ≠ co then insertAfter a co ((t2.mon t2.selmon).clients.erase co)
           else (t2.mon t2.selmon).clients)
    ∧ ((zoomSwap t2 (some co) (some a)).mon t2.selmon).sel = (t2.mon t2.selmon).sel := by
  by_cases h : a = co
  · subst h
    rw [zoomSwap_same, if_neg (by simp)]
    exact ⟨⟨fun _ => rfl, fun _ => rfl, rfl, rfl, rfl⟩, rfl, rfl, rfl⟩
  · rw [zoomSwap_ne t2 co a h hco, if_pos h]
    refine ⟨⟨fun _ => rfl, ?_, rfl, rfl, rfl⟩, rfl, ?_, ?_⟩
    · intro m
      by_cases hm : m = t2.selmon <;> simp [upd, hm]
    · simp [upd]
    · simp [upd]

theorem zoomTail_spec {F : Type} (s1 : State F) (c co a : Nat) (at0 : Option Nat)
    (hown : ∀ x ∈ (s1.mon s1.selmon).clients, (s1.client x).mon = s1.selmon)
    (hc : c ∈ (s1.mon s1.selmon).clients) (hvis : ISVISIBLE s1 c = true)
    (hcold : nexttiled s1 (s1.mon s1.selmon).clients = some co) (hne : c ≠ co)
    (hat : (if at0 = none then findbefore s1 (some c) else at0) = some a) :
    ∃ s2, zoomTail s1 (some c) at0 = some s2 ∧ Frame s1 s2 ∧ s2.prevzoom = some co
      ∧ (s2.mon s1.selmon).sel = some c
      ∧ (s2.mon s1.selmon).clients
          = (if a ≠ co then insertAfter a co ((c :: (s1.mon s1.selmon).clients.erase c).erase co)
             else c :: (s1.mon s1.selmon).clients.erase c) := by
  have hcm : (s1.client c).mon = s1.selmon := hown c hc
  have hcoL : co ∈ (s1.mon s1.selmon).clients := (nexttiled_some _ _ _ hcold).2
  have hcom : (s1.client co).mon = s1.selmon := hown co hcoL
  have hne' : (some c ≠ some co) := by simpa using hne
  have hat' : (if some c ≠ some co ∧ at0 = none then findbefore s1 (some c) else at0) = some a := by
    by_cases h0 : at0 = none
    · simp only [h0, if_true] at hat
      simp only [h0, hne', ne_eq, not_false_eq_true, and_self, if_true]
      exact hat
    · simp only [h0, if_false] at hat
      simp only [h0, and_false, if_false]
      exact hat
  obtain ⟨r1, r2, r3, r4, r5⟩ := reattach_Frame s1 c
  generalize ht2 : attach (detach s1 c) c = t2 at r1 r2 r3 r4 r5
  have hco2 : (t2.client co).mon = t2.selmon := by
    rw [r3, r1.2.2.2.1]; exact hcom
  obtain ⟨w1, w2, w3, w4⟩ := zoomSwap_spec t2 co a hco2
  generalize ht3 : zoomSwap t2 (some co) (some a) = t3 at w1 w2 w3 w4
  have hF13 : Frame s1 t3 := r1.trans w1
  have hv3 : ISVISIBLE t3 c = true := by rw [hF13.visible_eq]; exact hvis
  have hm3 : (t3.client c).mon = t3.selmon := by
    rw [hF13.clientMon, hF13.2.2.2.1]; exact hcm
  obtain ⟨g1, g2, g3, g4⟩ := focus_Frame t3 c hv3 hm3
  have hsel3 : t3.selmon = s1.selmon := hF13.2.2.2.1
  have hsel2 : t2.selmon = s1.selmon := r1.2.2.2.1
  refine ⟨focus t3 (some c), ?_, hF13.trans g1, ?_, ?_, ?_⟩
  · unfold zoomTail
    simp only [hcold]
    rw [hat']
    simp only [hne', ne_eq, not_false_eq_true, Option.isSome_some, and_self, if_true,
      arrange, ht2, ht3]
  · rw [g2, w2]
  · rw [← hsel3]; exact g4
  · rw [g3, ← hsel2, w3, hsel2, r4]
    simp [hcm]

theorem zoom_list_props (L : List Nat) (c co a : Nat) (hc : c ∈ L) (hco : co ∈ L)
    (hne : c ≠ co) (ha : a ∈ L) :
    (if a ≠ co then insertAfter a co ((c :: L.erase c).erase co) else c :: L.erase c).head? = some c
    ∧ (if a ≠ co then insertAfter a co ((c :: L.erase c).erase co) else c :: L.erase c).Perm L := by
  have hp : (c :: L.erase c).Perm L := (List.perm_cons_erase hc).symm
  by_cases h : a = co
  · rw [if_neg (by simp [h])]
    exact ⟨rfl, hp⟩
  · rw [if_pos h]
    have he : (c :: L.erase c).erase co = c :: (L.erase c).erase co := by
      rw [List.erase_cons_tail]
      simpa using hne
    have hco' : co ∈ c :: L.erase c := hp.symm.subset hco
    have ha' : a ∈ (c :: L.erase c).erase co :=
      (List.mem_erase_of_ne h).mpr (hp.symm.subset ha)
    refine ⟨?_, ?_⟩
    · rw [he]; exact insertAfter_head _ _ _ _
    · exact ((insertAfter_perm a co _ ha').trans (List.perm_cons_erase hco').symm).trans hp

theorem zoom_guard {F : Type} (s : State F) (co : Nat)
    (hA : hasArrange ((s.mon s.selmon).lt (s.mon s.selmon).sellt) = true)
    (hsel : (s.mon s.selmon).sel = some co) (ht : isTiled s co = true) :
    zoom s = (match zoomBlock s with
      | Sum.inl r => some r
      | Sum.inr (s1, c, at0) => zoomTail s1 c at0) := by
  have hf : (s.client co).isfloating = false := by
    unfold isTiled at ht
    cases h : (s.client co).isfloating
    · rfl
    · rw [h] at ht; simp at ht
  unfold zoom
  simp only [hA, hsel, hf, Bool.not_true, Bool.or_self, Bool.false_eq_true, if_false]

theorem isTiled_visible {F : Type} (s : State F) (x : Nat) (h : isTiled s x = true) :
    ISVISIBLE s x = true := by
  unfold isTiled at h
  cases hv : ISVISIBLE s x
  · rw [hv] at h; simp at h
  · rfl

/-- The path of `zoom` on which the remembered client `prevzoom` is promoted. -/
theorem zoom_promote_prev {F : Type} (s : State F) (co p a0 : Nat)
    (hA : hasArrange ((s.mon s.selmon).lt (s.mon s.selmon).sellt) = true)
    (hsel : (s.mon s.selmon).sel = some co)
    (hfirst : nexttiled s (s.mon s.selmon).clients = some co)
    (hown : ∀ x ∈ (s.mon s.selmon).clients, (s.client x).mon = s.selmon)
    (hp : s.prevzoom = some p) (hpc : p ≠ co)
    (hat0 : findbefore s s.prevzoom = some a0)
    (hcp : nexttiled s (nextOf (s.mon s.selmon).clients a0) = some p) :
    ∃ s1, zoom s = some s1 ∧ Frame s s1 ∧ s1.prevzoom = some co
      ∧ (s1.mon s.selmon).sel = some p
      ∧ (s1.mon s.selmon).clients.head? = some p
      ∧ (s1.mon s.selmon).clients.Perm (s.mon s.selmon).clients := by
  obtain ⟨hpt, hpn⟩ := nexttiled_some _ _ _ hcp
  have hpL : p ∈ (s.mon s.selmon).clients := nextOf_subset _ _ _ hpn
  obtain ⟨hcot, hcoL⟩ := nexttiled_some _ _ _ hfirst
  have ha0 : a0 ∈ (s.mon s.selmon).clients := by
    unfold findbefore at hat0
    split at hat0
    · cases hat0
    · exact findbeforeGo_mem _ _ _ hat0
  obtain ⟨s1, h1, h2, h3, h4, h5⟩ := zoomTail_spec s p co a0 (some a0) hown hpL
    (isTiled_visible s p hpt) hfirst hpc (by simp)
  obtain ⟨l1, l2⟩ := zoom_list_props _ p co a0 hpL hcoL hpc ha0
  refine ⟨s1, ?_, h2, h3, h4, by rw [h5]; exact l1, by rw [h5]; exact l2⟩
  rw [zoom_guard s co hA hsel hcot]
  unfold zoomBlock
  rw [hp] at hat0
  simp only [hsel, hfirst, hp, hat0, hcp, if_true]
  simpa using h1

/-- The path of `zoom` on which `prevzoom` is dropped and the next tiled client
is promoted. -/
theorem zoom_promote_next {F : Type} (s : State F) (co n : Nat)
    (hA : hasArrange ((s.mon s.selmon).lt (s.mon s.selmon).sellt) = true)
    (hsel : (s.mon s.selmon).sel = some co)
    (hfirst : nexttiled s (s.mon s.selmon).clients = some co)
    (hnd : (s.mon s.selmon).clients.Nodup)
    (hown : ∀ x ∈ (s.mon s.selmon).clients, (s.client x).mon = s.selmon)
    (hnext : nexttiled s (nextOf (s.mon s.selmon).clients co) = some n)
    (hcp : (match findbefore s s.prevzoom with
            | some a => nexttiled s (nextOf (s.mon s.selmon).clients a)
            | none => none) = none
          ∨ (match findbefore s s.prevzoom with
            | some a => nexttiled s (nextOf (s.mon s.selmon).clients a)
            | none => none) ≠ s.prevzoom) :
    n ≠ co ∧ isTiled s n = true ∧ ∃ s1, zoom s = some s1 ∧ Frame s s1 ∧ s1.prevzoom = some co
      ∧ (s1.mon s.selmon).sel = some n
      ∧ (s1.mon s.selmon).clients.head? = some n
      ∧ (s1.mon s.selmon).clients.Perm (s.mon s.selmon).clients := by
  obtain ⟨hnt, hnn⟩ := nexttiled_some _ _ _ hnext
  have hnL : n ∈ (s.mon s.selmon).clients := nextOf_subset _ _ _ hnn
  obtain ⟨hcot, hcoL⟩ := nexttiled_some _ _ _ hfirst
  have hcom : (s.client co).mon = s.selmon := hown co hcoL
  -- `n` comes after `co` on a duplicate-free list, so it differs from `co` and is not the head
  have hsplit : ∀ (l : List Nat), l.Nodup → co ∈ l → n ∈ nextOf l co → n ≠ co ∧ l.head? ≠ some n := by
    intro l
    induction l with
    | nil => intro _ h; cases h
    | cons x r ih =>
      intro hn hc hm
      by_cases hx : x = co
      · subst hx
        rw [nextOf_cons_self] at hm
        have : x ∉ r := (List.nodup_cons.mp hn).1
        refine ⟨fun h => this (h ▸ hm), ?_⟩
        simp
        intro h; exact this (h ▸ hm)
      · rw [nextOf_cons_ne _ _ _ hx] at hm
        have hc' : co ∈ r := by
          rcases List.mem_cons.mp hc with h | h
          · exact absurd h.symm hx
          · exact h
        obtain ⟨i1, _⟩ := ih (List.nodup_cons.mp hn).2 hc' hm
        refine ⟨i1, ?_⟩
        simp
        intro h
        have : x ∉ r := (List.nodup_cons.mp hn).1
        exact this (h ▸ nextOf_subset _ _ _ hm)
  obtain ⟨hnco, hnh⟩ := hsplit _ hnd hcoL hnn
  -- the value of `at` after `if (c != cold && !at) at = findbefore(c)`
  have hat : ∃ a, (if findbefore s s.prevzoom = none
        then findbefore { s with prevzoom := none } (some n) else findbefore s s.prevzoom) = some a
      ∧ a ∈ (s.mon s.selmon).clients := by
    cases h0 : findbefore s s.prevzoom with
    | none =>
      obtain ⟨a, post, f1, f2, f3⟩ := findbeforeGo_some n _ hnd hnL hnh
      refine ⟨a, ?_, findbeforeGo_mem _ _ _ f1⟩
      simp only [if_true]
      unfold findbefore
      rw [if_neg (fun h => hnh h.symm)]
      exact f1
    | some a0 =>
      refine ⟨a0, by simp, ?_⟩
      unfold findbefore at h0
      split at h0
      · cases h0
      · exact findbeforeGo_mem _ _ _ h0
  obtain ⟨a, hat1, haL⟩ := hat
  obtain ⟨s1, h1, h2, h3, h4, h5⟩ := zoomTail_spec { s with prevzoom := none } n co a
    (findbefore s s.prevzoom) hown hnL (isTiled_visible s n hnt) hfirst hnco hat1
  obtain ⟨l1, l2⟩ := zoom_list_props _ n co a hnL hcoL hnco haL
  refine ⟨hnco, hnt, s1, ?_, ⟨h2.1, h2.2.1, h2.2.2.1, h2.2.2.2.1, h2.2.2.2.2⟩, h3, h4,
    by rw [h5]; exact l1, by rw [h5]; exact l2⟩
  rw [zoom_guard s co hA hsel hcot]
  unfold zoomBlock
  simp only [hsel, hfirst, if_true, hcp, hcom, hnext]
  exact h1

theorem nexttiled_after_first {F : Type} (s : State F) (M N : Nat) :
    ∀ (l : List Nat), nexttiled s l = some M → N ∈ l → N ≠ M → isTiled s N = true →
      ∃ n, nexttiled s (nextOf l M) = some n := by
  intro l
  induction l with
  | nil => intro _ h; cases h
  | cons x r ih =>
    intro hf hN hne ht
    by_cases hx : x = M
    · subst hx
      rw [nextOf_cons_self]
      have hNr : N ∈ r := by
        rcases List.mem_cons.mp hN with h | h
        · exact absurd h hne
        · exact h
      cases hfd : nexttiled s r with
      | some n => exact ⟨n, rfl⟩
      | none =>
        unfold nexttiled at hfd
        have := List.find?_eq_none.mp hfd N hNr
        simp [ht] at this
    · rw [nextOf_cons_ne _ _ _ hx]
      have hxt : isTiled s x = false := by
        cases h : isTiled s x
        · rfl
        · rw [nexttiled_cons_tiled s x r h] at hf
          exact absurd (Option.some.inj hf) hx
      have hf' : nexttiled s r = some M := by
        unfold nexttiled at hf ⊢
        simpa [List.find?, hxt] using hf
      have hNr : N ∈ r := by
        rcases List.mem_cons.mp hN with h | h
        · subst h; rw [ht] at hxt; cases hxt
        · exact h
      exact ih hf' hNr hne ht

/-- C3 (amended): in an arranging layout of `selmon`, with the first tiled client
`M` selected and another tiled client on the list, two calls of `zoom` in a row
leave `M` the first tiled client again, provided `prevzoom` does not point to
`M` itself, or `M` is the head of the client list.  (The client list holds each
client once and only clients of the monitor.) -/
theorem C3_zoom_twice_restores_master {F : Type} (s : State F) (M : Nat)
    (hA : hasArrange ((s.mon s.selmon).lt (s.mon s.selmon).sellt) = true)
    (hsel : (s.mon s.selmon).sel = some M)
    (hfirst : nexttiled s (s.mon s.selmon).clients = some M)
    (htwo : ∃ N ∈ (s.mon s.selmon).clients, N ≠ M ∧ isTiled s N = true)
    (hnd : (s.mon s.selmon).clients.Nodup)
    (hown : ∀ x ∈ (s.mon s.selmon).clients, (s.client x).mon = s.selmon)
    (hP : s.prevzoom ≠ some M ∨ (s.mon s.selmon).clients.head? = some M) :
    ∃ s1 s2, zoom s = some s1 ∧ zoom s1 = some s2
      ∧ nexttiled s2 (s2.mon s2.selmon).clients = some M := by
  obtain ⟨N, hNL, hNM, hNt⟩ := htwo
  obtain ⟨n, hnext⟩ := nexttiled_after_first s M N _ hfirst hNL hNM hNt
  obtain ⟨hMt, hML⟩ := nexttiled_some _ _ _ hfirst
  -- first call: some tiled client `X` other than `M` becomes the head, `prevzoom = M`
  have step1 : ∃ X s1, X ≠ M ∧ isTiled s X = true ∧ zoom s = some s1 ∧ Frame s s1
      ∧ s1.prevzoom = some M ∧ (s1.mon s.selmon).sel = some X
      ∧ (s1.mon s.selmon).clients.head? = some X
      ∧ (s1.mon s.selmon).clients.Perm (s.mon s.selmon).clients := by
    by_cases hcp : (match findbefore s s.prevzoom with
            | some a => nexttiled s (nextOf (s.mon s.selmon).clients a)
            | none => none) = none
          ∨ (match findbefore s s.prevzoom with
            | some a => nexttiled s (nextOf (s.mon s.selmon).clients a)
            | none => none) ≠ s.prevzoom
    · obtain ⟨k1, k2, s1, k3⟩ := zoom_promote_next s M n hA hsel hfirst hnd hown hnext hcp
      exact ⟨n, s1, k1, k2, k3⟩
    · have hcp1 := not_or.mp hcp
      cases hat0 : findbefore s s.prevzoom with
      | none =>
        rw [hat0] at hcp1
        exact absurd rfl hcp1.1
      | some a0 =>
        rw [hat0] at hcp1
        simp only [ne_eq, not_not] at hcp1
        obtain ⟨c1, c2⟩ := hcp1
        cases hp : s.prevzoom with
        | none => rw [hp] at c2; exact absurd c2 c1
        | some p =>
          rw [hp] at c2
          have hpM : p ≠ M := by
            intro h
            subst h
            rcases hP with h | h
            · exact h hp
            · rw [hp] at hat0
              unfold findbefore at hat0
              rw [if_pos h.symm] at hat0
              cases hat0
          obtain ⟨s1, k⟩ := zoom_promote_prev s M p a0 hA hsel hfirst hown hp hpM hat0 c2
          exact ⟨p, s1, hpM, (nexttiled_some _ _ _ c2).1, k⟩
  obtain ⟨X, s1, hXM, hXt, z1, fr1, pz1, sel1, hd1, pm1⟩ := step1
  have hs1 : s1.selmon = s.selmon := fr1.2.2.2.1
  have hnd1 : (s1.mon s1.selmon).clients.Nodup := by
    rw [hs1]; exact (List.Perm.nodup_iff pm1).mpr hnd
  have hown1 : ∀ x ∈ (s1.mon s1.selmon).clients, (s1.client x).mon = s1.selmon := by
    intro x hx
    rw [hs1] at hx ⊢
    rw [fr1.clientMon]
    exact hown x (pm1.subset hx)
  have hML1 : M ∈ (s1.mon s1.selmon).clients := by
    rw [hs1]; exact pm1.symm.subset hML
  have hh1 : (s1.mon s1.selmon).clients.head? ≠ some M := by
    rw [hs1, hd1]; simpa using hXM
  obtain ⟨a2, post, f1, f2, _⟩ := findbeforeGo_some M _ hnd1 hML1 hh1
  have hat2 : findbefore s1 s1.prevzoom = some a2 := by
    rw [pz1]
    unfold findbefore
    rw [if_neg (fun h => hh1 h.symm)]
    exact f1
  have hMt1 : isTiled s1 M = true := by rw [fr1.tiled_eq]; exact hMt
  have hcp2 : nexttiled s1 (nextOf (s1.mon s1.selmon).clients a2) = some M := by
    rw [f2]; exact nexttiled_cons_tiled s1 M post hMt1
  have hA1 : hasArrange ((s1.mon s1.selmon).lt (s1.mon s1.selmon).sellt) = true := by
    rw [(fr1.lt _).1, (fr1.lt _).2, hs1]; exact hA
  have hfirst1 : nexttiled s1 (s1.mon s1.selmon).clients = some X := by
    apply nexttiled_of_head
    · rw [hs1]; exact hd1
    · rw [fr1.tiled_eq]; exact hXt
  obtain ⟨s2, z2, fr2, _, _, hd2, _⟩ := zoom_promote_prev s1 X M a2 hA1 (by rw [hs1]; exact sel1)
    hfirst1 hown1 pz1 (fun h => hXM h.symm) hat2 hcp2
  refine ⟨s1, s2, z1, z2, ?_⟩
  apply nexttiled_of_head
  · rw [fr2.2.2.2.1]; exact hd2
  · rw [fr2.tiled_eq]; exact hMt1

theorem C3_zoom_twice_restores_master_witness :
    ∃ s1 s2, zoom (oneMonitor [11, 12, 13] [11, 12, 13] (some 11) (fun i => plainClient 1 i) none) = some s1
      ∧ zoom s1 = some s2 ∧ nexttiled s2 (s2.mon s2.selmon).clients = some 11 :=
  C3_zoom_twice_restores_master (oneMonitor [11, 12, 13] [11, 12, 13] (some 11) (fun i => plainClient 1 i) none)
    11 (by decide) (by decide) (by decide) ⟨12, by decide, by decide, by decide⟩ (by decide) (by decide)
    (Or.inl (by decide))

/-- C3 (counterexample): two windows are managed, the second is zoomed to the
head (so `prevzoom` is the first) and made floating, a third window is managed
and the first one is focused.  Now the layout arranges, the selected client 11
is the first tiled client and client 12 is tiled too, yet after two calls of
`zoom` the first tiled client is 12. -/
theorem C3_zoom_twice_counterexample :
    ∃ s1 s2 s3 s5 z1 z2 : State Nat,
      manage rules (fun _ => 0) 64 (setupState 55 1 10 10 10 10 1920 1080 20) 11
        ⟨1, 0, "a".toList, none, none, none, false, false, false, none⟩ = some s1
      ∧ manage rules (fun _ => 0) 64 s1 10
        ⟨2, 0, "b".toList, none, none, none, false, false, false, none⟩ = some s2
      ∧ zoom s2 = some s3
      ∧ manage rules (fun _ => 0) 64 (togglefloating s3) 12
        ⟨3, 0, "c".toList, none, none, none, false, false, false, none⟩ = some s5
      ∧ hasArrange (((focus s5 (some 11)).mon 0).lt ((focus s5 (some 11)).mon 0).sellt) = true
      ∧ (focus s5 (some 11)).selmon = 0
      ∧ (focus s5 (some 11)).prevzoom = some 11
      ∧ ((focus s5 (some 11)).mon 0).clients = [10, 11, 12]
      ∧ ((focus s5 (some 11)).mon 0).sel = some 11
      ∧ nexttiled (focus s5 (some 11)) ((focus s5 (some 11)).mon 0).clients = some 11
      ∧ isTiled (focus s5 (some 11)) 12 = true
      ∧ zoom (focus s5 (some 11)) = some z1
      ∧ zoom z1 = some z2
      ∧ (z2.mon z2.selmon).clients = [12, 10, 11]
      ∧ nexttiled z2 (z2.mon z2.selmon).clients = some 12 := by
  refine ⟨_, _, _, _, _, _, rfl, rfl, rfl, rfl, ?_, ?_, ?_, ?_, ?_, ?_, ?_, rfl, rfl, ?_, ?_⟩ <;> decide


/-! ### Machine arithmetic -/

theorem u32_id (x : Int) (h0 : 0 ≤ x) (h1 : x < 4294967296) : u32 x = x := by
  unfold u32; omega

theorem i32_u32_id (x : Int) (h0 : -2147483648 ≤ x) (h1 : x < 2147483648) : i32 (u32 x) = x := by
  unfold u32 i32; omega

theorem i32_id (x : Int) (h0 : 0 ≤ x) (h1 : x < 2147483648) : i32 x = x := by
  unfold i32; omega

theorem i32_u32_u32_sub (a b : Int) (h0 : -2147483648 ≤ a - b) (h1 : a - b < 2147483648) :
    i32 (u32 (u32 a - b)) = a - b := by
  unfold u32 i32; omega

theorem applysizehints_tiled {F : Type} (fl : GeomFloat F) (env : LayoutEnv) (m : Monitor F)
    (c : Geom F) (rq : Req) (hA : hasArrange (m.lt m.sellt) = true) :
    1 ≤ (applysizehints fl env m false c rq false).1.w
    ∧ 1 ≤ (applysizehints fl env m false c rq false).1.h
    ∧ ((applysizehints fl env m false c rq false).2 = false →
        (applysizehints fl env m false c rq false).1.w = c.w
        ∧ (applysizehints fl env m false c rq false).1.h = c.h) := by
  unfold applysizehints
  simp only [hA, resizehints, Bool.or_self, Bool.not_true, Bool.false_eq_true, if_false]
  refine ⟨?_, ?_, ?_⟩
  · show 1 ≤ (if max 1 rq.w < env.bh then env.bh else max 1 rq.w)
    have := le_max_left 1 rq.w
    split <;> omega
  · show 1 ≤ (if max 1 rq.h < env.bh then env.bh else max 1 rq.h)
    have := le_max_left 1 rq.h
    split <;> omega
  · intro hch
    simp only [decide_eq_false_iff_not, not_or, not_not] at hch
    exact ⟨hch.2.2.1, hch.2.2.2.1⟩

/-- Without the size-hint branch (`resizehints` 0, client not floating, layout
with an arrange function) `resize` leaves the client with a width and a height
of at least 1. -/
theorem resize_tiled {F : Type} (fl : GeomFloat F) (env : LayoutEnv) (m : Monitor F)
    (c : Geom F) (rq : Req) (hA : hasArrange (m.lt m.sellt) = true) :
    1 ≤ (resize fl env m false c rq false).w ∧ 1 ≤ (resize fl env m false c rq false).h := by
  obtain ⟨h1, h2, h3⟩ := applysizehints_tiled fl env m c rq hA
  unfold resize
  cases hch : (applysizehints fl env m false c rq false).2
  · obtain ⟨e1, e2⟩ := h3 hch
    simp only [hch, Bool.false_eq_true, if_false]
    rw [← e1, ← e2]
    exact ⟨h1, h2⟩
  · simp only [hch, if_true, resizeclient]
    exact ⟨h1, h2⟩

theorem div_facts (A r : Int) (hA : 0 ≤ A) (hr : 1 ≤ r) :
    0 ≤ A / r ∧ A / r ≤ A ∧ (r = 1 → A / r = A) ∧ (2 ≤ r → 2 * (A / r) ≤ A) := by
  refine ⟨Int.ediv_nonneg hA (by omega), Int.ediv_le_self r hA, ?_, ?_⟩
  · intro h; subst h; exact Int.ediv_one A
  · intro h2
    have h3 : A / r * r ≤ A := Int.ediv_mul_le A (by omega)
    have h4 : A / r * 2 ≤ A / r * r :=
      mul_le_mul_of_nonneg_left h2 (Int.ediv_nonneg hA (by omega))
    omega

/-- One pass of the loop body of `tile` in the vertical direction: with `r`
clients left in the column, the cursor at `y` and room for the gaps, an
unaltered client starts at the cursor, has a positive height, and either is the
last one and ends at the lower outer gap, or leaves room for the others. -/
theorem tile_step_vertical {F : Type} (c1 : Geom F) (wy wh y go gi r bw : Int)
    (hwy : 0 ≤ wy) (hwy2 : wy < 268435456) (hwh : wh < 268435456)
    (hy : 0 ≤ y) (hgo : 0 ≤ go) (hgi : 0 ≤ gi) (hbw : 0 ≤ bw) (hbw2 : bw < 268435456)
    (hr : 1 ≤ r) (hfit : 0 ≤ wh - y - go - gi * (r - 1))
    (e_y : c1.y = i32 (u32 (wy + y)))
    (e_h : c1.h = i32 (u32 (u32 (wh - y - go - gi * (r - 1)) / r - 2 * bw)))
    (e_bw : c1.bw = i32 bw) (hpos : 1 ≤ c1.h) :
    c1.y = wy + y ∧ 0 < HEIGHT c1
    ∧ (r = 1 → c1.y + HEIGHT c1 = wy + wh - go)
    ∧ (2 ≤ r →
        (if u32 (y + HEIGHT c1 + gi) < u32 wh then u32 (y + HEIGHT c1 + gi) else y)
          = y + HEIGHT c1 + gi
        ∧ 0 ≤ wh - (y + HEIGHT c1 + gi) - go - gi * (r - 1 - 1)) := by
  have hg : 0 ≤ gi * (r - 1) := mul_nonneg hgi (by omega)
  generalize hG : gi * (r - 1) = G at hfit e_h hg
  have hAu : u32 (wh - y - go - G) = wh - y - go - G := u32_id _ hfit (by omega)
  rw [hAu] at e_h
  obtain ⟨d1, d2, d3, d4⟩ := div_facts (wh - y - go - G) r hfit hr
  generalize hq : (wh - y - go - G) / r = q at e_h d1 d2 d3 d4
  have ey' : c1.y = wy + y := by rw [e_y]; exact i32_u32_id _ (by omega) (by omega)
  have eh' : c1.h = q - 2 * bw := by rw [e_h]; exact i32_u32_id _ (by omega) (by omega)
  have ebw' : c1.bw = bw := by rw [e_bw]; exact i32_id _ hbw (by omega)
  have hH : HEIGHT c1 = q := by unfold HEIGHT; rw [eh', ebw']; omega
  refine ⟨ey', by rw [hH]; omega, ?_, ?_⟩
  · intro h1
    have := d3 h1
    have hG0 : G = 0 := by rw [← hG, h1]; simp
    rw [hH, ey']; omega
  · intro h2
    have hq2 := d4 h2
    have hg2 : 0 ≤ gi * (r - 1 - 1) := mul_nonneg hgi (by omega)
    have hGs : G = gi * (r - 1 - 1) + gi := by rw [← hG]; ring
    generalize gi * (r - 1 - 1) = G2 at hg2 hGs ⊢
    rw [hH]
    have hlt : y + q + gi < wh := by omega
    have e1 : u32 (y + q + gi) = y + q + gi := u32_id _ (by omega) (by omega)
    have e2 : u32 wh = wh := u32_id _ (by omega) (by omega)
    rw [e1, e2, if_pos hlt]
    exact ⟨rfl, by omega⟩

theorem tile_step_stack_horizontal {F : Type} (c1 : Geom F) (wx ww mw gv bw : Int)
    (hwx : 0 ≤ wx) (hwx2 : wx < 268435456) (hww : 0 ≤ ww) (hww2 : ww < 268435456)
    (hgv : 0 ≤ gv) (hgv2 : gv < 268435456) (hbw : 0 ≤ bw) (hbw2 : bw < 268435456)
    (hmw : 0 ≤ mw) (hmw2 : mw < 1073741824)
    (e_x : c1.x = i32 (u32 (wx + mw + gv)))
    (e_w : c1.w = i32 (u32 (ww - mw - 2 * bw - 2 * gv)))
    (e_bw : c1.bw = i32 bw) (hpos : 1 ≤ c1.w) :
    c1.x = wx + mw + gv ∧ c1.x + WIDTH c1 = wx + ww - gv ∧ 0 < WIDTH c1 := by
  have ex' : c1.x = wx + mw + gv := by rw [e_x]; exact i32_u32_id _ (by omega) (by omega)
  have ew' : c1.w = ww - mw - 2 * bw - 2 * gv := by
    rw [e_w]; exact i32_u32_id _ (by omega) (by omega)
  have ebw' : c1.bw = bw := by rw [e_bw]; exact i32_id _ hbw (by omega)
  have hp' : 1 ≤ ww - mw - 2 * bw - 2 * gv := by rw [← ew']; exact hpos
  unfold WIDTH
  rw [ex', ew', ebw']
  exact ⟨rfl, by omega, by omega⟩

theorem tile_step_master_horizontal {F : Type} (c1 : Geom F) (wx mw gv gi bw : Int)
    (hwx : 0 ≤ wx) (hwx2 : wx < 268435456)
    (hgv : 0 ≤ gv) (hgv2 : gv < 268435456) (hgi : 0 ≤ gi) (hgi2 : gi < 268435456)
    (hbw : 0 ≤ bw) (hbw2 : bw < 268435456)
    (hmw : 0 ≤ mw) (hmw2 : mw < 4294967296)
    (e_x : c1.x = i32 (u32 (wx + gv)))
    (e_w : c1.w = i32 (u32 (mw - 2 * bw - gi)))
    (e_bw : c1.bw = i32 bw) (hpos : 1 ≤ c1.w) :
    c1.x = wx + gv ∧ c1.x + WIDTH c1 = wx + gv + mw - gi ∧ 0 < WIDTH c1 := by
  have ex' : c1.x = wx + gv := by rw [e_x]; exact i32_u32_id _ (by omega) (by omega)
  have ebw' : c1.bw = bw := by rw [e_bw]; exact i32_id _ hbw (by omega)
  have ew' : c1.w = mw - 2 * bw - gi := by
    rw [e_w] at hpos ⊢
    unfold u32 i32 at hpos ⊢
    omega
  have hp' : 1 ≤ mw - 2 * bw - gi := by rw [← ew']; exact hpos
  unfold WIDTH
  rw [ex', ew', ebw']
  exact ⟨rfl, by omega, by omega⟩

/-- The stack column of `tile`: from a position `i` at or beyond the master
count on, the clients form a column right of the master area. -/
theorem tile_stack_column {F : Type} (fl : GeomFloat F) (env : LayoutEnv) (m : Monitor F)
    (n bw mw oe ie : Int) (hA : hasArrange (m.lt m.sellt) = true)
    (hwx : 0 ≤ m.wx) (hwx2 : m.wx < 268435456) (hwy : 0 ≤ m.wy) (hwy2 : m.wy < 268435456)
    (hww : 0 ≤ m.ww) (hww2 : m.ww < 268435456) (hwh : m.wh < 268435456)
    (hgv : 0 ≤ m.gappov * oe) (hgv2 : m.gappov * oe < 268435456)
    (hgo : 0 ≤ m.gappoh * oe) (hgi : 0 ≤ m.gappih * ie)
    (hbw : 0 ≤ bw) (hbw2 : bw < 268435456) (hmw : 0 ≤ mw) (hmw2 : mw < 1073741824)
    (hn : n < 268435456) :
    ∀ (cs : List (Geom F)) (i my ty : Int), cs ≠ [] → ¬ (i < u32 m.nmaster) → 0 ≤ i →
      i + cs.length = n → 0 ≤ ty →
      0 ≤ m.wh - ty - m.gappoh * oe - m.gappih * ie * ((cs.length : Int) - 1) →
      (∀ p ∈ tileLoop fl env m n bw mw oe ie i my ty cs, Unaltered p) →
      IsColumn (m.wx + mw + m.gappov * oe) (m.wx + m.ww - m.gappov * oe)
        (m.wy + m.wh - m.gappoh * oe) (m.gappih * ie) (m.wy + ty)
        ((tileLoop fl env m n bw mw oe ie i my ty cs).map (fun p => outer p.2)) := by
  intro cs
  induction cs with
  | nil => intro i my ty h; exact absurd rfl h
  | cons c rest ih =>
    intro i my ty _ hi hi0 hlen hty hfit hun
    have hr : u32 (n - i) = (rest.length : Int) + 1 := by
      simp only [List.length_cons] at hlen
      push_cast at hlen
      exact (by rw [show n - i = (rest.length : Int) + 1 by omega]; exact u32_id _ (by omega) (by omega))
    simp only [List.length_cons] at hfit
    push_cast at hfit
    rw [show ((rest.length : Int) + 1 - 1) = (rest.length : Int) + 1 - 1 from rfl] at hfit
    simp only [tileLoop, hi, if_false] at hun ⊢
    rw [hr] at hun ⊢
    generalize hc1 : resize fl env m false c
      ⟨i32 (u32 (m.wx + mw + m.gappov * oe)), i32 (u32 (m.wy + ty)),
        i32 (u32 (m.ww - mw - 2 * bw - 2 * m.gappov * oe)),
        i32 (u32 (u32 (m.wh - ty - m.gappoh * oe - m.gappih * ie * ((rest.length : Int) + 1 - 1))
          / ((rest.length : Int) + 1) - 2 * bw)), i32 bw⟩ false = c1 at hun ⊢
    obtain ⟨p1, p2⟩ := resize_tiled fl env m c
      ⟨i32 (u32 (m.wx + mw + m.gappov * oe)), i32 (u32 (m.wy + ty)),
        i32 (u32 (m.ww - mw - 2 * bw - 2 * m.gappov * oe)),
        i32 (u32 (u32 (m.wh - ty - m.gappoh * oe - m.gappih * ie * ((rest.length : Int) + 1 - 1))
          / ((rest.length : Int) + 1) - 2 * bw)), i32 bw⟩ hA
    rw [hc1] at p1 p2
    have hu := hun _ (List.mem_cons_self _ _)
    obtain ⟨ux, uy, uw, uh, ub⟩ := hu
    simp only [] at ux uy uw uh ub
    have e2g : 2 * m.gappov * oe = 2 * (m.gappov * oe) := by ring
    rw [e2g] at uw
    obtain ⟨hx1, hx2, hx3⟩ := tile_step_stack_horizontal c1 m.wx m.ww mw (m.gappov * oe) bw
      hwx hwx2 hww hww2 hgv hgv2 hbw hbw2 hmw hmw2 ux uw ub p1
    obtain ⟨v1, v2, v3, v4⟩ := tile_step_vertical c1 m.wy m.wh ty (m.gappoh * oe) (m.gappih * ie)
      ((rest.length : Int) + 1) bw hwy hwy2 hwh hty hgo hgi hbw hbw2 (by omega) hfit uy uh ub p2
    cases rest with
    | nil =>
      simp only [tileLoop, List.map_cons, List.map_nil, IsColumn, outer]
      have := v3 (by simp)
      exact ⟨hx1, hx2, hx3, v2, v1, this⟩
    | cons c2 rest2 =>
      have h2 : (2 : Int) ≤ ((c2 :: rest2).length : Int) + 1 := by
        simp only [List.length_cons]; push_cast; omega
      obtain ⟨w1, w2⟩ := v4 h2
      rw [w1] at hun ⊢
      have hi1 : u32 (i + 1) = i + 1 := u32_id _ (by omega) (by omega)
      rw [hi1] at hun ⊢
      have hrec := ih (i + 1) my (ty + HEIGHT c1 + m.gappih * ie) (by simp)
        (by omega) (by omega) (by simp only [List.length_cons] at hlen ⊢; push_cast at hlen ⊢; omega)
        (by omega)
        (by
          have : ((c2 :: rest2).length : Int) + 1 - 1 - 1 = ((c2 :: rest2).length : Int) - 1 := by omega
          rw [this] at w2; exact w2)
        (fun p hp => hun p (List.mem_cons_of_mem _ hp))
      have hne : tileLoop fl env m n bw mw oe ie (i + 1) my (ty + HEIGHT c1 + m.gappih * ie)
          (c2 :: rest2) ≠ [] := by
        simp only [tileLoop]; split <;> simp
      obtain ⟨q, qs, hq⟩ := List.exists_cons_of_ne_nil hne
      rw [hq] at hrec ⊢
      simp only [List.map_cons, IsColumn, outer] at hrec ⊢
      refine ⟨hx1, hx2, hx3, v2, v1, ?_⟩
      rw [v1]
      have : m.wy + ty + HEIGHT c1 + m.gappih * ie = m.wy + (ty + HEIGHT c1 + m.gappih * ie) := by
        omega
      rw [this]
      exact hrec

/-- The master column of `tile`: the clients up to the master count form a
column at the left, and the loop goes on with the others untouched. -/
theorem tile_master_column {F : Type} (fl : GeomFloat F) (env : LayoutEnv) (m : Monitor F)
    (n bw mw oe ie : Int) (hA : hasArrange (m.lt m.sellt) = true)
    (hwx : 0 ≤ m.wx) (hwx2 : m.wx < 268435456) (hwy : 0 ≤ m.wy) (hwy2 : m.wy < 268435456)
    (hwh : m.wh < 268435456)
    (hgv : 0 ≤ m.gappov * oe) (hgv2 : m.gappov * oe < 268435456)
    (hgiv : 0 ≤ m.gappiv * ie) (hgiv2 : m.gappiv * ie < 268435456)
    (hgo : 0 ≤ m.gappoh * oe) (hgi : 0 ≤ m.gappih * ie)
    (hbw : 0 ≤ bw) (hbw2 : bw < 268435456) (hmw : 0 ≤ mw) (hmw2 : mw < 4294967296)
    (hn : n < 268435456) (hn0 : 0 ≤ n) (cr : List (Geom F)) :
    ∀ (cm : List (Geom F)) (i my ty : Int), cm ≠ [] → 0 ≤ i →
      i + cm.length = (if n < u32 m.nmaster then n else u32 m.nmaster) → 0 ≤ my →
      0 ≤ m.wh - my - m.gappoh * oe - m.gappih * ie * ((cm.length : Int) - 1) →
      (∀ p ∈ tileLoop fl env m n bw mw oe ie i my ty (cm ++ cr), Unaltered p) →
      ∃ T my',
        tileLoop fl env m n bw mw oe ie i my ty (cm ++ cr)
          = T ++ tileLoop fl env m n bw mw oe ie
              (if n < u32 m.nmaster then n else u32 m.nmaster) my' ty cr
        ∧ T.length = cm.length
        ∧ IsColumn (m.wx + m.gappov * oe) (m.wx + m.gappov * oe + mw - m.gappiv * ie)
            (m.wy + m.wh - m.gappoh * oe) (m.gappih * ie) (m.wy + my)
            (T.map (fun p => outer p.2)) := by
  intro cm
  induction cm with
  | nil => intro i my ty h; exact absurd rfl h
  | cons c rest ih =>
    intro i my ty _ hi0 hlen hmy hfit hun
    have hK : (if n < u32 m.nmaster then n else u32 m.nmaster) ≤ u32 m.nmaster := by
      split <;> omega
    have hKn : (if n < u32 m.nmaster then n else u32 m.nmaster) ≤ n := by
      split <;> omega
    simp only [List.length_cons] at hlen hfit
    push_cast at hlen hfit
    have hi : i < u32 m.nmaster := by omega
    have hr : u32 ((if n < u32 m.nmaster then n else u32 m.nmaster) - i) = (rest.length : Int) + 1 := by
      rw [← hlen, show i + ((rest.length : Int) + 1) - i = (rest.length : Int) + 1 by omega]
      exact u32_id _ (by omega) (by omega)
    simp only [List.cons_append, tileLoop, hi, if_true] at hun ⊢
    rw [hr] at hun ⊢
    generalize hrq : (⟨i32 (u32 (m.wx + m.gappov * oe)), i32 (u32 (m.wy + my)),
        i32 (u32 (mw - 2 * bw - m.gappiv * ie)),
        i32 (u32 (u32 (m.wh - my - m.gappoh * oe - m.gappih * ie * ((rest.length : Int) + 1 - 1))
          / ((rest.length : Int) + 1) - 2 * bw)), i32 bw⟩ : Req) = rq at hun ⊢
    generalize hc1 : resize fl env m false c rq false = c1 at hun ⊢
    obtain ⟨p1, p2⟩ := resize_tiled fl env m c rq hA
    rw [hc1] at p1 p2
    have hu := hun _ (List.mem_cons_self _ _)
    obtain ⟨ux, uy, uw, uh, ub⟩ := hu
    simp only [] at ux uy uw uh ub
    rw [← hrq] at ux uy uw uh ub
    simp only [] at ux uy uw uh ub
    obtain ⟨hx1, hx2, hx3⟩ := tile_step_master_horizontal c1 m.wx mw (m.gappov * oe)
      (m.gappiv * ie) bw hwx hwx2 hgv hgv2 hgiv hgiv2 hbw hbw2 hmw hmw2 ux uw ub p1
    obtain ⟨v1, v2, v3, v4⟩ := tile_step_vertical c1 m.wy m.wh my (m.gappoh * oe) (m.gappih * ie)
      ((rest.length : Int) + 1) bw hwy hwy2 hwh hmy hgo hgi hbw hbw2 (by omega) hfit uy uh ub p2
    have hi1 : u32 (i + 1) = i + 1 := u32_id _ (by omega) (by omega)
    rw [hi1] at hun ⊢
    cases rest with
    | nil =>
      simp only [List.length_nil, Nat.cast_zero, zero_add] at hlen
      refine ⟨[(rq, c1)], (if u32 (my + HEIGHT c1 + m.gappih * ie) < u32 m.wh then
        u32 (my + HEIGHT c1 + m.gappih * ie) else my), ?_, rfl, ?_⟩
      · rw [← hlen]; rfl
      · simp only [List.map_cons, List.map_nil, IsColumn, outer]
        have := v3 (by simp)
        exact ⟨hx1, hx2, hx3, v2, v1, this⟩
    | cons c2 rest2 =>
      have h2 : (2 : Int) ≤ ((c2 :: rest2).length : Int) + 1 := by
        simp only [List.length_cons]; push_cast; omega
      obtain ⟨w1, w2⟩ := v4 h2
      rw [w1] at hun ⊢
      obtain ⟨T, my', e1, e2, e3⟩ := ih (i + 1) (my + HEIGHT c1 + m.gappih * ie) ty (by simp)
        (by omega) (by omega)
        (by omega)
        (by
          have : ((c2 :: rest2).length : Int) + 1 - 1 - 1 = ((c2 :: rest2).length : Int) - 1 := by omega
          rw [this] at w2; exact w2)
        (fun p hp => hun p (List.mem_cons_of_mem _ hp))
      refine ⟨(rq, c1) :: T, my', ?_, by simp [e2], ?_⟩
      · exact congrArg (List.cons (rq, c1)) e1
      · have hne : T ≠ [] := by
          intro h; rw [h] at e2; simp at e2
        obtain ⟨q, qs, hq⟩ := List.exists_cons_of_ne_nil hne
        rw [hq] at e3 ⊢
        simp only [List.map_cons, IsColumn, outer] at e3 ⊢
        refine ⟨hx1, hx2, hx3, v2, v1, ?_⟩
        rw [v1]
        have : m.wy + my + HEIGHT c1 + m.gappih * ie = m.wy + (my + HEIGHT c1 + m.gappih * ie) := by
          omega
        rw [this]
        exact e3

/-- In a column every rectangle has the column's left and right edge and lies
between the top and the bottom, and no two rectangles overlap. -/
theorem IsColumn_facts (l r b g : Int) (hg : 0 ≤ g) :
    ∀ (rs : List Rect) (top : Int), IsColumn l r b g top rs →
      (∀ a ∈ rs, a.x = l ∧ a.x + a.w = r ∧ top ≤ a.y ∧ a.y + a.h ≤ b ∧ 0 < a.h)
      ∧ rs.Pairwise (fun a b => ¬ Overlap a b) := by
  intro rs
  induction rs with
  | nil => intro top h; exact absurd h (by simp [IsColumn])
  | cons a rest ih =>
    intro top h
    cases rest with
    | nil =>
      simp only [IsColumn] at h
      obtain ⟨h1, h2, h3, h4, h5, h6⟩ := h
      refine ⟨?_, List.pairwise_singleton _ _⟩
      intro x hx
      simp only [List.mem_singleton] at hx
      subst hx
      exact ⟨h1, h2, by omega, by omega, h4⟩
    | cons a2 rest2 =>
      simp only [IsColumn] at h
      obtain ⟨h1, h2, h3, h4, h5, h6⟩ := h
      obtain ⟨f1, f2⟩ := ih _ h6
      have fa2 := f1 a2 (List.mem_cons_self _ _)
      refine ⟨?_, ?_⟩
      · intro x hx
        rcases List.mem_cons.1 hx with hx | hx
        · subst hx; exact ⟨h1, h2, by omega, by omega, h4⟩
        · obtain ⟨g1, g2, g3, g4, g5⟩ := f1 x hx
          exact ⟨g1, g2, by omega, g4, g5⟩
      · refine List.pairwise_cons.2 ⟨?_, f2⟩
        intro x hx
        obtain ⟨g1, g2, g3, g4, g5⟩ := f1 x hx
        unfold Overlap
        omega

/-- Two columns side by side do not overlap. -/
theorem columns_pairwise (l1 r1 l2 r2 b g top : Int) (hg : 0 ≤ g) (h12 : r1 ≤ l2)
    (A B : List Rect) (hA : IsColumn l1 r1 b g top A) (hB : IsColumn l2 r2 b g top B) :
    (A ++ B).Pairwise (fun a b => ¬ Overlap a b) := by
  obtain ⟨a1, a2⟩ := IsColumn_facts _ _ _ _ hg _ _ hA
  obtain ⟨b1, b2⟩ := IsColumn_facts _ _ _ _ hg _ _ hB
  refine List.pairwise_append.2 ⟨a2, b2, ?_⟩
  intro x hx y hy
  obtain ⟨p1, p2, -⟩ := a1 x hx
  obtain ⟨q1, q2, -⟩ := b1 y hy
  unfold Overlap; omega

/-- The width requested for a client of the master column is at least 1 when
the size-hint adjustment altered nothing. -/
theorem tile_master_first_width {F : Type} (fl : GeomFloat F) (env : LayoutEnv) (m : Monitor F)
    (n bw mw oe ie : Int) (hA : hasArrange (m.lt m.sellt) = true) (i my ty : Int)
    (c : Geom F) (cs : List (Geom F)) (hi : i < u32 m.nmaster)
    (hun : ∀ p ∈ tileLoop fl env m n bw mw oe ie i my ty (c :: cs), Unaltered p) :
    1 ≤ i32 (u32 (mw - 2 * bw - m.gappiv * ie)) := by
  simp only [tileLoop, hi, if_true] at hun
  have hu := hun _ (List.mem_cons_self _ _)
  obtain ⟨-, -, uw, -, -⟩ := hu
  simp only [] at uw
  rw [← uw]
  exact (resize_tiled fl env m c _ hA).1

/-- A master width that wrapped around cannot give a request of at least 1. -/
theorem master_width_nonneg (X bw gi : Int) (hX : -1073741824 ≤ X) (hX2 : X < 1073741824)
    (hbw : 0 ≤ bw) (hbw2 : bw < 268435456) (hgi : 0 ≤ gi) (hgi2 : gi < 268435456)
    (h : 1 ≤ i32 (u32 (u32 X - 2 * bw - gi))) : 0 ≤ X := by
  unfold i32 u32 at h; omega

/-- The loop of `tile` handles every client once. -/
theorem tileLoop_length {F : Type} (fl : GeomFloat F) (env : LayoutEnv) (m : Monitor F)
    (n bw mw oe ie : Int) :
    ∀ (cs : List (Geom F)) (i my ty : Int),
      (tileLoop fl env m n bw mw oe ie i my ty cs).length = cs.length := by
  intro cs
  induction cs with
  | nil => intro i my ty; rfl
  | cons c rest ih =>
    intro i my ty
    unfold tileLoop
    split
    · simp only [List.length_cons, ih]
    · simp only [List.length_cons, ih]

/-- The loop of `tile` started at the first client lays the clients out in one
column or in a master and a stack column that fill the window area. -/
theorem tileLoop_fills {F : Type} (fl : GeomFloat F) (env : LayoutEnv) (m : Monitor F)
    (n bw mw g : Int) (cs : List (Geom F)) (hne : cs ≠ []) (hn : n = (cs.length : Int))
    (hA : hasArrange (m.lt m.sellt) = true)
    (hwx : 0 ≤ m.wx) (hwx2 : m.wx < 268435456) (hwy : 0 ≤ m.wy) (hwy2 : m.wy < 268435456)
    (hww : 0 ≤ m.ww) (hww2 : m.ww < 268435456) (hwh : m.wh < 268435456)
    (hgv : 0 ≤ m.gappov * g) (hgv2 : m.gappov * g < 268435456)
    (hgiv : 0 ≤ m.gappiv * g) (hgiv2 : m.gappiv * g < 268435456)
    (hgo : 0 ≤ m.gappoh * g) (hgi : 0 ≤ m.gappih * g)
    (hbw : 0 ≤ bw) (hbw2 : bw < 268435456)
    (hnm : 0 ≤ m.nmaster) (hnm2 : m.nmaster < 268435456) (hn2 : n < 268435456)
    (hmw0 : m.nmaster = 0 → mw = 0)
    (hmw1 : 0 < m.nmaster → n ≤ m.nmaster →
      mw = u32 (m.ww - 2 * m.gappov * g + m.gappiv * g))
    (hmw2 : 0 < m.nmaster → m.nmaster < n → 0 ≤ mw ∧ mw < 1073741824)
    (hfitM : 0 < m.nmaster →
      0 ≤ m.wh - m.gappoh * g - m.gappoh * g - m.gappih * g * (min n m.nmaster - 1))
    (hfitS : m.nmaster < n →
      0 ≤ m.wh - m.gappoh * g - m.gappoh * g - m.gappih * g * (n - m.nmaster - 1))
    (hun : ∀ p ∈ tileLoop fl env m n bw mw g g 0 (m.gappoh * g) (m.gappoh * g) cs,
      Unaltered p) :
    ((tileLoop fl env m n bw mw g g 0 (m.gappoh * g) (m.gappoh * g) cs).map
        (fun p => outer p.2)).Pairwise (fun a b => ¬ Overlap a b)
    ∧ FillsWithGaps m.wx m.wy m.ww m.wh (m.gappoh * g) (m.gappov * g) (m.gappih * g)
        (m.gappiv * g) m.nmaster.toNat
        ((tileLoop fl env m n bw mw g g 0 (m.gappoh * g) (m.gappoh * g) cs).map
          (fun p => outer p.2)) := by
  have hN : u32 m.nmaster = m.nmaster := u32_id _ hnm (by omega)
  have hlen : 0 < cs.length := List.length_pos.2 hne
  have hn0 : 0 < n := by omega
  by_cases h0 : m.nmaster = 0
  · have hmw := hmw0 h0
    subst hmw
    have hf := hfitS (by omega)
    have e : n - m.nmaster - 1 = (cs.length : Int) - 1 := by omega
    rw [e] at hf
    have hcol := tile_stack_column fl env m n bw 0 g g hA hwx hwx2 hwy hwy2 hww hww2 hwh
      hgv hgv2 hgo hgi hbw hbw2 le_rfl (by norm_num) hn2 cs 0 (m.gappoh * g) (m.gappoh * g)
      hne (by rw [hN, h0]; omega) le_rfl (by omega) hgo hf hun
    rw [add_zero] at hcol
    refine ⟨(IsColumn_facts _ _ _ _ hgi _ _ hcol).2, ?_⟩
    unfold FillsWithGaps
    rw [if_pos (Or.inl (by rw [h0]; rfl))]
    exact hcol
  · have hpos : 0 < m.nmaster := by omega
    by_cases hle : n ≤ m.nmaster
    · have hK : (if n < u32 m.nmaster then n else u32 m.nmaster) = n := by
        rw [hN]; split <;> omega
      obtain ⟨c, rest, hcs⟩ := List.exists_cons_of_ne_nil hne
      have hw1 : 1 ≤ i32 (u32 (mw - 2 * bw - m.gappiv * g)) := by
        rw [hcs] at hun
        exact tile_master_first_width fl env m n bw mw g g hA 0 _ _ c rest
          (by rw [hN]; omega) hun
      have hmw := hmw1 hpos hle
      have e2 : 2 * m.gappov * g = 2 * (m.gappov * g) := mul_assoc _ _ _
      rw [e2] at hmw
      have hX : 0 ≤ m.ww - 2 * (m.gappov * g) + m.gappiv * g := by
        rw [hmw] at hw1
        exact master_width_nonneg _ bw (m.gappiv * g) (by omega) (by omega) hbw hbw2 hgiv
          hgiv2 hw1
      have hmwv : mw = m.ww - 2 * (m.gappov * g) + m.gappiv * g := by
        rw [hmw]; exact u32_id _ hX (by omega)
      have hf := hfitM hpos
      have e : min n m.nmaster - 1 = (cs.length : Int) - 1 := by omega
      rw [e] at hf
      have hun' : ∀ p ∈ tileLoop fl env m n bw mw g g 0 (m.gappoh * g) (m.gappoh * g)
          (cs ++ []), Unaltered p := by rw [List.append_nil]; exact hun
      obtain ⟨T, my', e1, e2', e3⟩ := tile_master_column fl env m n bw mw g g hA hwx hwx2
        hwy hwy2 hwh hgv hgv2 hgiv hgiv2 hgo hgi hbw hbw2 (by omega) (by omega) hn2
        (by omega) [] cs 0 (m.gappoh * g) (m.gappoh * g) hne le_rfl (by rw [hK]; omega)
        hgo hf hun'
      simp only [tileLoop, List.append_nil] at e1
      rw [e1]
      have er : m.wx + m.gappov * g + mw - m.gappiv * g = m.wx + m.ww - m.gappov * g := by
        omega
      rw [er] at e3
      refine ⟨(IsColumn_facts _ _ _ _ hgi _ _ e3).2, ?_⟩
      unfold FillsWithGaps
      rw [if_pos (Or.inr (by rw [List.length_map, e2']; omega))]
      exact e3
    · have hlt : m.nmaster < n := by omega
      have hK : (if n < u32 m.nmaster then n else u32 m.nmaster) = m.nmaster := by
        rw [hN]; split <;> omega
      obtain ⟨hmwa, hmwb⟩ := hmw2 hpos hlt
      obtain ⟨cm, cr, hcs, hcm, hcr⟩ : ∃ cm cr : List (Geom F), cs = cm ++ cr
          ∧ cm.length = m.nmaster.toNat ∧ cr.length = cs.length - m.nmaster.toNat :=
        ⟨cs.take m.nmaster.toNat, cs.drop m.nmaster.toNat, (List.take_append_drop _ _).symm,
          by rw [List.length_take]; omega, by rw [List.length_drop]⟩
      subst hcs
      rw [List.length_append] at hn hcr hlen
      push_cast at hn
      have hcmne : cm ≠ [] := List.length_pos.1 (by omega)
      have hcrne : cr ≠ [] := List.length_pos.1 (by omega)
      have hf := hfitM hpos
      have e : min n m.nmaster - 1 = (cm.length : Int) - 1 := by omega
      rw [e] at hf
      obtain ⟨T, my', e1, e2', e3⟩ := tile_master_column fl env m n bw mw g g hA hwx hwx2
        hwy hwy2 hwh hgv hgv2 hgiv hgiv2 hgo hgi hbw hbw2 hmwa (by omega) hn2
        (by omega) cr cm 0 (m.gappoh * g) (m.gappoh * g) hcmne le_rfl (by rw [hK]; omega)
        hgo hf hun
      rw [hK] at e1
      rw [e1] at hun ⊢
      have hfs := hfitS hlt
      have es : n - m.nmaster - 1 = (cr.length : Int) - 1 := by omega
      rw [es] at hfs
      have hS := tile_stack_column fl env m n bw mw g g hA hwx hwx2 hwy hwy2 hww hww2 hwh
        hgv hgv2 hgo hgi hbw hbw2 hmwa hmwb hn2 cr m.nmaster my' (m.gappoh * g) hcrne
        (by rw [hN]; omega) hnm (by omega) hgo hfs
        (fun p hp => hun p (List.mem_append_right _ hp))
      rw [List.map_append]
      have emid : m.wx + mw + m.gappov * g
          = (m.wx + m.gappov * g + mw - m.gappiv * g) + m.gappiv * g := by omega
      refine ⟨columns_pairwise _ _ _ _ _ _ _ hgi (by omega) _ _ e3 hS, ?_⟩
      unfold FillsWithGaps
      rw [if_neg (by simp only [List.length_append, List.length_map, e2', tileLoop_length]; omega)]
      refine ⟨m.wx + m.gappov * g + mw - m.gappiv * g, ?_, ?_⟩
      · rw [List.take_left' (by rw [List.length_map, e2', hcm])]; exact e3
      · rw [List.drop_left' (by rw [List.length_map, e2', hcm]), ← emid]; exact hS

/-- C1 (amended): for `tile` on a monitor whose layout arranges, with at least
one tiled client, all values in range, a master factor that gives a master
width between 0 and the width it is taken of, and gaps that fit into the
height of the window area in each column, when the size-hint adjustment alters
none of the requested geometries: the outer rectangles of the clients are
pairwise non-overlapping and, with the outer gaps at the edges and the inner
gaps between neighbours (all gaps times `gapsenabled`), exactly fill the window
area `wx, wy, ww, wh`. -/
theorem C1_tile_fills_area {F : Type} (fl : GeomFloat F) (env : LayoutEnv) (sel m : Monitor F)
    (cs : List (Geom F)) (hne : cs ≠ [])
    (hA : hasArrange (m.lt m.sellt) = true)
    (hR : InRange env m cs.length)
    (hmf : ∀ x : Int, 0 ≤ x → 0 ≤ fl.mulTrunc x m.mfact ∧ fl.mulTrunc x m.mfact ≤ x)
    (hfitM : 0 < m.nmaster →
      0 ≤ m.wh - m.gappoh * env.gapsenabled - m.gappoh * env.gapsenabled
        - m.gappih * env.gapsenabled * (min (cs.length : Int) m.nmaster - 1))
    (hfitS : m.nmaster < (cs.length : Int) →
      0 ≤ m.wh - m.gappoh * env.gapsenabled - m.gappoh * env.gapsenabled
        - m.gappih * env.gapsenabled * ((cs.length : Int) - m.nmaster - 1))
    (hun : ∀ p ∈ tileTrace fl env sel m cs, Unaltered p) :
    ((tile fl env sel m cs).map outer).Pairwise (fun a b => ¬ Overlap a b)
    ∧ FillsWithGaps m.wx m.wy m.ww m.wh (m.gappoh * env.gapsenabled)
        (m.gappov * env.gapsenabled) (m.gappih * env.gapsenabled)
        (m.gappiv * env.gapsenabled) m.nmaster.toNat ((tile fl env sel m cs).map outer) := by
  obtain ⟨hwx, hwx2, hwy, hwy2, hww, hww2, hwh, hwh2, hgiv, hgiv2, hgov, hgov2, hgih, hgih2,
    hgoh, hgoh2, hbp, hbp2, hg, hnm, hnm2, hn2⟩ := hR
  have hlen : 0 < cs.length := List.length_pos.2 hne
  have hn : u32 (cs.length : Int) = cs.length := u32_id _ (by omega) (by omega)
  have hN : u32 m.nmaster = m.nmaster := u32_id _ hnm (by omega)
  have hgu : u32 env.gapsenabled = env.gapsenabled := by
    rcases hg with h | h <;> rw [h] <;> rfl
  have hbu : u32 env.borderpx = env.borderpx := u32_id _ hbp (by omega)
  have hn0 : ¬ ((cs.length : Int) = 0) := by omega
  have hsm : ¬ (u32 smartgaps = (cs.length : Int)) := by
    have h : u32 smartgaps = 0 := rfl
    rw [h]; omega
  have Hgv : 0 ≤ m.gappov * env.gapsenabled ∧ m.gappov * env.gapsenabled < 268435456 := by
    rcases hg with h | h <;> rw [h] <;> omega
  have Hgiv : 0 ≤ m.gappiv * env.gapsenabled ∧ m.gappiv * env.gapsenabled < 268435456 := by
    rcases hg with h | h <;> rw [h] <;> omega
  have Hgo : 0 ≤ m.gappoh * env.gapsenabled ∧ m.gappoh * env.gapsenabled < 268435456 := by
    rcases hg with h | h <;> rw [h] <;> omega
  have Hgi : 0 ≤ m.gappih * env.gapsenabled ∧ m.gappih * env.gapsenabled < 268435456 := by
    rcases hg with h | h <;> rw [h] <;> omega
  have hgo' : u32 (m.gappoh * env.gapsenabled) = m.gappoh * env.gapsenabled :=
    u32_id _ Hgo.1 (by omega)
  have hwv : u32 (m.ww + m.gappiv * env.gapsenabled) = m.ww + m.gappiv * env.gapsenabled :=
    u32_id _ (by omega) (by omega)
  unfold tile
  simp only [tileTrace, hn, hn0, hsm, hgu, hgo', hN, hbu, hwv, if_false, List.map_map] at hun ⊢
  refine tileLoop_fills fl env m _ _ _ _ cs hne rfl hA hwx hwx2 hwy hwy2 hww hww2 hwh2
    Hgv.1 Hgv.2 Hgiv.1 Hgiv.2 Hgo.1 Hgi.1 ?_ ?_ hnm hnm2 (by omega) ?_ ?_ ?_ hfitM hfitS hun
  · split_ifs <;> omega
  · split_ifs <;> omega
  · intro h
    split_ifs <;> first | rfl | (exfalso; omega)
  · intro h1 h2
    split_ifs <;> first | rfl | (exfalso; omega)
  · intro h1 h2
    rw [if_pos h2, if_pos (by omega)]
    obtain ⟨a, b⟩ := hmf (m.ww + m.gappiv * env.gapsenabled) (by omega)
    rw [u32_id _ a (by omega)]
    exact ⟨a, by omega⟩

theorem C1_tile_fills_area_witness :
    ((tile hundredths wideEnv wideMonitor wideMonitor
        [smallClient, smallClient, smallClient, smallClient]).map outer).Pairwise
      (fun a b => ¬ Overlap a b)
    ∧ FillsWithGaps 0 20 1920 1060 10 10 10 10 1
        ((tile hundredths wideEnv wideMonitor wideMonitor
          [smallClient, smallClient, smallClient, smallClient]).map outer) :=
  C1_tile_fills_area hundredths wideEnv wideMonitor wideMonitor
    [smallClient, smallClient, smallClient, smallClient] (List.cons_ne_nil _ _) (by decide)
    (by unfold InRange; decide)
    (by intro x hx; show 0 ≤ x * ((55 : Nat) : Int) / 100 ∧ x * ((55 : Nat) : Int) / 100 ≤ x
        omega)
    (by intro _; decide) (by intro _; decide) (by decide)

/-- C1 (counterexample): on a window area 50 pixels high with a horizontal
inner gap of 60 pixels and two tiled clients, the height of the first client
wraps around as `unsigned int`; no requested geometry is altered by the
size-hint adjustment, and the two outer rectangles overlap. -/
theorem C1_tile_overlap_counterexample :
    hasArrange (lowMonitor.lt lowMonitor.sellt) = true
    ∧ (∀ p ∈ tileTrace hundredths lowEnv lowMonitor lowMonitor [smallClient, smallClient],
        Unaltered p)
    ∧ (tile hundredths lowEnv lowMonitor lowMonitor [smallClient, smallClient]).map outer
        = [⟨0, 0, 100, 2147483643⟩, ⟨0, 0, 100, 50⟩]
    ∧ Overlap ⟨0, 0, 100, 2147483643⟩ ⟨0, 0, 100, 50⟩
    ∧ ¬ ((tile hundredths lowEnv lowMonitor lowMonitor [smallClient, smallClient]).map
          outer).Pairwise (fun a b => ¬ Overlap a b) := by
  refine ⟨?_, ?_, ?_, ?_, ?_⟩ <;> decide


/-! ### Tag switching -/

/-- Toggling the lowest bit changes a number. -/
theorem ne_xor_one (a : Nat) : a ≠ a ^^^ 1 := by
  intro h
  have h2 : a ^^^ 0 = a ^^^ 1 := by rw [Nat.xor_zero]; exact h
  exact absurd (Nat.xor_right_inj.mp h2) (by decide)

/-- When the focus stack of `selmon` holds only clients of `selmon`, the call
`focus(NULL)` does not change `selmon`. -/
theorem focus_none_selmon {F : Type} (s : State F)
    (hown : ∀ x ∈ (s.mon s.selmon).stack, (s.client x).mon = s.selmon) :
    (focus s none).selmon = s.selmon := by
  rw [(focus_frame s none).2.2.2.2.2.2.1]
  simp only [focusTarget]
  cases hf : (s.mon s.selmon).stack.find? (fun t => ISVISIBLE s t) with
  | none => rfl
  | some x => exact hown x (List.mem_of_find?_eq_some hf)

/-- The fields of a monitor other than the focus stack and the selection are
not written by `focus`. -/
theorem focus_mon_fields {F : Type} (s : State F) (c : Option Nat) (m : Nat) :
    ((focus s c).mon m).tagset = (s.mon m).tagset
    ∧ ((focus s c).mon m).seltags = (s.mon m).seltags
    ∧ ((focus s c).mon m).pertag = (s.mon m).pertag
    ∧ ((focus s c).mon m).nmaster = (s.mon m).nmaster
    ∧ ((focus s c).mon m).mfact = (s.mon m).mfact
    ∧ ((focus s c).mon m).sellt = (s.mon m).sellt
    ∧ ((focus s c).mon m).lt = (s.mon m).lt
    ∧ ((focus s c).mon m).showbar = (s.mon m).showbar := by
  have h := (focus_frame s c).2.2.2.2.2.1 m
  refine ⟨?_, ?_, ?_, ?_, ?_, ?_, ?_, ?_⟩ <;> rw [h]

/-- The tail of `view` and `toggleview`: the tag-set and `curtag` stay, and the
settings of the monitor are those of the `Pertag` entry of `curtag`. -/
theorem applyPertag_spec {F : Type} (s : State F)
    (hown : ∀ x ∈ (s.mon s.selmon).stack, (s.client x).mon = s.selmon) :
    (applyPertag s).selmon = s.selmon
    ∧ ((applyPertag s).mon s.selmon).tagset = (s.mon s.selmon).tagset
    ∧ ((applyPertag s).mon s.selmon).seltags = (s.mon s.selmon).seltags
    ∧ ((applyPertag s).mon s.selmon).pertag.curtag = (s.mon s.selmon).pertag.curtag
    ∧ ((applyPertag s).mon s.selmon).pertag.prevtag = (s.mon s.selmon).pertag.prevtag
    ∧ ((applyPertag s).mon s.selmon).nmaster
        = ((applyPertag s).mon s.selmon).pertag.nmasters (s.mon s.selmon).pertag.curtag
    ∧ ((applyPertag s).mon s.selmon).mfact
        = ((applyPertag s).mon s.selmon).pertag.mfacts (s.mon s.selmon).pertag.curtag
    ∧ ((applyPertag s).mon s.selmon).sellt
        = ((applyPertag s).mon s.selmon).pertag.sellts (s.mon s.selmon).pertag.curtag
    ∧ (∀ i, i = ((applyPertag s).mon s.selmon).sellt ∨ i = ((applyPertag s).mon s.selmon).sellt ^^^ 1 →
        ((applyPertag s).mon s.selmon).lt i
          = ((applyPertag s).mon s.selmon).pertag.ltidxs (s.mon s.selmon).pertag.curtag i)
    ∧ ((applyPertag s).mon s.selmon).showbar
        = ((applyPertag s).mon s.selmon).pertag.showbars (s.mon s.selmon).pertag.curtag
    ∧ (∀ j, ((applyPertag s).client j).mon = (s.client j).mon)
    ∧ (∀ x ∈ ((applyPertag s).mon s.selmon).stack, x ∈ (s.mon s.selmon).stack) := by
  have key : ∃ s2 : State F, applyPertag s = focus s2 none ∧ s2.selmon = s.selmon
      ∧ s2.client = s.client ∧ (s2.mon s.selmon).stack = (s.mon s.selmon).stack
      ∧ (s2.mon s.selmon).tagset = (s.mon s.selmon).tagset
      ∧ (s2.mon s.selmon).seltags = (s.mon s.selmon).seltags
      ∧ (s2.mon s.selmon).pertag.curtag = (s.mon s.selmon).pertag.curtag
      ∧ (s2.mon s.selmon).pertag.prevtag = (s.mon s.selmon).pertag.prevtag
      ∧ (s2.mon s.selmon).nmaster
          = (s2.mon s.selmon).pertag.nmasters (s.mon s.selmon).pertag.curtag
      ∧ (s2.mon s.selmon).mfact
          = (s2.mon s.selmon).pertag.mfacts (s.mon s.selmon).pertag.curtag
      ∧ (s2.mon s.selmon).sellt
          = (s2.mon s.selmon).pertag.sellts (s.mon s.selmon).pertag.curtag
      ∧ (∀ i, i = (s2.mon s.selmon).sellt ∨ i = (s2.mon s.selmon).sellt ^^^ 1 →
          (s2.mon s.selmon).lt i
            = (s2.mon s.selmon).pertag.ltidxs (s.mon s.selmon).pertag.curtag i)
      ∧ (s2.mon s.selmon).showbar
          = (s2.mon s.selmon).pertag.showbars (s.mon s.selmon).pertag.curtag := by
    simp only [applyPertag, arrange]
    split
    · refine ⟨_, rfl, ?_, ?_, ?_, ?_, ?_, ?_, ?_, ?_, ?_, ?_, ?_, ?_⟩
      all_goals simp only [togglebar, updatebarpos, arrange, setMon_selmon, setMon_client,
        setMon_mon, if_true]
      all_goals try split
      all_goals try simp
      all_goals exact (upd_other _ _ _ _ (ne_xor_one _)).trans (upd_same _ _ _)
    · rename_i h
      refine ⟨_, rfl, ?_, ?_, ?_, ?_, ?_, ?_, ?_, ?_, ?_, ?_, ?_, ?_⟩
      all_goals simp only [setMon_selmon, setMon_client, setMon_mon, if_true]
      all_goals try simp
      · exact (upd_other _ _ _ _ (ne_xor_one _)).trans (upd_same _ _ _)
      · simpa using h
  obtain ⟨s2, e, k1, k2, k3, k4, k5, k6, k7, k8, k9, k10, k11, k12⟩ := key
  have hown2 : ∀ x ∈ (s2.mon s2.selmon).stack, (s2.client x).mon = s2.selmon := by
    intro x hx
    rw [k1] at hx ⊢
    rw [k3] at hx
    rw [k2]
    exact hown x hx
  have hsel := focus_none_selmon s2 hown2
  obtain ⟨f1, f2, f3, f4, f5, f6, f7, f8⟩ := focus_mon_fields s2 none s.selmon
  rw [e]
  refine ⟨hsel.trans k1, f1.trans k4, f2.trans k5, ?_, ?_, ?_, ?_, ?_, ?_, ?_, ?_, ?_⟩
  · rw [f3]; exact k6
  · rw [f3]; exact k7
  · rw [f3, f4]; exact k8
  · rw [f3, f5]; exact k9
  · rw [f3, f6]; exact k10
  · intro i hi
    rw [f3, f7]
    rw [f6] at hi
    exact k11 i hi
  · rw [f3, f8]; exact k12
  · intro j
    have := (focus_frame s2 none).2.2.2.2.1 j
    rw [this, k2]
  · intro x hx
    have h4 := (focus_frame s2 none).2.2.2.1 s.selmon
    rw [h4] at hx
    rw [← k3]
    cases hf : focusTarget s2 none with
    | none => rw [hf] at hx; exact hx
    | some t =>
      rw [hf] at hx
      simp only [focusTarget] at hf
      have ht := List.mem_of_find?_eq_some hf
      rw [k1] at ht
      simp only at hx
      split at hx
      · rcases List.mem_cons.1 hx with h | h
        · rw [h]; exact ht
        · exact List.mem_of_mem_erase h
      · exact hx

/-- The first hit of `find?` on `range n`. -/
theorem find_range_some (p : Nat → Bool) : ∀ (n k : Nat),
    (List.range n).find? p = some k → p k = true ∧ k < n ∧ ∀ j < k, p j = false := by
  intro n
  induction n with
  | zero => intro k h; simp at h
  | succ n ih =>
    intro k h
    rw [List.range_succ, List.find?_append] at h
    cases hf : (List.range n).find? p with
    | some k2 =>
      rw [hf] at h
      simp at h
      subst h
      obtain ⟨a, b, c⟩ := ih k2 hf
      exact ⟨a, by omega, c⟩
    | none =>
      rw [hf] at h
      simp only [Option.or, List.find?_cons, List.find?_nil] at h
      have hall := List.find?_eq_none.1 hf
      cases hp : p n with
      | true =>
        rw [hp] at h
        simp only [Option.some.injEq] at h
        subst h
        refine ⟨hp, by omega, ?_⟩
        intro j hj
        have := hall j (List.mem_range.2 hj)
        simpa using this
      | false => rw [hp] at h; simp at h

/-- The loop `lowbit` stops at the lowest bit that is set. -/
theorem lowbit_spec (x i : Nat) (hi : i < 32) (hx : (x &&& (1 <<< i)) ≠ 0) :
    IsLowestTag x (lowbit x) ∧ lowbit x ≤ i := by
  unfold lowbit
  cases hf : (List.range 32).find? (fun i => (x &&& (1 <<< i)) != 0) with
  | none =>
    have := List.find?_eq_none.1 hf i (List.mem_range.2 hi)
    simp at this
    exact absurd this hx
  | some k =>
    obtain ⟨a, b, c⟩ := find_range_some _ _ _ hf
    simp only [Option.getD_some]
    refine ⟨⟨by simpa using a, fun j hj => by simpa using c j hj⟩, ?_⟩
    by_contra hlt
    have := c i (by omega)
    simp at this
    exact hx this

set_option maxRecDepth 100000 in
/-- A non-empty tag mask has one of the nine tag bits set. -/
theorem tag_bit_of_ne_zero : ∀ y : Nat, y < 512 → y ≠ 0 → ∃ i, i < 9 ∧ (y &&& (1 <<< i)) ≠ 0 := by
  decide

/-- The mask `TAGMASK` holds the nine tag bits. -/
theorem tagmask_and_bit : ∀ i : Nat, i < 9 → TAGMASK &&& (1 <<< i) = 1 <<< i := by
  decide

/-- A masked argument is below 512. -/
theorem and_tagmask_lt (x : Nat) : x &&& TAGMASK < 512 :=
  Nat.lt_succ_of_le Nat.and_le_right

/-- For an argument with a tag bit set, the loop over the bits of the argument
finds the lowest tag of the masked argument. -/
theorem lowest_of_masked (ui : Nat) (h : ui &&& TAGMASK ≠ 0) :
    IsLowestTag (ui &&& TAGMASK) (lowbit ui) := by
  obtain ⟨i, hi, hb⟩ := tag_bit_of_ne_zero _ (and_tagmask_lt ui) h
  have e : ∀ j, j < 9 → (ui &&& TAGMASK) &&& (1 <<< j) = ui &&& (1 <<< j) := by
    intro j hj
    rw [Nat.and_assoc, tagmask_and_bit j hj]
  rw [e i hi] at hb
  obtain ⟨⟨a, b⟩, c⟩ := lowbit_spec ui i (by omega) hb
  refine ⟨?_, ?_⟩
  · rw [e _ (by omega)]; exact a
  · intro j hj
    rw [e _ (by omega)]; exact b j hj

/-- The tail of `view` and `toggleview` run on a state whose selected monitor
was just assigned. -/
theorem applyPertag_setMon {F : Type} (s : State F) (m2 : Monitor F)
    (hown : ∀ x ∈ m2.stack, (s.client x).mon = s.selmon) :
    (applyPertag (s.setMon s.selmon m2)).selmon = s.selmon
    ∧ ((applyPertag (s.setMon s.selmon m2)).mon s.selmon).tagset = m2.tagset
    ∧ ((applyPertag (s.setMon s.selmon m2)).mon s.selmon).seltags = m2.seltags
    ∧ ((applyPertag (s.setMon s.selmon m2)).mon s.selmon).pertag.curtag = m2.pertag.curtag
    ∧ ((applyPertag (s.setMon s.selmon m2)).mon s.selmon).pertag.prevtag = m2.pertag.prevtag
    ∧ PertagApplied ((applyPertag (s.setMon s.selmon m2)).mon s.selmon)
    ∧ (∀ j, ((applyPertag (s.setMon s.selmon m2)).client j).mon = (s.client j).mon)
    ∧ (∀ x ∈ ((applyPertag (s.setMon s.selmon m2)).mon s.selmon).stack, x ∈ m2.stack) := by
  have e : (s.setMon s.selmon m2).mon s.selmon = m2 := by simp [setMon_mon]
  have h := applyPertag_spec (s.setMon s.selmon m2)
    (by simp only [setMon_selmon, setMon_client]; rw [e]; exact hown)
  simp only [setMon_selmon, setMon_client] at h
  rw [e] at h
  obtain ⟨h1, h2, h3, h4, h5, h6, h7, h8, h9, h10, h11, h12⟩ := h
  refine ⟨h1, h2, h3, h4, h5, ?_, h11, h12⟩
  unfold PertagApplied
  rw [h4]
  exact ⟨h6, h7, h8, h9 _ (Or.inl rfl), h9 _ (Or.inr rfl), h10⟩

/-- What `view` assigns before the shared tail when the tag-set changes. -/
theorem view_changed {F : Type} (s : State F) (ui : Nat)
    (hne : ui &&& TAGMASK ≠ (s.mon s.selmon).seltagset) :
    ∃ m2 : Monitor F, view s ui = applyPertag (s.setMon s.selmon m2)
      ∧ m2.stack = (s.mon s.selmon).stack
      ∧ m2.seltags = (s.mon s.selmon).seltags ^^^ 1
      ∧ m2.pertag.prevtag = (s.mon s.selmon).pertag.curtag
      ∧ (ui &&& TAGMASK ≠ 0 →
          m2.tagset = upd (s.mon s.selmon).tagset ((s.mon s.selmon).seltags ^^^ 1) (ui &&& TAGMASK)
          ∧ m2.pertag.curtag = (if ui = UINT_MAX then 0 else lowbit ui + 1))
      ∧ (ui &&& TAGMASK = 0 →
          m2.tagset = (s.mon s.selmon).tagset
          ∧ m2.pertag.curtag = (s.mon s.selmon).pertag.prevtag) := by
  unfold view
  simp only []
  rw [if_neg hne]
  by_cases hz : ui &&& TAGMASK = 0
  · refine ⟨_, rfl, ?_, ?_, ?_, ?_, ?_⟩ <;> simp [hz]
  · refine ⟨_, rfl, ?_, ?_, ?_, ?_, ?_⟩ <;> simp [hz]

/-- C19: for a mask `t` with `t & TAGMASK` non-zero and different from the
current tag-set, `view(t)` shows `t & TAGMASK`, and `view(0)` after it restores
the visible tag-set, the slot index `seltags` and `pertag->curtag`.  (The focus
stack of the selected monitor holds only clients of that monitor.) -/
theorem C19_view_then_view_zero_restores {F : Type} (s : State F) (ui : Nat)
    (hnz : ui &&& TAGMASK ≠ 0) (hne : ui &&& TAGMASK ≠ (s.mon s.selmon).seltagset)
    (hown : ∀ x ∈ (s.mon s.selmon).stack, (s.client x).mon = s.selmon) :
    ((view s ui).mon s.selmon).seltagset = ui &&& TAGMASK
    ∧ (view (view s ui) 0).selmon = s.selmon
    ∧ ((view (view s ui) 0).mon s.selmon).seltagset = (s.mon s.selmon).seltagset
    ∧ ((view (view s ui) 0).mon s.selmon).seltags = (s.mon s.selmon).seltags
    ∧ ((view (view s ui) 0).mon s.selmon).pertag.curtag = (s.mon s.selmon).pertag.curtag := by
  obtain ⟨m2, e, a1, a2, a3, a4, -⟩ := view_changed s ui hne
  obtain ⟨a4, -⟩ := a4 hnz
  obtain ⟨b1, b2, b3, b4, b5, -, b7, b8⟩ := applyPertag_setMon s m2
    (by rw [a1]; exact hown)
  rw [← e] at b1 b2 b3 b4 b5 b7 b8
  have hts : ((view s ui).mon (view s ui).selmon).seltagset = ui &&& TAGMASK := by
    rw [b1]; unfold Monitor.seltagset; rw [b2, b3, a4, a2, upd_same]
  have hne2 : 0 &&& TAGMASK ≠ ((view s ui).mon (view s ui).selmon).seltagset := by
    rw [hts, Nat.zero_and]; exact fun h => hnz h.symm
  obtain ⟨m3, e3, c1, c2, c3, -, c5⟩ := view_changed (view s ui) 0 hne2
  obtain ⟨c5, c6⟩ := c5 (Nat.zero_and _)
  obtain ⟨d1, d2, d3, d4, -⟩ := applyPertag_setMon (view s ui) m3
    (by
      intro x hx
      rw [c1, b1] at hx
      rw [b7, b1]
      rw [a1] at b8
      exact hown x (b8 x hx))
  rw [← e3, b1] at d1 d2 d3 d4
  rw [b1] at hts c2 c5 c6
  have hx : ((s.mon s.selmon).seltags ^^^ 1) ^^^ 1 = (s.mon s.selmon).seltags := by
    rw [Nat.xor_assoc]; simp
  refine ⟨hts, d1, ?_, ?_, ?_⟩
  · unfold Monitor.seltagset
    rw [d2, d3, c5, c2, b2, b3, a4, a2, hx]
    exact upd_other _ _ _ _ (ne_xor_one _)
  · rw [d3, c2, b3, a2, hx]
  · rw [d4, c6, b5, a3]

theorem C19_view_then_view_zero_restores_witness :
    (((view (setupState (55 : Nat) 1 10 10 10 10 1920 1080 20) 4).mon 0).seltagset = 4)
    ∧ ((view (view (setupState (55 : Nat) 1 10 10 10 10 1920 1080 20) 4) 0).mon 0).seltagset = 1 :=
  have h := C19_view_then_view_zero_restores (setupState (55 : Nat) 1 10 10 10 10 1920 1080 20) 4
    (by decide) (by decide) (by decide)
  ⟨h.1, h.2.2.1⟩

/-- What `toggleview` assigns before the shared tail when the new tag-set is
not empty and `curtag` is not 0. -/
theorem toggleview_changed {F : Type} (s : State F) (ui : Nat)
    (hnz : (s.mon s.selmon).seltagset ^^^ (ui &&& TAGMASK) ≠ 0)
    (hmax : (s.mon s.selmon).seltagset ^^^ (ui &&& TAGMASK) ≠ UINT_MAX)
    (hcur : (s.mon s.selmon).pertag.curtag ≠ 0) :
    ∃ m3 : Monitor F, toggleview s ui = some (applyPertag (s.setMon s.selmon m3))
      ∧ m3.stack = (s.mon s.selmon).stack
      ∧ m3.seltags = (s.mon s.selmon).seltags
      ∧ m3.tagset = upd (s.mon s.selmon).tagset (s.mon s.selmon).seltags
          ((s.mon s.selmon).seltagset ^^^ (ui &&& TAGMASK))
      ∧ ((((s.mon s.selmon).seltagset ^^^ (ui &&& TAGMASK))
            &&& (1 <<< ((s.mon s.selmon).pertag.curtag - 1))) ≠ 0 →
          m3.pertag.curtag = (s.mon s.selmon).pertag.curtag)
      ∧ ((((s.mon s.selmon).seltagset ^^^ (ui &&& TAGMASK))
            &&& (1 <<< ((s.mon s.selmon).pertag.curtag - 1))) = 0 →
          m3.pertag.curtag = lowbit ((s.mon s.selmon).seltagset ^^^ (ui &&& TAGMASK)) + 1) := by
  unfold toggleview
  simp only []
  have h1 : (((s.mon s.selmon).seltagset ^^^ (ui &&& TAGMASK)) != 0) = true := by
    simpa using hnz
  rw [if_pos h1, if_neg hmax, if_neg hcur]
  by_cases hb : (((s.mon s.selmon).seltagset ^^^ (ui &&& TAGMASK))
      &&& (1 <<< ((s.mon s.selmon).pertag.curtag - 1))) = 0
  · refine ⟨_, rfl, ?_, ?_, ?_, ?_, ?_⟩ <;> simp [hb]
  · refine ⟨_, rfl, ?_, ?_, ?_, ?_, ?_⟩ <;> simp [hb]

/-- C11 (amended): on a monitor whose tag-set lies within `TAGMASK` and whose
focus stack holds only its own clients.  After `view(t)` with `t & TAGMASK`
different from the tag-set, the settings of the monitor equal the `Pertag`
entry of `curtag`, and for a non-zero `t & TAGMASK` the tag-set is
`t & TAGMASK` and `curtag` is 0 for `t = ~0` and else the number of the
lowest-numbered tag of the tag-set.  After `toggleview` that leaves a non-empty
tag-set, with `curtag` not 0 before, the settings equal the `Pertag` entry of
`curtag`, and `curtag` is unchanged when its tag is still visible and else the
number of the lowest-numbered visible tag. -/
theorem C11_curtag_after_view_and_toggleview {F : Type} (s : State F) (ui : Nat)
    (hmask : (s.mon s.selmon).seltagset < 512)
    (hown : ∀ x ∈ (s.mon s.selmon).stack, (s.client x).mon = s.selmon) :
    (ui &&& TAGMASK ≠ (s.mon s.selmon).seltagset →
      (view s ui).selmon = s.selmon
      ∧ PertagApplied ((view s ui).mon s.selmon)
      ∧ (ui &&& TAGMASK ≠ 0 →
          ((view s ui).mon s.selmon).seltagset = ui &&& TAGMASK
          ∧ (ui = UINT_MAX → ((view s ui).mon s.selmon).pertag.curtag = 0)
          ∧ (ui ≠ UINT_MAX → ∃ k, ((view s ui).mon s.selmon).pertag.curtag = k + 1
              ∧ IsLowestTag ((view s ui).mon s.selmon).seltagset k)))
    ∧ ((s.mon s.selmon).seltagset ^^^ (ui &&& TAGMASK) ≠ 0 →
        (s.mon s.selmon).pertag.curtag ≠ 0 →
        ∃ t, toggleview s ui = some t
          ∧ t.selmon = s.selmon
          ∧ PertagApplied (t.mon s.selmon)
          ∧ (t.mon s.selmon).seltagset = (s.mon s.selmon).seltagset ^^^ (ui &&& TAGMASK)
          ∧ (((t.mon s.selmon).seltagset &&& (1 <<< ((s.mon s.selmon).pertag.curtag - 1))) ≠ 0 →
              (t.mon s.selmon).pertag.curtag = (s.mon s.selmon).pertag.curtag)
          ∧ (((t.mon s.selmon).seltagset &&& (1 <<< ((s.mon s.selmon).pertag.curtag - 1))) = 0 →
              ∃ k, (t.mon s.selmon).pertag.curtag = k + 1
                ∧ IsLowestTag (t.mon s.selmon).seltagset k)) := by
  refine ⟨?_, ?_⟩
  · intro hne
    obtain ⟨m2, e, a1, a2, a3, a4, -⟩ := view_changed s ui hne
    obtain ⟨b1, b2, b3, b4, b5, b6, -⟩ := applyPertag_setMon s m2 (by rw [a1]; exact hown)
    rw [← e] at b1 b2 b3 b4 b5 b6
    refine ⟨b1, b6, ?_⟩
    intro hnz
    obtain ⟨a4, a5⟩ := a4 hnz
    have hts : ((view s ui).mon s.selmon).seltagset = ui &&& TAGMASK := by
      unfold Monitor.seltagset; rw [b2, b3, a4, a2, upd_same]
    refine ⟨hts, ?_, ?_⟩
    · intro hu
      rw [b4, a5, if_pos hu]
    · intro hu
      refine ⟨lowbit ui, ?_, ?_⟩
      · rw [b4, a5, if_neg hu]
      · rw [hts]; exact lowest_of_masked ui hnz
  · intro hnz hcur
    have hlt : (s.mon s.selmon).seltagset ^^^ (ui &&& TAGMASK) < 2 ^ 9 :=
      Nat.xor_lt_two_pow hmask (and_tagmask_lt ui)
    have hmax : (s.mon s.selmon).seltagset ^^^ (ui &&& TAGMASK) ≠ UINT_MAX := by
      unfold UINT_MAX; omega
    obtain ⟨m3, e, a1, a2, a3, a4, a5⟩ := toggleview_changed s ui hnz hmax hcur
    obtain ⟨b1, b2, b3, b4, b5, b6, -⟩ := applyPertag_setMon s m3 (by rw [a1]; exact hown)
    have hts : ((applyPertag (s.setMon s.selmon m3)).mon s.selmon).seltagset
        = (s.mon s.selmon).seltagset ^^^ (ui &&& TAGMASK) := by
      unfold Monitor.seltagset; rw [b2, b3, a3, a2, upd_same]; rfl
    refine ⟨_, e, b1, b6, hts, ?_, ?_⟩
    · intro hb
      rw [hts] at hb
      rw [b4]; exact a4 hb
    · intro hb
      rw [hts] at hb ⊢
      refine ⟨lowbit ((s.mon s.selmon).seltagset ^^^ (ui &&& TAGMASK)), ?_, ?_⟩
      · rw [b4]; exact a5 hb
      · obtain ⟨i, hi, hbit⟩ := tag_bit_of_ne_zero _ hlt hnz
        exact (lowbit_spec _ i (by omega) hbit).1

theorem C11_curtag_after_view_and_toggleview_witness :
    ((view (setupState (55 : Nat) 1 10 10 10 10 1920 1080 20) 12).selmon = 0
      ∧ PertagApplied ((view (setupState (55 : Nat) 1 10 10 10 10 1920 1080 20) 12).mon 0)
      ∧ (12 &&& TAGMASK ≠ 0 →
          ((view (setupState (55 : Nat) 1 10 10 10 10 1920 1080 20) 12).mon 0).seltagset
            = 12 &&& TAGMASK
          ∧ (12 = UINT_MAX →
              ((view (setupState (55 : Nat) 1 10 10 10 10 1920 1080 20) 12).mon 0).pertag.curtag
                = 0)
          ∧ (12 ≠ UINT_MAX → ∃ k,
              ((view (setupState (55 : Nat) 1 10 10 10 10 1920 1080 20) 12).mon 0).pertag.curtag
                = k + 1
              ∧ IsLowestTag
                ((view (setupState (55 : Nat) 1 10 10 10 10 1920 1080 20) 12).mon 0).seltagset
                k))) :=
  (C11_curtag_after_view_and_toggleview (setupState (55 : Nat) 1 10 10 10 10 1920 1080 20) 12
    (by decide) (by decide)).1 (by decide)

/-- C11 (counterexample): tag 3 is viewed and tag 1 is toggled in.  The visible
tag-set changes from tag 3 to tags 1 and 3, whose lowest-numbered tag is 1, but
`pertag->curtag` stays 3. -/
theorem C11_toggleview_keeps_curtag :
    ((view (setupState (55 : Nat) 1 10 10 10 10 1920 1080 20) 4).mon 0).seltagset = 4
    ∧ ∃ t, toggleview (view (setupState (55 : Nat) 1 10 10 10 10 1920 1080 20) 4) 1 = some t
      ∧ t.selmon = 0
      ∧ (t.mon 0).seltagset = 5
      ∧ IsLowestTag 5 0
      ∧ (t.mon 0).pertag.curtag = 3 := by
  refine ⟨by decide, _, rfl, by decide, by decide, ?_, by decide⟩
  exact ⟨by decide, fun j hj => absurd hj (Nat.not_lt_zero j)⟩


/-! ### Rules: which matching rule decides the flags -/

/-- The flags and the monitor after the loop of `applyrules`: every matching
rule overwrites the three flags, and every matching rule whose monitor number
exists overwrites the monitor. -/
theorem applyrule_fold_flags {F : Type} (s : State F) (name cls inst : List Char) :
    ∀ (rs : List Rule) (c : Client),
      (rs.foldl (applyrule s name cls inst) c).isfloating
        = (match (rs.filter (fun r => ruleMatches r name cls inst)).getLast? with
           | some r => r.isfloating
           | none => c.isfloating)
      ∧ (rs.foldl (applyrule s name cls inst) c).isterminal
        = (match (rs.filter (fun r => ruleMatches r name cls inst)).getLast? with
           | some r => r.isterminal
           | none => c.isterminal)
      ∧ (rs.foldl (applyrule s name cls inst) c).noswallow
        = (match (rs.filter (fun r => ruleMatches r name cls inst)).getLast? with
           | some r => r.noswallow
           | none => c.noswallow)
      ∧ (rs.foldl (applyrule s name cls inst) c).mon
        = (match (rs.filter (fun r => ruleMatches r name cls inst
              && (findMonByNum s r.monitor).isSome)).getLast? with
           | some r => (findMonByNum s r.monitor).getD c.mon
           | none => c.mon) := by
  intro rs
  induction rs using List.reverseRecOn with
  | nil => intro c; simp
  | append_singleton l a ih =>
    intro c
    obtain ⟨i1, i2, i3, i4⟩ := ih c
    rw [List.foldl_append]
    simp only [List.foldl_cons, List.foldl_nil, List.filter_append]
    by_cases h : ruleMatches a name cls inst = true
    · cases hm : findMonByNum s a.monitor with
      | none => simp [applyrule, h, hm, List.filter_cons, i4]
      | some mm => simp [applyrule, h, hm, List.filter_cons]
    · simp [applyrule, h, List.filter_cons, i1, i2, i3, i4]

/-- C15 (amended): when several rules match a window, the floating, terminal
and no-swallow flags that `applyrules` gives the client are those of the last
matching rule in declared order, and the monitor is that of the last matching
rule whose monitor number exists (the client keeps its monitor when there is
none). -/
theorem C15_applyrules_last_match_wins {F : Type} (rs : List Rule) (s : State F)
    (name : List Char) (res_class res_name : Option (List Char)) (c : Client) (r : Rule)
    (hlast : (rs.filter (fun r => ruleMatches r name (res_class.getD broken)
        (res_name.getD broken))).getLast? = some r) :
    (applyrules rs s name res_class res_name c).isfloating = r.isfloating
    ∧ (applyrules rs s name res_class res_name c).isterminal = r.isterminal
    ∧ (applyrules rs s name res_class res_name c).noswallow = r.noswallow
    ∧ (applyrules rs s name res_class res_name c).mon
        = (match (rs.filter (fun r => ruleMatches r name (res_class.getD broken)
              (res_name.getD broken) && (findMonByNum s r.monitor).isSome)).getLast? with
           | some r => (findMonByNum s r.monitor).getD c.mon
           | none => c.mon) := by
  obtain ⟨h1, h2, h3, h4⟩ := applyrule_fold_flags s name (res_class.getD broken)
    (res_name.getD broken) rs { c with isfloating := false, tags := 0 }
  rw [hlast] at h1 h2 h3
  exact ⟨h1, h2, h3, h4⟩

theorem C15_applyrules_last_match_wins_witness :
    (applyrules rules (setupState (55 : Nat) 1 10 10 10 10 1920 1080 20) "Event Tester".toList
        (some "St".toList) (some "st".toList) (plainClient 0 7)).isfloating = true
    ∧ (applyrules rules (setupState (55 : Nat) 1 10 10 10 10 1920 1080 20) "Event Tester".toList
        (some "St".toList) (some "st".toList) (plainClient 0 7)).isterminal = false
    ∧ (applyrules rules (setupState (55 : Nat) 1 10 10 10 10 1920 1080 20) "Event Tester".toList
        (some "St".toList) (some "st".toList) (plainClient 0 7)).noswallow = true :=
  have h := C15_applyrules_last_match_wins rules (setupState (55 : Nat) 1 10 10 10 10 1920 1080 20)
    "Event Tester".toList (some "St".toList) (some "st".toList) (plainClient 0 7)
    ⟨none, none, some "Event Tester".toList, 0, true, false, true, -1⟩ (by decide)
  ⟨h.1, h.2.1, h.2.2.1⟩

/-- C15 (counterexample): a window of class `St` with the title `Event Tester`
matches the `St` rule first (terminal, not floating, swallowing allowed) and
the `Event Tester` rule after it; `applyrules` leaves the client floating, not
a terminal and with `noswallow` set, the flags of the later rule. -/
theorem C15_first_match_does_not_win :
    (rules.filter (fun r => ruleMatches r "Event Tester".toList "St".toList "st".toList)).head?
      = some ⟨some "St".toList, none, none, 0, false, true, false, -1⟩
    ∧ (applyrules rules (setupState (55 : Nat) 1 10 10 10 10 1920 1080 20)
        "Event Tester".toList (some "St".toList) (some "st".toList) (plainClient 0 7)).isfloating
        = true
    ∧ (applyrules rules (setupState (55 : Nat) 1 10 10 10 10 1920 1080 20)
        "Event Tester".toList (some "St".toList) (some "st".toList) (plainClient 0 7)).isterminal
        = false
    ∧ (applyrules rules (setupState (55 : Nat) 1 10 10 10 10 1920 1080 20)
        "Event Tester".toList (some "St".toList) (some "st".toList) (plainClient 0 7)).noswallow
        = true := by
  refine ⟨?_, ?_, ?_, ?_⟩ <;> decide


/-! ### Configure requests -/

/-- C20: for a managed client that is not floating, while the layout of the
selected monitor (the one `configurerequest` tests) has an arrange function,
`configurerequest` leaves `x`, `y`, `w` and `h` of the client unchanged for
every request, sets the border width to the requested one when the request
carries a border width and leaves it unchanged otherwise, and touches no other
client.  Every row of `layouts[]` has an arrange function. -/
theorem C20_configurerequest_tiled {F : Type} (s : State F) (geom : Nat → Geom F)
    (ev : XConfigureRequestEvent) (c : Nat)
    (hc : wintoclient s ev.window = some c)
    (hfl : (s.client c).isfloating = false)
    (hA : hasArrange ((s.mon s.selmon).lt (s.mon s.selmon).sellt) = true) :
    (configurerequest s geom ev c).x = (geom c).x
    ∧ (configurerequest s geom ev c).y = (geom c).y
    ∧ (configurerequest s geom ev c).w = (geom c).w
    ∧ (configurerequest s geom ev c).h = (geom c).h
    ∧ (ev.value_mask &&& CWBorderWidth = 0 → configurerequest s geom ev c = geom c)
    ∧ (ev.value_mask &&& CWBorderWidth ≠ 0 →
        configurerequest s geom ev c = { geom c with bw := ev.border_width })
    ∧ (∀ d, d ≠ c → configurerequest s geom ev d = geom d)
    ∧ (∀ i, i < layouts.length → hasArrange i = true) := by
  have e : configurerequest s geom ev
      = upd geom c (configureClient false true (s.mon (s.client c).mon) (geom c) ev) := by
    unfold configurerequest
    rw [hc]
    simp only [hfl, hA]
  rw [e]
  simp only [upd_same]
  by_cases hb : ev.value_mask &&& CWBorderWidth = 0
  · have e2 : configureClient false true (s.mon (s.client c).mon) (geom c) ev = geom c := by
      simp [configureClient, hb]
    rw [e2]
    exact ⟨rfl, rfl, rfl, rfl, fun _ => rfl, fun h => absurd hb h,
      fun d hd => upd_other _ _ _ _ hd, by decide⟩
  · have e2 : configureClient false true (s.mon (s.client c).mon) (geom c) ev
        = { geom c with bw := ev.border_width } := by
      simp [configureClient, hb]
    rw [e2]
    exact ⟨rfl, rfl, rfl, rfl, fun h => absurd h hb, fun _ => rfl,
      fun d hd => upd_other _ _ _ _ hd, by decide⟩

theorem C20_configurerequest_tiled_witness :
    (configurerequest (oneMonitor [11] [11] (some 11) (fun i => plainClient 1 i) none)
        (fun _ => smallClient) ⟨11, 15, 300, 200, 640, 480, 0⟩ 11).x = 0
    ∧ (configurerequest (oneMonitor [11] [11] (some 11) (fun i => plainClient 1 i) none)
        (fun _ => smallClient) ⟨11, 15, 300, 200, 640, 480, 0⟩ 11).w = 10 :=
  have h := C20_configurerequest_tiled
    (oneMonitor [11] [11] (some 11) (fun i => plainClient 1 i) none)
    (fun _ => smallClient) ⟨11, 15, 300, 200, 640, 480, 0⟩ 11 (by decide) (by decide) (by decide)
  ⟨h.1, h.2.2.1⟩


/-! ### The layout `centeredmaster` and the border width -/

/-- C16 (failing input): gaps are switched off; the first client has border
width 0 from an arrangement in which it was alone, a second client has just
been managed with border width `borderpx` = 1.  `centeredmaster` takes twice
the old border width of the first client from its width and height and gives
it the new border width 1: no request is altered by the size-hint adjustment,
the outer rectangle of the first client is 1058 by 1062 at (0, 20), it overlaps
the second (864 by 1060 at (1056, 20)) and leaves the window area, which ends
at y = 1080. -/
theorem C16_centeredmaster_stale_border_overlap :
    (∀ p ∈ centeredmasterTrace hundredths { wideEnv with gapsenabled := 0 } wideMonitor
        wideMonitor [borderlessClient, smallClient], Unaltered p)
    ∧ (centeredmaster hundredths { wideEnv with gapsenabled := 0 } wideMonitor wideMonitor
        [borderlessClient, smallClient]).map outer
        = [⟨0, 20, 1058, 1062⟩, ⟨1056, 20, 864, 1060⟩]
    ∧ Overlap ⟨0, 20, 1058, 1062⟩ ⟨1056, 20, 864, 1060⟩
    ∧ wideMonitor.wy + wideMonitor.wh = 1080 := by
  refine ⟨?_, ?_, ?_, ?_⟩ <;> decide

/-- C18 (failing input): gaps are enabled and the monitor `m` has its four gaps
at 10, the selected monitor is another one whose gaps are all 0, and one client
is tiled on `m`.  `tile` and `centeredmaster` ask `monhasgaps(selmon)`, not
`monhasgaps(m)`, and give the client border width 0 although `borderpx` is 1
and `m` has gaps. -/
theorem C18_border_follows_selmon_gaps :
    wideEnv.gapsenabled = 1
    ∧ wideEnv.borderpx = 1
    ∧ monhasgaps wideEnv wideMonitor = true
    ∧ monhasgaps wideEnv gaplessMonitor = false
    ∧ (tile hundredths wideEnv gaplessMonitor wideMonitor [smallClient]).map (fun c => c.bw) = [0]
    ∧ (centeredmaster hundredths wideEnv gaplessMonitor wideMonitor [smallClient]).map
        (fun c => c.bw) = [0] := by
  refine ⟨?_, ?_, ?_, ?_, ?_, ?_⟩ <;> decide

/-- Dropping the first client shifts the offsets: the second column becomes
the first, and the first column has grown by the height of that client. -/
theorem columnOffset_cons (h0 : Int) (hs : List Int) (a b : Int) :
    ∀ k : Nat, columnOffset (h0 :: hs) a b (k + 1) = columnOffset hs b (u32 (a + h0)) k
      ∧ columnOffset (h0 :: hs) a b (k + 2) = columnOffset hs b (u32 (a + h0)) (k + 1) := by
  intro k
  induction k with
  | zero =>
    refine ⟨rfl, ?_⟩
    simp only [columnOffset, List.getD_cons_zero]
  | succ k ih =>
    refine ⟨ih.2, ?_⟩
    show u32 (columnOffset (h0 :: hs) a b (k + 1) + (h0 :: hs).getD (k + 1) 0)
      = u32 (columnOffset hs b (u32 (a + h0)) k + hs.getD k 0)
    rw [ih.1, List.getD_cons_succ]

/-- The stack part of the loop of `centeredmaster`, started at a position `i`
at or beyond the master count with the column offsets `oty` and `ety`. -/
theorem centeredmasterLoop_stack {F : Type} (fl : GeomFloat F) (env : LayoutEnv) (m : Monitor F)
    (n bw mw mx tw : Int) (hnm : 0 ≤ m.nmaster) (hn : n < 268435456) :
    ∀ (cs : List (Geom F)) (i my oty ety : Int), m.nmaster ≤ i → i + cs.length = n →
      ∀ k : Nat, k < cs.length →
        ∃ c p, cs[k]? = some c
          ∧ (centeredmasterLoop fl env m n bw mw mx tw i my oty ety cs)[k]? = some p
          ∧ p.1.x = (if (i - m.nmaster + k) % 2 = 1 then m.wx else i32 (u32 (m.wx + mx + mw)))
          ∧ p.1.y = i32 (u32 (m.wy + columnOffset
              ((centeredmasterLoop fl env m n bw mw mx tw i my oty ety cs).map
                (fun q => HEIGHT q.2))
              (if (i - m.nmaster) % 2 = 1 then ety else oty)
              (if (i - m.nmaster) % 2 = 1 then oty else ety) k))
          ∧ p.1.h = i32 (u32 (u32 (m.wh - columnOffset
              ((centeredmasterLoop fl env m n bw mw mx tw i my oty ety cs).map
                (fun q => HEIGHT q.2))
              (if (i - m.nmaster) % 2 = 1 then ety else oty)
              (if (i - m.nmaster) % 2 = 1 then oty else ety) k)
              / ((((cs.length - k + 1 : Nat) : Int)) / 2) - 2 * c.bw))
          ∧ p.1.bw = i32 bw
          ∧ p.2 = resize fl env m false c p.1 false := by
  intro cs
  induction cs with
  | nil => intro i my oty ety _ _ k hk; simp at hk
  | cons c rest ih =>
    intro i my oty ety hi hlen k hk
    simp only [List.length_cons] at hlen hk
    push_cast at hlen
    have hN : u32 m.nmaster = m.nmaster := u32_id _ hnm (by omega)
    have hi2 : ¬ (i < u32 m.nmaster) := by rw [hN]; omega
    have hiu : u32 (i + 1) = i + 1 := u32_id _ (by omega) (by omega)
    have hsub : u32 (i - u32 m.nmaster) = i - m.nmaster := by
      rw [hN]; exact u32_id _ (by omega) (by omega)
    have hrem : u32 (1 + n - i) = ((((c :: rest).length - 0 + 1 : Nat)) : Int) := by
      rw [u32_id _ (by omega) (by omega)]
      simp only [List.length_cons, Nat.sub_zero]
      push_cast; omega
    by_cases hp : (i - m.nmaster) % 2 = 1
    · have hodd : u32 (i - u32 m.nmaster) % 2 ≠ 0 := by rw [hsub]; omega
      obtain ⟨rq, c1, r1, r2, r3, r4, r5, e⟩ : ∃ (rq : Req) (c1 : Geom F), rq.x = m.wx
          ∧ rq.y = i32 (u32 (m.wy + ety))
          ∧ rq.h = i32 (u32 (u32 (m.wh - ety) / (u32 (1 + n - i) / 2) - 2 * c.bw))
          ∧ rq.bw = i32 bw ∧ c1 = resize fl env m false c rq false
          ∧ centeredmasterLoop fl env m n bw mw mx tw i my oty ety (c :: rest)
            = (rq, c1) :: centeredmasterLoop fl env m n bw mw mx tw (i + 1) my oty
                (u32 (ety + HEIGHT c1)) rest :=
        ⟨⟨m.wx, i32 (u32 (m.wy + ety)), i32 (u32 (tw - 2 * c.bw)),
            i32 (u32 (u32 (m.wh - ety) / (u32 (1 + n - i) / 2) - 2 * c.bw)), i32 bw⟩,
          _, rfl, rfl, rfl, rfl, rfl, by
          simp only [centeredmasterLoop, hi2, hodd, if_false, if_true, hiu, ne_eq,
            not_false_eq_true]⟩
      rw [e]
      cases k with
      | zero =>
        refine ⟨c, (rq, c1), by simp, by simp, ?_, ?_, ?_, r4, r5⟩
        · simp only [Nat.cast_zero, add_zero, hp, if_true]; exact r1
        · simp only [columnOffset, hp, if_true]; exact r2
        · simp only [columnOffset, hp, if_true]; rw [← hrem]; exact r3
      | succ k2 =>
        obtain ⟨c2, p, h1, h2, h3, h4, h5, h6, h7⟩ := ih (i + 1) my oty
          (u32 (ety + HEIGHT c1)) (by omega) (by omega) k2 (by omega)
        have hq : ¬ ((i + 1 - m.nmaster) % 2 = 1) := by omega
        have hx : i + 1 - m.nmaster + (k2 : Int) = i - m.nmaster + ((k2 + 1 : Nat) : Int) := by
          push_cast; omega
        have hl : rest.length + 1 - (k2 + 1) + 1 = rest.length - k2 + 1 := by omega
        simp only [hq, if_false] at h4 h5
        rw [hx] at h3
        refine ⟨c2, p, ?_, ?_, h3, ?_, ?_, h6, h7⟩
        · simpa using h1
        · simpa using h2
        · simp only [List.map_cons, hp, if_true, (columnOffset_cons _ _ _ _ k2).1]
          exact h4
        · simp only [List.map_cons, hp, if_true, (columnOffset_cons _ _ _ _ k2).1,
            List.length_cons, hl]
          exact h5
    · have heven : ¬ (u32 (i - u32 m.nmaster) % 2 ≠ 0) := by rw [hsub]; omega
      obtain ⟨rq, c1, r1, r2, r3, r4, r5, e⟩ : ∃ (rq : Req) (c1 : Geom F),
          rq.x = i32 (u32 (m.wx + mx + mw))
          ∧ rq.y = i32 (u32 (m.wy + oty))
          ∧ rq.h = i32 (u32 (u32 (m.wh - oty) / (u32 (1 + n - i) / 2) - 2 * c.bw))
          ∧ rq.bw = i32 bw ∧ c1 = resize fl env m false c rq false
          ∧ centeredmasterLoop fl env m n bw mw mx tw i my oty ety (c :: rest)
            = (rq, c1) :: centeredmasterLoop fl env m n bw mw mx tw (i + 1) my
                (u32 (oty + HEIGHT c1)) ety rest :=
        ⟨⟨i32 (u32 (m.wx + mx + mw)), i32 (u32 (m.wy + oty)), i32 (u32 (tw - 2 * c.bw)),
            i32 (u32 (u32 (m.wh - oty) / (u32 (1 + n - i) / 2) - 2 * c.bw)), i32 bw⟩,
          _, rfl, rfl, rfl, rfl, rfl, by
          simp only [centeredmasterLoop, hi2, heven, if_false, hiu]⟩
      rw [e]
      cases k with
      | zero =>
        refine ⟨c, (rq, c1), by simp, by simp, ?_, ?_, ?_, r4, r5⟩
        · simp only [Nat.cast_zero, add_zero, hp, if_false]; exact r1
        · simp only [columnOffset, hp, if_false]; exact r2
        · simp only [columnOffset, hp, if_false]; rw [← hrem]; exact r3
      | succ k2 =>
        obtain ⟨c2, p, h1, h2, h3, h4, h5, h6, h7⟩ := ih (i + 1) my
          (u32 (oty + HEIGHT c1)) ety (by omega) (by omega) k2 (by omega)
        have hq : (i + 1 - m.nmaster) % 2 = 1 := by omega
        have hx : i + 1 - m.nmaster + (k2 : Int) = i - m.nmaster + ((k2 + 1 : Nat) : Int) := by
          push_cast; omega
        have hl : rest.length + 1 - (k2 + 1) + 1 = rest.length - k2 + 1 := by omega
        simp only [hq, if_true] at h4 h5
        rw [hx] at h3
        refine ⟨c2, p, ?_, ?_, h3, ?_, ?_, h6, h7⟩
        · simpa using h1
        · simpa using h2
        · simp only [List.map_cons, hp, if_false, (columnOffset_cons _ _ _ _ k2).1]
          exact h4
        · simp only [List.map_cons, hp, if_false, (columnOffset_cons _ _ _ _ k2).1,
            List.length_cons, hl]
          exact h5

/-- The master part of the loop of `centeredmaster` leaves the two column
offsets as they are and hands the other clients to the stack part. -/
theorem centeredmasterLoop_master {F : Type} (fl : GeomFloat F) (env : LayoutEnv) (m : Monitor F)
    (n bw mw mx tw : Int) (hnm : 0 ≤ m.nmaster) (hn : m.nmaster < 268435456)
    (cr : List (Geom F)) :
    ∀ (cm : List (Geom F)) (i my oty ety : Int), 0 ≤ i → i + cm.length = m.nmaster →
      ∃ T my2, centeredmasterLoop fl env m n bw mw mx tw i my oty ety (cm ++ cr)
          = T ++ centeredmasterLoop fl env m n bw mw mx tw m.nmaster my2 oty ety cr
        ∧ T.length = cm.length := by
  intro cm
  induction cm with
  | nil =>
    intro i my oty ety _ hlen
    simp only [List.length_nil, Nat.cast_zero, add_zero] at hlen
    subst hlen
    exact ⟨[], my, rfl, rfl⟩
  | cons c rest ih =>
    intro i my oty ety hi hlen
    simp only [List.length_cons] at hlen
    push_cast at hlen
    have hN : u32 m.nmaster = m.nmaster := u32_id _ hnm (by omega)
    have hi2 : i < u32 m.nmaster := by rw [hN]; omega
    have hiu : u32 (i + 1) = i + 1 := u32_id _ (by omega) (by omega)
    obtain ⟨c1, e⟩ : ∃ c1 : Req × Geom F,
        centeredmasterLoop fl env m n bw mw mx tw i my oty ety (c :: rest ++ cr)
          = c1 :: centeredmasterLoop fl env m n bw mw mx tw (i + 1) (u32 (my + HEIGHT c1.2))
              oty ety (rest ++ cr) :=
      ⟨((⟨i32 (u32 (m.wx + mx)), i32 (u32 (m.wy + my)), i32 (u32 (mw - 2 * c.bw)),
            i32 (u32 (u32 (m.wh - my)
              / u32 ((if n < u32 m.nmaster then n else u32 m.nmaster) - i) - 2 * c.bw)),
            i32 bw⟩ : Req),
          resize fl env m false c
            ⟨i32 (u32 (m.wx + mx)), i32 (u32 (m.wy + my)), i32 (u32 (mw - 2 * c.bw)),
              i32 (u32 (u32 (m.wh - my)
                / u32 ((if n < u32 m.nmaster then n else u32 m.nmaster) - i) - 2 * c.bw)),
              i32 bw⟩ false),
        by simp only [List.cons_append, centeredmasterLoop, hi2, if_true, hiu]; rfl⟩
    obtain ⟨T, my2, e2, e3⟩ := ih (i + 1) (u32 (my + HEIGHT c1.2)) oty ety (by omega) (by omega)
    refine ⟨c1 :: T, my2, ?_, by simp [e3]⟩
    rw [e, e2]; rfl

/-- C17 (amended): in `centeredmaster`, the stack client with stack-index
`k = i - nmaster` is placed in the left column (`x = wx`) when `k` is odd and
in the right column (`x = wx + mx + mw`) when `k` is even; its `y` is `wy` plus
the summed outer heights of the clients before it in its column, and the
height requested for it is the height left below that offset divided by the
number of clients from it on that go to its column (every second one of those
left), less twice its border width. -/
theorem C17_centeredmaster_stack_columns {F : Type} (fl : GeomFloat F) (env : LayoutEnv)
    (sel m : Monitor F) (cs : List (Geom F)) (k : Nat)
    (hnm : 0 ≤ m.nmaster) (hn : cs.length < 268435456)
    (hk : m.nmaster.toNat + k < cs.length) :
    ∃ c p, cs[m.nmaster.toNat + k]? = some c
      ∧ ((centeredmasterTrace fl env sel m cs).drop m.nmaster.toNat)[k]? = some p
      ∧ p.1.x = (if k % 2 = 1 then m.wx
          else i32 (u32 (m.wx + (centeredmasterAreas fl m cs.length).2.1
                  + (centeredmasterAreas fl m cs.length).1)))
      ∧ p.1.y = i32 (u32 (m.wy + columnOffset
          (((centeredmasterTrace fl env sel m cs).drop m.nmaster.toNat).map
            (fun q => HEIGHT q.2)) 0 0 k))
      ∧ p.1.h = i32 (u32 (u32 (m.wh - columnOffset
          (((centeredmasterTrace fl env sel m cs).drop m.nmaster.toNat).map
            (fun q => HEIGHT q.2)) 0 0 k)
          / ((((cs.length - m.nmaster.toNat - k + 1 : Nat) : Int)) / 2) - 2 * c.bw))
      ∧ p.2 = resize fl env m false c p.1 false := by
  have hlen : (u32 (cs.length : Int)) = cs.length := u32_id _ (by omega) (by omega)
  have hn0 : ¬ ((cs.length : Int) = 0) := by omega
  obtain ⟨cm, cr, hcs, hcm⟩ : ∃ cm cr : List (Geom F), cs = cm ++ cr
      ∧ cm.length = m.nmaster.toNat :=
    ⟨cs.take m.nmaster.toNat, cs.drop m.nmaster.toNat, (List.take_append_drop _ _).symm,
      by rw [List.length_take]; omega⟩
  have hcr : cr.length = cs.length - m.nmaster.toNat := by
    rw [hcs, List.length_append]; omega
  have hcmi : (0 : Int) + cm.length = m.nmaster := by omega
  have htr : centeredmasterTrace fl env sel m cs
      = centeredmasterLoop fl env m cs.length (layoutBorder env sel cs.length)
          (centeredmasterAreas fl m cs.length).1 (centeredmasterAreas fl m cs.length).2.1
          (centeredmasterAreas fl m cs.length).2.2 0 0 0 0 cs := by
    simp only [centeredmasterTrace, hlen, hn0, if_false]
  obtain ⟨T, my2, e, eT⟩ := centeredmasterLoop_master fl env m cs.length
    (layoutBorder env sel cs.length) (centeredmasterAreas fl m cs.length).1
    (centeredmasterAreas fl m cs.length).2.1 (centeredmasterAreas fl m cs.length).2.2
    hnm (by omega) cr cm 0 0 0 0 le_rfl hcmi
  rw [← hcs] at e
  have hdrop : (centeredmasterTrace fl env sel m cs).drop m.nmaster.toNat
      = centeredmasterLoop fl env m cs.length (layoutBorder env sel cs.length)
          (centeredmasterAreas fl m cs.length).1 (centeredmasterAreas fl m cs.length).2.1
          (centeredmasterAreas fl m cs.length).2.2 m.nmaster my2 0 0 cr := by
    rw [htr, e, List.drop_left' (by rw [eT, hcm])]
  obtain ⟨c, p, h1, h2, h3, h4, h5, -, h7⟩ := centeredmasterLoop_stack fl env m cs.length
    (layoutBorder env sel cs.length) (centeredmasterAreas fl m cs.length).1
    (centeredmasterAreas fl m cs.length).2.1 (centeredmasterAreas fl m cs.length).2.2
    hnm (by omega) cr m.nmaster my2 0 0 le_rfl (by rw [hcr]; omega) k (by omega)
  rw [hdrop]
  have hz : ¬ ((m.nmaster - m.nmaster) % 2 = 1) := by omega
  simp only [hz, if_false] at h4 h5
  refine ⟨c, p, ?_, h2, ?_, h4, ?_, h7⟩
  · rw [hcs, List.getElem?_append_right (by omega), hcm]
    simpa using h1
  · rw [h3]
    by_cases hk2 : k % 2 = 1
    · rw [if_pos hk2, if_pos (by omega)]
    · rw [if_neg hk2, if_neg (by omega)]
  · rw [h5, hcr]

theorem C17_centeredmaster_stack_columns_witness :
    ∃ c p, [smallClient, smallClient, smallClient, smallClient][wideMonitor.nmaster.toNat + 1]?
        = some c
      ∧ ((centeredmasterTrace hundredths wideEnv wideMonitor wideMonitor
          [smallClient, smallClient, smallClient, smallClient]).drop wideMonitor.nmaster.toNat)[1]?
          = some p
      ∧ p.1.x = (if 1 % 2 = 1 then wideMonitor.wx
          else i32 (u32 (wideMonitor.wx
                  + (centeredmasterAreas hundredths wideMonitor
                      [smallClient, smallClient, smallClient, smallClient].length).2.1
                  + (centeredmasterAreas hundredths wideMonitor
                      [smallClient, smallClient, smallClient, smallClient].length).1)))
      ∧ p.1.y = i32 (u32 (wideMonitor.wy + columnOffset
          (((centeredmasterTrace hundredths wideEnv wideMonitor wideMonitor
              [smallClient, smallClient, smallClient, smallClient]).drop
              wideMonitor.nmaster.toNat).map (fun q => HEIGHT q.2)) 0 0 1))
      ∧ p.1.h = i32 (u32 (u32 (wideMonitor.wh - columnOffset
          (((centeredmasterTrace hundredths wideEnv wideMonitor wideMonitor
              [smallClient, smallClient, smallClient, smallClient]).drop
              wideMonitor.nmaster.toNat).map (fun q => HEIGHT q.2)) 0 0 1)
          / (((([smallClient, smallClient, smallClient, smallClient].length
                - wideMonitor.nmaster.toNat - 1 + 1 : Nat) : Int)) / 2) - 2 * c.bw))
      ∧ p.2 = resize hundredths wideEnv wideMonitor false c p.1 false :=
  C17_centeredmaster_stack_columns hundredths wideEnv wideMonitor wideMonitor
    [smallClient, smallClient, smallClient, smallClient] 1 (by decide) (by decide) (by decide)

/-- C17 (counterexample): one master client and three stack clients on a
monitor 1920 wide with `mfact` 0.55, so `mw` = 1056 and `mx` = 432.  The stack
client with stack-index 0 is placed at `x = wx + mx + mw` = 1488, the one with
stack-index 1 at `x = wx` = 0 and the one with stack-index 2 at 1488 again: the
odd stack-index is in the left column. -/
theorem C17_odd_stack_index_is_left :
    wideMonitor.nmaster = 1
    ∧ wideMonitor.wx = 0
    ∧ centeredmasterAreas hundredths wideMonitor 4 = (1056, 432, 432)
    ∧ (centeredmasterTrace hundredths wideEnv wideMonitor wideMonitor
        [smallClient, smallClient, smallClient, smallClient]).map (fun p => p.1.x)
        = [432, 1488, 0, 1488]
    ∧ (centeredmaster hundredths wideEnv wideMonitor wideMonitor
        [smallClient, smallClient, smallClient, smallClient]).map (fun c => c.x)
        = [432, 1488, 0, 1488] := by
  refine ⟨?_, ?_, ?_, ?_, ?_⟩ <;> decide


/-! ### Stack navigation -/

/-- A list without duplicates splits at one of its members. -/
theorem split_at_mem (l : List Nat) (x : Nat) (hx : x ∈ l) (hnd : l.Nodup) :
    ∃ A B, l = A ++ x :: B ∧ x ∉ A ∧ x ∉ B := by
  obtain ⟨A, B, h⟩ := List.append_of_mem hx
  subst h
  have h2 := List.nodup_append.1 hnd
  refine ⟨A, B, rfl, ?_, ?_⟩
  · intro hA
    exact h2.2.2 hA (List.mem_cons_self _ _)
  · exact (List.nodup_cons.1 h2.2.1).1

/-- The part of the list before a member. -/
theorem takeWhile_split (A B : List Nat) (x : Nat) (hA : x ∉ A) :
    (A ++ x :: B).takeWhile (fun c => c != x) = A := by
  induction A with
  | nil => simp
  | cons a A ih =>
    have h1 : a ≠ x := fun h => hA (h ▸ List.mem_cons_self _ _)
    have h2 : x ∉ A := fun h => hA (List.mem_cons_of_mem _ h)
    simp [List.takeWhile_cons, h1, ih h2]

/-- The part of the list from a member on. -/
theorem dropWhile_split (A B : List Nat) (x : Nat) (hA : x ∉ A) :
    (A ++ x :: B).dropWhile (fun c => c != x) = x :: B := by
  induction A with
  | nil => simp
  | cons a A ih =>
    have h1 : a ≠ x := fun h => hA (h ▸ List.mem_cons_self _ _)
    have h2 : x ∉ A := fun h => hA (List.mem_cons_of_mem _ h)
    simp [List.dropWhile_cons, h1, ih h2]

/-- The next member that satisfies `p`, going round from the end to the head. -/
theorem next_visible_spec (p : Nat → Bool) (A B : List Nat) (x : Nat) (hx : p x = true) :
    (match B.find? p with
      | some c => some c
      | none => (A ++ x :: B).find? p)
      = ((A ++ x :: B).filter p)[((A.filter p).length + 1) % ((A ++ x :: B).filter p).length]? := by
  have hV : (A ++ x :: B).filter p = A.filter p ++ x :: B.filter p := by
    simp [List.filter_cons, hx]
  rw [hV]
  cases hB : B.filter p with
  | nil =>
    have hf : B.find? p = none := by
      rw [← List.filter_head?, hB]; rfl
    rw [hf]
    simp only [List.length_append, List.length_cons, List.length_nil, Nat.zero_add,
      Nat.mod_self]
    rw [← List.filter_head?, hV, hB, List.head?_eq_getElem?]
  | cons c B2 =>
    have hf : B.find? p = some c := by
      rw [← List.filter_head?, hB]; rfl
    rw [hf]
    simp only [List.length_append, List.length_cons]
    rw [Nat.mod_eq_of_lt (by omega), List.getElem?_append_right (by omega)]
    simp

/-- The previous member that satisfies `p`, going round from the head to the
end. -/
theorem prev_visible_spec (p : Nat → Bool) (A B : List Nat) (x : Nat) (hx : p x = true) :
    (match (A.filter p).getLast? with
      | some c => some c
      | none => ((x :: B).filter p).getLast?)
      = ((A ++ x :: B).filter p)[((A.filter p).length + ((A ++ x :: B).filter p).length - 1)
          % ((A ++ x :: B).filter p).length]? := by
  have hV : (A ++ x :: B).filter p = A.filter p ++ x :: B.filter p := by
    simp [List.filter_cons, hx]
  have hxB : (x :: B).filter p = x :: B.filter p := by simp [List.filter_cons, hx]
  rw [hV, hxB]
  cases hA : (A.filter p).getLast? with
  | none =>
    have hnil : A.filter p = [] := List.getLast?_eq_none_iff.1 hA
    rw [hnil]
    simp only [List.nil_append, List.length_nil, Nat.zero_add, List.length_cons]
    rw [Nat.add_sub_cancel, Nat.mod_eq_of_lt (by omega), List.getLast?_eq_getElem?]
    simp
  | some c =>
    have hlen : 0 < (A.filter p).length := by
      cases h : A.filter p with
      | nil => rw [h] at hA; simp at hA
      | cons a t => simp
    simp only [List.length_append, List.length_cons]
    have e : ((A.filter p).length + ((A.filter p).length + ((B.filter p).length + 1)) - 1)
        % ((A.filter p).length + ((B.filter p).length + 1)) = (A.filter p).length - 1 := by
      have : (A.filter p).length + ((A.filter p).length + ((B.filter p).length + 1)) - 1
          = ((A.filter p).length - 1) + ((A.filter p).length + ((B.filter p).length + 1)) := by
        omega
      rw [this, Nat.add_mod_right, Nat.mod_eq_of_lt (by omega)]
    rw [e, List.getElem?_append_left (by omega), ← List.getLast?_eq_getElem?, hA]

/-- The position of a member behind a part that does not hold it. -/
theorem indexOf_split (A B : List Nat) (x : Nat) (hA : x ∉ A) :
    (A ++ x :: B).indexOf x = A.length := by
  induction A with
  | nil => simp
  | cons a A ih =>
    have h1 : a ≠ x := fun h => hA (h ▸ List.mem_cons_self _ _)
    have h2 : x ∉ A := fun h => hA (List.mem_cons_of_mem _ h)
    rw [List.cons_append, List.indexOf_cons_ne _ h1, ih h2]; rfl

/-- The call `focus(c)` for a visible client of `selmon`. -/
theorem focus_visible_own {F : Type} (s : State F) (c : Nat) (hv : ISVISIBLE s c = true)
    (hm : (s.client c).mon = s.selmon) :
    (focus s (some c)).selmon = s.selmon
    ∧ ((focus s (some c)).mon s.selmon).sel = some c
    ∧ ∀ m, ((focus s (some c)).mon m).clients = (s.mon m).clients := by
  obtain ⟨f1, -, f3, f4⟩ := focus_Frame s c hv hm
  exact ⟨f1.2.2.2.1, f4, f3⟩

/-- C13: with a visible selected client that is on the client list of its
monitor (a list without duplicates that holds only clients of the monitor),
`focusstack` with `INC(+1)` selects the next visible client in list order,
going round from the last visible client to the first, and with `INC(-1)` the
previous visible client, going round from the first to the last; no client list
changes.  The visible clients are the list `clients.filter ISVISIBLE`, and the
selected client stands at `indexOf sel` in it. -/
theorem C13_focusstack_next_and_previous {F : Type} (s : State F) (sel : Nat)
    (hsel : (s.mon s.selmon).sel = some sel)
    (hmem : sel ∈ (s.mon s.selmon).clients)
    (hnd : (s.mon s.selmon).clients.Nodup)
    (hvis : ISVISIBLE s sel = true)
    (hown : ∀ x ∈ (s.mon s.selmon).clients, (s.client x).mon = s.selmon) :
    (∃ t, focusstack s (INC 1) = some t ∧ t.selmon = s.selmon
      ∧ (t.mon s.selmon).sel
          = ((s.mon s.selmon).clients.filter (fun c => ISVISIBLE s c))[
              (((s.mon s.selmon).clients.filter (fun c => ISVISIBLE s c)).indexOf sel + 1)
                % ((s.mon s.selmon).clients.filter (fun c => ISVISIBLE s c)).length]?
      ∧ (t.mon s.selmon).sel ≠ none
      ∧ ∀ m, (t.mon m).clients = (s.mon m).clients)
    ∧ (∃ t, focusstack s (INC (-1)) = some t ∧ t.selmon = s.selmon
      ∧ (t.mon s.selmon).sel
          = ((s.mon s.selmon).clients.filter (fun c => ISVISIBLE s c))[
              (((s.mon s.selmon).clients.filter (fun c => ISVISIBLE s c)).indexOf sel
                + ((s.mon s.selmon).clients.filter (fun c => ISVISIBLE s c)).length - 1)
                % ((s.mon s.selmon).clients.filter (fun c => ISVISIBLE s c)).length]?
      ∧ (t.mon s.selmon).sel ≠ none
      ∧ ∀ m, (t.mon m).clients = (s.mon m).clients) := by
  obtain ⟨A, B, hl, hA, hB⟩ := split_at_mem _ _ hmem hnd
  have hV : (s.mon s.selmon).clients.filter (fun c => ISVISIBLE s c)
      = A.filter (fun c => ISVISIBLE s c) ++ sel :: B.filter (fun c => ISVISIBLE s c) := by
    rw [hl]; simp [List.filter_cons, hvis]
  have hAf : sel ∉ A.filter (fun c => ISVISIBLE s c) := fun h => hA (List.mem_filter.1 h).1
  have hidx : ((s.mon s.selmon).clients.filter (fun c => ISVISIBLE s c)).indexOf sel
      = (A.filter (fun c => ISVISIBLE s c)).length := by
    rw [hV]; exact indexOf_split _ _ _ hAf
  have hpos : 0 < ((s.mon s.selmon).clients.filter (fun c => ISVISIBLE s c)).length := by
    rw [hV]; simp
  have fin : ∀ k : Nat, ∃ c,
      ((s.mon s.selmon).clients.filter (fun c => ISVISIBLE s c))[
            k % ((s.mon s.selmon).clients.filter (fun c => ISVISIBLE s c)).length]? = some c
      ∧ (focus s (some c)).selmon = s.selmon
      ∧ ((focus s (some c)).mon s.selmon).sel = some c
      ∧ ∀ m, ((focus s (some c)).mon m).clients = (s.mon m).clients := by
    intro k
    have hcm := List.mem_filter.1 (List.getElem_mem (Nat.mod_lt k hpos))
    obtain ⟨g1, g2, g3⟩ := focus_visible_own s _ hcm.2 (hown _ hcm.1)
    exact ⟨_, List.getElem?_eq_getElem (Nat.mod_lt _ hpos), g1, g2, g3⟩
  refine ⟨?_, ?_⟩
  · have hg : GETINC (INC 1) > 0 := by decide
    have key := next_visible_spec (fun c => ISVISIBLE s c) A B sel hvis
    rw [← hl, ← hidx] at key
    obtain ⟨c, hc, g1, g2, g3⟩ := fin
      (((s.mon s.selmon).clients.filter (fun c => ISVISIBLE s c)).indexOf sel + 1)
    refine ⟨focus s (some c), ?_, g1, ?_, ?_, g3⟩
    · simp only [focusstack, hsel, hmem, if_true, hg]
      rw [show nextOf (s.mon s.selmon).clients sel = B by
        unfold nextOf; rw [hl, dropWhile_split _ _ _ hA]; rfl]
      rw [key, hc]
    · rw [g2, hc]
    · rw [g2]; simp
  · have hg : ¬ (GETINC (INC (-1)) > 0) := by decide
    have key := prev_visible_spec (fun c => ISVISIBLE s c) A B sel hvis
    rw [← hl, ← hidx] at key
    obtain ⟨c, hc, g1, g2, g3⟩ := fin
      (((s.mon s.selmon).clients.filter (fun c => ISVISIBLE s c)).indexOf sel
        + ((s.mon s.selmon).clients.filter (fun c => ISVISIBLE s c)).length - 1)
    refine ⟨focus s (some c), ?_, g1, ?_, ?_, g3⟩
    · simp only [focusstack, hsel, hmem, if_true, hg, if_false]
      rw [show (s.mon s.selmon).clients.takeWhile (fun c => c != sel) = A by
        rw [hl, takeWhile_split _ _ _ hA]]
      rw [show (s.mon s.selmon).clients.dropWhile (fun c => c != sel) = sel :: B by
        rw [hl, dropWhile_split _ _ _ hA]]
      rw [key, hc]
    · rw [g2, hc]
    · rw [g2]; simp

theorem C13_focusstack_next_and_previous_witness :
    ∃ t, focusstack (oneMonitor [11, 12, 13] [12, 11, 13] (some 12)
          (fun i => plainClient (if i = 13 then 2 else 1) i) none) (INC 1) = some t
      ∧ (t.mon 0).sel = some 11 ∧ (t.mon 0).clients = [11, 12, 13] :=
  match (C13_focusstack_next_and_previous (oneMonitor [11, 12, 13] [12, 11, 13] (some 12)
      (fun i => plainClient (if i = 13 then 2 else 1) i) none) 12 (by decide) (by decide)
      (by decide) (by decide) (by decide)).1 with
  | ⟨t, h1, _, h3, _, h5⟩ => ⟨t, h1, h3.trans (by decide), h5 0⟩

/-- The insertion of `attachtop` depends on the test `tiled` only at the
clients of the list. -/
theorem attachtopGo_congr (t1 t2 : Nat → Bool) (nm : Int) (c : Nat) :
    ∀ (l : List Nat) (n : Int), (∀ b ∈ l, t1 b = t2 b) →
      attachtopGo t1 nm c n l = attachtopGo t2 nm c n l := by
  intro l
  induction l with
  | nil => intro n _; rfl
  | cons b t ih =>
    intro n h
    cases t with
    | nil => rfl
    | cons b2 rest =>
      have hb := h b (List.mem_cons_self _ _)
      have ht : ∀ x ∈ b2 :: rest, t1 x = t2 x := fun x hx => h x (List.mem_cons_of_mem _ hx)
      simp only [attachtopGo, hb, ih _ ht]

/-- The insertion of `attachtop` puts `c` between two parts of the list. -/
theorem attachtopGo_split (tiled : Nat → Bool) (nm : Int) (c : Nat) :
    ∀ (l : List Nat) (n : Int),
      ∃ pre post, l = pre ++ post ∧ attachtopGo tiled nm c n l = pre ++ c :: post := by
  intro l
  induction l with
  | nil => intro n; exact ⟨[], [], rfl, rfl⟩
  | cons b t ih =>
    intro n
    cases t with
    | nil => exact ⟨[b], [], rfl, rfl⟩
    | cons b2 rest =>
      by_cases h : (!tiled b || n != nm) = true
      · obtain ⟨pre, post, h1, h2⟩ := ih (if !tiled b then n + 0 else n + 1)
        refine ⟨b :: pre, post, by rw [h1]; rfl, ?_⟩
        simp only [attachtopGo, h, if_true, h2]; rfl
      · refine ⟨[b], b2 :: rest, rfl, ?_⟩
        simp only [attachtopGo, h]; rfl

/-- What `detach` and `detachstack` of a client leave behind. -/
theorem unlink_facts {F : Type} (s : State F) (c : Nat) :
    (detachstack (detach s c) c).client = s.client
    ∧ (detachstack (detach s c) c).selmon = s.selmon
    ∧ (∀ x, ((detachstack (detach s c) c).mon x).clients
        = if x = (s.client c).mon then (s.mon x).clients.erase c else (s.mon x).clients)
    ∧ (∀ x, ((detachstack (detach s c) c).mon x).stack
        = if x = (s.client c).mon then (s.mon x).stack.erase c else (s.mon x).stack)
    ∧ (∀ x, ((detachstack (detach s c) c).mon x).tagset = (s.mon x).tagset)
    ∧ (∀ x, ((detachstack (detach s c) c).mon x).seltags = (s.mon x).seltags)
    ∧ (∀ x, ((detachstack (detach s c) c).mon x).nmaster = (s.mon x).nmaster) := by
  have hd : ∀ x, (detach s c).mon x
      = if x = (s.client c).mon then
          { s.mon (s.client c).mon with clients := (s.mon (s.client c).mon).clients.erase c }
        else s.mon x := fun x => rfl
  have hdc : (detach s c).client = s.client := rfl
  unfold detachstack
  simp only [hdc]
  split
  · refine ⟨rfl, rfl, ?_, ?_, ?_, ?_, ?_⟩ <;> intro x <;>
      by_cases hx : x = (s.client c).mon <;> simp [setMon_mon, hd, hx]
  · refine ⟨rfl, rfl, ?_, ?_, ?_, ?_, ?_⟩ <;> intro x <;>
      by_cases hx : x = (s.client c).mon <;> simp [setMon_mon, hd, hx]

/-- The state of `sendmon` before the closing `focus(NULL)`. -/
theorem sendmon_before_focus {F : Type} (s : State F) (c m : Nat)
    (hne : (s.client c).mon ≠ m) :
    ∃ s3 : State F, sendmon s c m = focus s3 none
      ∧ s3.selmon = s.selmon
      ∧ (∀ j, s3.client j = if j = c then { s.client c with mon := m, tags := (s.mon m).seltagset }
          else s.client j)
      ∧ (∀ x, (s3.mon x).clients
          = if x = m then
              attachtopGo (fun b => !((s3.client b).isfloating
                  || !ISVISIBLEONTAG (s3.client b) (s.mon m).seltagset))
                (s.mon s.selmon).nmaster c 1 (s.mon m).clients
            else if x = (s.client c).mon then (s.mon x).clients.erase c
            else (s.mon x).clients)
      ∧ (∀ x, (s3.mon x).stack
          = if x = m then c :: (s.mon m).stack
            else if x = (s.client c).mon then (s.mon x).stack.erase c
            else (s.mon x).stack)
      ∧ (∀ x, (s3.mon x).tagset = (s.mon x).tagset)
      ∧ (∀ x, (s3.mon x).seltags = (s.mon x).seltags) := by
  unfold sendmon
  rw [if_neg hne]
  simp only [arrange]
  obtain ⟨u1, u2, u3, u4, u5, u6, u7⟩ := unlink_facts s c
  generalize detachstack (detach s c) c = s1 at u1 u2 u3 u4 u5 u6 u7 ⊢
  have hts : (s1.mon m).seltagset = (s.mon m).seltagset := by
    unfold Monitor.seltagset; rw [u5, u6]
  have hm : m ≠ (s.client c).mon := fun h => hne h.symm
  refine ⟨_, rfl, ?_, ?_, ?_, ?_, ?_, ?_⟩
  · simp [attachstack, attachtop, u2]
  · intro j
    by_cases hj : j = c
    · simp [attachstack, attachtop, setClient_client, hj, u1, hts]
    · simp [attachstack, attachtop, setClient_client, hj, u1]
  · intro x
    by_cases hxm : x = m
    · simp [attachstack, attachtop, setClient_client, setMon_mon, hxm, u1, u2, u3, u7, hts, hm]
    · simp [attachstack, attachtop, setClient_client, setMon_mon, hxm, u3]
  · intro x
    by_cases hxm : x = m
    · simp [attachstack, attachtop, setClient_client, setMon_mon, hxm, u4, hm]
    · simp [attachstack, attachtop, setClient_client, setMon_mon, hxm, u4]
  · intro x
    by_cases hxm : x = m
    · simp [attachstack, attachtop, setClient_client, setMon_mon, hxm, u5]
    · simp [attachstack, attachtop, setClient_client, setMon_mon, hxm, u5]
  · intro x
    by_cases hxm : x = m
    · simp [attachstack, attachtop, setClient_client, setMon_mon, hxm, u6]
    · simp [attachstack, attachtop, setClient_client, setMon_mon, hxm, u6]

/-- C14 (amended): for a client `c` of the monitor `o` and another monitor `m`
(`c` is on the lists of `o` at most once and not on those of `m`, and the focus
stack of the selected monitor holds only its own clients), `sendmon(c, m)`
removes `c` from the client list and the focus stack of `o`, sets `c->mon = m`
and `c->tags` to the active tag-set of `m`, puts `c` between two parts of the
client list of `m`, at the place `attachtop` finds, and at the head of the
focus stack of `m`.  All other clients keep their relative order in the client
lists; in a focus stack they keep it except that the client that the closing
`focus(NULL)` selects is moved to the head of the stack of its monitor.
`sendmon(c, c->mon)` changes nothing. -/
theorem C14_sendmon_moves_client {F : Type} (s : State F) (c m : Nat)
    (hne : (s.client c).mon ≠ m)
    (hnd : (s.mon (s.client c).mon).clients.Nodup)
    (hnds : (s.mon (s.client c).mon).stack.Nodup)
    (hcm : c ∉ (s.mon m).clients) (hcs : c ∉ (s.mon m).stack)
    (hown : ∀ y ∈ (s.mon s.selmon).stack, (s.client y).mon = s.selmon) :
    ((sendmon s c m).mon (s.client c).mon).clients = (s.mon (s.client c).mon).clients.erase c
    ∧ c ∉ ((sendmon s c m).mon (s.client c).mon).clients
    ∧ c ∉ ((sendmon s c m).mon (s.client c).mon).stack
    ∧ ((sendmon s c m).client c).mon = m
    ∧ ((sendmon s c m).client c).tags = (s.mon m).seltagset
    ∧ (∃ pre post, (s.mon m).clients = pre ++ post
        ∧ ((sendmon s c m).mon m).clients = pre ++ c :: post)
    ∧ ((sendmon s c m).mon m).clients
        = attachtopGo (fun b => !((s.client b).isfloating
              || !ISVISIBLEONTAG (s.client b) (s.mon m).seltagset))
            (s.mon s.selmon).nmaster c 1 (s.mon m).clients
    ∧ (∀ x, ((sendmon s c m).mon x).stack
          = (if x = m then c :: (s.mon m).stack
             else if x = (s.client c).mon then (s.mon x).stack.erase c
             else (s.mon x).stack)
        ∨ ∃ f, f ∈ (if x = m then c :: (s.mon m).stack
                    else if x = (s.client c).mon then (s.mon x).stack.erase c
                    else (s.mon x).stack)
            ∧ ((sendmon s c m).mon x).stack
              = f :: (if x = m then c :: (s.mon m).stack
                      else if x = (s.client c).mon then (s.mon x).stack.erase c
                      else (s.mon x).stack).erase f)
    ∧ (∀ x, x ≠ m → x ≠ (s.client c).mon →
        ((sendmon s c m).mon x).clients = (s.mon x).clients)
    ∧ sendmon s c (s.client c).mon = s := by
  obtain ⟨s3, e, a1, a2, a3, a4, -, -⟩ := sendmon_before_focus s c m hne
  obtain ⟨-, -, f3, f4, f5, -, -, -⟩ := focus_frame s3 none
  have hm : m ≠ (s.client c).mon := fun h => hne h.symm
  have hcl : ∀ b, b ≠ c → s3.client b = s.client b := by
    intro b hb; rw [a2 b, if_neg hb]
  have hclc : s3.client c = { s.client c with mon := m, tags := (s.mon m).seltagset } := by
    rw [a2 c, if_pos rfl]
  have hdest : (s3.mon m).clients
      = attachtopGo (fun b => !((s.client b).isfloating
            || !ISVISIBLEONTAG (s.client b) (s.mon m).seltagset))
          (s.mon s.selmon).nmaster c 1 (s.mon m).clients := by
    rw [a3 m, if_pos rfl]
    apply attachtopGo_congr
    intro b hb
    have hbc : b ≠ c := fun h => hcm (h ▸ hb)
    simp only [hcl b hbc]
  -- the stacks
  have hstack : ∀ x, ((focus s3 none).mon x).stack = (s3.mon x).stack
      ∨ ∃ f, f ∈ (s3.mon x).stack ∧ ((focus s3 none).mon x).stack = f :: (s3.mon x).stack.erase f := by
    intro x
    rw [f4 x]
    cases hf : focusTarget s3 none with
    | none => exact Or.inl rfl
    | some f =>
      simp only []
      have hfm : f ∈ (s3.mon s.selmon).stack := by
        simp only [focusTarget, a1] at hf
        exact List.mem_of_find?_eq_some hf
      have hfo : (s3.client f).mon = s.selmon := by
        rw [a4] at hfm
        by_cases hfc : f = c
        · subst hfc
          rw [hclc]
          by_cases h1 : s.selmon = m
          · exact h1.symm
          · rw [if_neg h1] at hfm
            by_cases h2 : s.selmon = (s.client f).mon
            · rw [if_pos h2] at hfm
              rw [h2] at hfm
              exact absurd hfm (fun h => (List.Nodup.mem_erase_iff hnds).1 h |>.1 rfl)
            · rw [if_neg h2] at hfm
              exact absurd (hown f hfm).symm h2
        · rw [hcl f hfc]
          by_cases h1 : s.selmon = m
          · rw [if_pos h1] at hfm
            rcases List.mem_cons.1 hfm with h | h
            · exact absurd h hfc
            · exact hown f (h1 ▸ h)
          · rw [if_neg h1] at hfm
            by_cases h2 : s.selmon = (s.client c).mon
            · rw [if_pos h2] at hfm
              exact hown f (List.mem_of_mem_erase hfm)
            · rw [if_neg h2] at hfm
              exact hown f hfm
      by_cases hx : x = (s3.client f).mon
      · rw [if_pos hx]
        refine Or.inr ⟨f, ?_, rfl⟩
        rw [hx, hfo]; exact hfm
      · rw [if_neg hx]; exact Or.inl rfl
  rw [e]
  refine ⟨?_, ?_, ?_, ?_, ?_, ?_, ?_, ?_, ?_, ?_⟩
  · rw [f3, a3, if_neg hne, if_pos rfl]
  · rw [f3, a3, if_neg hne, if_pos rfl]
    exact fun h => (List.Nodup.mem_erase_iff hnd).1 h |>.1 rfl
  · have hb : c ∉ (s3.mon (s.client c).mon).stack := by
      rw [a4, if_neg hne, if_pos rfl]
      exact fun h => (List.Nodup.mem_erase_iff hnds).1 h |>.1 rfl
    rcases hstack (s.client c).mon with h | ⟨f, hf, h⟩
    · rw [h]; exact hb
    · rw [h]
      intro hc
      rcases List.mem_cons.1 hc with h2 | h2
      · exact hb (h2 ▸ hf)
      · exact hb (List.mem_of_mem_erase h2)
  · rw [f5 c, hclc]
  · rw [f5 c, hclc]
  · rw [f3, hdest]
    exact attachtopGo_split _ _ _ _ _
  · rw [f3, hdest]
  · intro x
    have := hstack x
    rw [a4 x] at this
    exact this
  · intro x h1 h2
    rw [f3, a3, if_neg h1, if_neg h2]
  · unfold sendmon
    rw [if_pos rfl]

theorem C14_sendmon_moves_client_witness :
    ((sendmon (twoMonitors [11, 12, 13] [12, 13, 11] (some 12)
        (fun i => plainClient (if i = 13 then 2 else 1) i)) 12 1).mon 0).clients = [11, 13]
    ∧ ((sendmon (twoMonitors [11, 12, 13] [12, 13, 11] (some 12)
        (fun i => plainClient (if i = 13 then 2 else 1) i)) 12 1).client 12).mon = 1
    ∧ ((sendmon (twoMonitors [11, 12, 13] [12, 13, 11] (some 12)
        (fun i => plainClient (if i = 13 then 2 else 1) i)) 12 1).mon 1).clients = [12] :=
  have h := C14_sendmon_moves_client (twoMonitors [11, 12, 13] [12, 13, 11] (some 12)
    (fun i => plainClient (if i = 13 then 2 else 1) i)) 12 1 (by decide) (by decide) (by decide)
    (by decide) (by decide) (by decide)
  ⟨h.1.trans (by decide), h.2.2.2.1, h.2.2.2.2.2.2.1.trans (by decide)⟩

/-- C14 (counterexample): monitor 0 is selected and holds the clients 11, 12
and 13; 13 is on a tag that is not viewed; the focus stack is 12, 13, 11.
After `sendmon` of client 12 to monitor 1, the focus stack of monitor 0 is
11, 13: the clients 13 and 11, neither of which was sent, have changed their
relative order, because the closing `focus(NULL)` moves the client it selects
to the head of the stack. -/
theorem C14_sendmon_reorders_focus_stack :
    ((twoMonitors [11, 12, 13] [12, 13, 11] (some 12)
        (fun i => plainClient (if i = 13 then 2 else 1) i)).mon 0).stack = [12, 13, 11]
    ∧ ((sendmon (twoMonitors [11, 12, 13] [12, 13, 11] (some 12)
        (fun i => plainClient (if i = 13 then 2 else 1) i)) 12 1).mon 0).stack = [11, 13]
    ∧ ((sendmon (twoMonitors [11, 12, 13] [12, 13, 11] (some 12)
        (fun i => plainClient (if i = 13 then 2 else 1) i)) 12 1).mon 1).stack = [12] := by
  refine ⟨?_, ?_, ?_⟩ <;> decide

/-! ## `setmfact` and the range of the master fraction -/

/-- C21 (counterexample): with `mfact` 0.55 and the relative argument 0.50 the
requested fraction 1.05 is outside the range; `setmfact` leaves `mfact` and
the Pertag entry at 0.55 and does not set them to the bound 0.95. -/
theorem C21_setmfact_does_not_clamp :
    hundredthsOps.outside (hundredthsOps.add 50 ((oneMonitor [] [] none (fun _ => plainClient 1 0) none).mon 0).mfact) = true
    ∧ ¬ (((setmfact hundredthsOps (oneMonitor [] [] none (fun _ => plainClient 1 0) none) 50).mon 0).mfact = 95)
    ∧ ((setmfact hundredthsOps (oneMonitor [] [] none (fun _ => plainClient 1 0) none) 50).mon 0).mfact = 55
    ∧ ((setmfact hundredthsOps (oneMonitor [] [] none (fun _ => plainClient 1 0) none) 50).mon 0).pertag.mfacts 1 = 55 := by
  decide

/-- C21 (amended): in an arranging layout `setmfact` rejects a requested
fraction outside the range (the state is left as it is) and stores a
requested fraction inside the range in `mfact` and in the Pertag entry of the
current tag. -/
theorem C21_setmfact_rejects_outside_range {F : Type} (fl : FloatOps F) (s : State F) (x : F)
    (harr : hasArrange ((s.mon s.selmon).lt (s.mon s.selmon).sellt) = true) :
    (fl.outside (if fl.lt1 x then fl.add x (s.mon s.selmon).mfact else fl.sub1 x) = true →
      setmfact fl s x = s)
    ∧ (fl.outside (if fl.lt1 x then fl.add x (s.mon s.selmon).mfact else fl.sub1 x) = false →
      ((setmfact fl s x).mon s.selmon).mfact
          = (if fl.lt1 x then fl.add x (s.mon s.selmon).mfact else fl.sub1 x)
        ∧ ((setmfact fl s x).mon s.selmon).pertag.mfacts (s.mon s.selmon).pertag.curtag
          = (if fl.lt1 x then fl.add x (s.mon s.selmon).mfact else fl.sub1 x)) := by
  constructor
  · intro h
    simp [setmfact, harr, h]
  · intro h
    simp [setmfact, harr, h, arrange, setMon_mon]

theorem C21_setmfact_rejects_outside_range_witness :
    setmfact hundredthsOps (oneMonitor [] [] none (fun _ => plainClient 1 0) none) 50
        = oneMonitor [] [] none (fun _ => plainClient 1 0) none
    ∧ ((setmfact hundredthsOps (oneMonitor [] [] none (fun _ => plainClient 1 0) none) 20).mon 0).mfact = 75 :=
  ⟨(C21_setmfact_rejects_outside_range hundredthsOps
      (oneMonitor [] [] none (fun _ => plainClient 1 0) none) 50 (by decide)).1 (by decide),
   ((C21_setmfact_rejects_outside_range hundredthsOps
      (oneMonitor [] [] none (fun _ => plainClient 1 0) none) 20 (by decide)).2 (by decide)).1⟩

/-! ## `swallow` and floating windows -/

set_option maxRecDepth 100000 in
/-- C22 (failing input): a dialog window (floating, no rule sets `noswallow`)
whose process is a child of the terminal process is managed while
`swallowfloating` is 0: the terminal swallows it, so the new client is on
neither list and the terminal client shows the window of the dialog. -/
theorem C22_floating_window_is_swallowed :
    swallowfloating = false
    ∧ ∃ s1 : State Nat,
      manage rules (fun p => if p = 6 then 5 else 0) 64
        (oneMonitor [1] [1] (some 1) (fun _ => terminalClient) none) 2
        ⟨22, 6, "Open".toList, some "Gimp".toList, some "gimp".toList, none, false, true, false, none⟩
        = some s1
      ∧ (s1.client 2).isfloating = true
      ∧ (s1.client 2).noswallow = false
      ∧ (s1.mon 0).clients = [1] ∧ (s1.mon 0).stack = [1]
      ∧ (s1.client 1).swallowing = some 2
      ∧ (s1.client 1).win = 22 := by
  refine ⟨rfl, _, rfl, ?_⟩
  decide

/-! ## `recttomon` -/

theorem i32_self (x : Int) (h0 : -2147483648 ≤ x) (h1 : x < 2147483648) : i32 x = x := by
  unfold i32; omega

/-- Within the range no step of `INTERSECT` wraps: the value is the area of
the intersection of the two rectangles. -/
theorem INTERSECT_exact {F : Type} (x y w h : Int) (m : Monitor F) (hr : RectRange x y w h m) :
    INTERSECT x y w h m
      = max 0 (min (x + w) (m.wx + m.ww) - max x m.wx)
          * max 0 (min (y + h) (m.wy + m.wh) - max y m.wy) := by
  obtain ⟨hx, hy, hw, hh, hwx, hwy, hww, hwh, harea⟩ := hr
  unfold INTERSECT
  rw [i32_self (x + w) (by omega) (by omega), i32_self (m.wx + m.ww) (by omega) (by omega),
    i32_self (y + h) (by omega) (by omega), i32_self (m.wy + m.wh) (by omega) (by omega)]
  have d1 : -2147483648 ≤ min (x + w) (m.wx + m.ww) - max x m.wx
      ∧ min (x + w) (m.wx + m.ww) - max x m.wx < 2147483648 := by
    simp only [min_def, max_def]; split_ifs <;> omega
  have d2 : -2147483648 ≤ min (y + h) (m.wy + m.wh) - max y m.wy
      ∧ min (y + h) (m.wy + m.wh) - max y m.wy < 2147483648 := by
    simp only [min_def, max_def]; split_ifs <;> omega
  rw [i32_self _ d1.1 d1.2, i32_self _ d2.1 d2.2]
  have f1 : max 0 (min (x + w) (m.wx + m.ww) - max x m.wx) ≤ max 0 m.ww := by
    simp only [min_def, max_def]; split_ifs <;> omega
  have f2 : max 0 (min (y + h) (m.wy + m.wh) - max y m.wy) ≤ max 0 m.wh := by
    simp only [min_def, max_def]; split_ifs <;> omega
  have g1 : 0 ≤ max 0 (min (x + w) (m.wx + m.ww) - max x m.wx) := le_max_left _ _
  have g2 : 0 ≤ max 0 (min (y + h) (m.wy + m.wh) - max y m.wy) := le_max_left _ _
  have hle := mul_le_mul f1 f2 g2 (le_max_left 0 m.ww)
  have hnn := mul_nonneg g1 g2
  exact i32_self _ (by omega) (by omega)

theorem INTERSECT_nonneg {F : Type} (x y w h : Int) (m : Monitor F) (hr : RectRange x y w h m) :
    0 ≤ INTERSECT x y w h m := by
  rw [INTERSECT_exact x y w h m hr]
  exact mul_nonneg (le_max_left _ _) (le_max_left _ _)

/-- The loop of `recttomon`: either no monitor of the list beats `area` and `r`
is returned, or the result is the first monitor of the list with the largest
area, which is larger than `area`. -/
theorem recttomonGo_spec {F : Type} (s : State F) (x y w h : Int) :
    ∀ (l : List Nat) (r : Nat) (area : Int),
      ((∀ m ∈ l, INTERSECT x y w h (s.mon m) ≤ area) ∧ recttomonGo s x y w h l r area = r)
      ∨ ∃ A B, l = A ++ recttomonGo s x y w h l r area :: B
          ∧ (∀ m ∈ A, INTERSECT x y w h (s.mon m)
                < INTERSECT x y w h (s.mon (recttomonGo s x y w h l r area)))
          ∧ (∀ m ∈ B, INTERSECT x y w h (s.mon m)
                ≤ INTERSECT x y w h (s.mon (recttomonGo s x y w h l r area)))
          ∧ area < INTERSECT x y w h (s.mon (recttomonGo s x y w h l r area)) := by
  intro l
  induction l with
  | nil => intro r area; left; simp [recttomonGo]
  | cons m rest ih =>
    intro r area
    by_cases hgt : INTERSECT x y w h (s.mon m) > area
    · have e : recttomonGo s x y w h (m :: rest) r area
          = recttomonGo s x y w h rest m (INTERSECT x y w h (s.mon m)) := by
        simp [recttomonGo, hgt]
      rw [e]
      right
      rcases ih m (INTERSECT x y w h (s.mon m)) with ⟨h1, h2⟩ | ⟨A, B, h1, h2, h3, h4⟩
      · rw [h2]
        exact ⟨[], rest, rfl, by simp, h1, hgt⟩
      · refine ⟨m :: A, B, by rw [List.cons_append, ← h1], ?_, h3, lt_trans hgt h4⟩
        intro k hk
        rcases List.mem_cons.1 hk with rfl | hk
        · exact h4
        · exact h2 k hk
    · have e : recttomonGo s x y w h (m :: rest) r area = recttomonGo s x y w h rest r area := by
        simp [recttomonGo, hgt]
      rw [e]
      rcases ih r area with ⟨h1, h2⟩ | ⟨A, B, h1, h2, h3, h4⟩
      · left
        refine ⟨?_, h2⟩
        intro k hk
        rcases List.mem_cons.1 hk with rfl | hk
        · exact not_lt.1 hgt
        · exact h1 k hk
      · right
        refine ⟨m :: A, B, by rw [List.cons_append, ← h1], ?_, h3, h4⟩
        intro k hk
        rcases List.mem_cons.1 hk with rfl | hk
        · exact lt_of_le_of_lt (not_lt.1 hgt) h4
        · exact h2 k hk

/-- C27: the rectangle and the window areas of the monitors of the list are
within the range in which no step of `INTERSECT` leaves `int`.  The area
computed by `INTERSECT` is the area of the intersection and never negative;
`recttomon` returns the selected monitor when the rectangle shares no area
with the window area of any monitor of the list, and otherwise the first
monitor in list order whose window area shares the largest area with the
rectangle. -/
theorem C27_recttomon_largest_intersection {F : Type} (s : State F) (x y w h : Int)
    (hr : ∀ m ∈ s.mons, RectRange x y w h (s.mon m)) :
    (∀ m ∈ s.mons, 0 ≤ INTERSECT x y w h (s.mon m)
      ∧ INTERSECT x y w h (s.mon m)
          = max 0 (min (x + w) ((s.mon m).wx + (s.mon m).ww) - max x (s.mon m).wx)
              * max 0 (min (y + h) ((s.mon m).wy + (s.mon m).wh) - max y (s.mon m).wy))
    ∧ ((∀ m ∈ s.mons, INTERSECT x y w h (s.mon m) = 0) → recttomon s x y w h = s.selmon)
    ∧ ((∃ m ∈ s.mons, INTERSECT x y w h (s.mon m) ≠ 0) →
        ∃ A B, s.mons = A ++ recttomon s x y w h :: B
          ∧ (∀ m ∈ A, INTERSECT x y w h (s.mon m) < INTERSECT x y w h (s.mon (recttomon s x y w h)))
          ∧ (∀ m ∈ s.mons, INTERSECT x y w h (s.mon m)
                ≤ INTERSECT x y w h (s.mon (recttomon s x y w h)))) := by
  have key := recttomonGo_spec s x y w h s.mons s.selmon 0
  unfold recttomon
  generalize recttomonGo s x y w h s.mons s.selmon 0 = r at key ⊢
  refine ⟨fun m hm => ⟨INTERSECT_nonneg x y w h _ (hr m hm), INTERSECT_exact x y w h _ (hr m hm)⟩,
    ?_, ?_⟩
  · intro h0
    rcases key with ⟨_, h2⟩ | ⟨A, B, h1, _, _, h4⟩
    · exact h2
    · exfalso
      have hm : r ∈ s.mons := by
        rw [h1]; simp
      have := h0 _ hm
      omega
  · rintro ⟨m, hm, hne⟩
    rcases key with ⟨h1, _⟩ | ⟨A, B, h1, h2, h3, _⟩
    · exfalso
      have h5 := h1 m hm
      have h6 := INTERSECT_nonneg x y w h (s.mon m) (hr m hm)
      omega
    · refine ⟨A, B, h1, h2, ?_⟩
      intro k hk
      rw [h1] at hk
      rcases List.mem_append.1 hk with hk | hk
      · exact le_of_lt (h2 k hk)
      · rcases List.mem_cons.1 hk with hk | hk
        · rw [hk]
        · exact h3 k hk

theorem C27_recttomon_largest_intersection_witness :
    recttomon sideBySide 5000 5000 10 10 = 0
    ∧ INTERSECT 1900 100 100 100 (sideBySide.mon 0)
        ≤ INTERSECT 1900 100 100 100 (sideBySide.mon (recttomon sideBySide 1900 100 100 100))
    ∧ recttomon sideBySide 1900 100 100 100 = 1 :=
  ⟨(C27_recttomon_largest_intersection sideBySide 5000 5000 10 10 (by decide)).2.1 (by decide),
   by
    obtain ⟨A, B, -, -, h⟩ := (C27_recttomon_largest_intersection sideBySide 1900 100 100 100
      (by decide)).2.2 ⟨0, by decide, by decide⟩
    exact h 0 (by decide),
   by decide⟩

/-- Outside the range the sums wrap as they do on the machine: the rectangle at
`x = 2147483647` of width 10 lies to the right of both monitors, yet `INTERSECT`
yields 1000 for the first monitor, and `recttomon` returns it and not the
selected monitor 1. -/
theorem recttomon_wraps_outside_range :
    INTERSECT 2147483647 100 10 100 (sideBySide.mon 0) = 1000
    ∧ recttomon { sideBySide with selmon := 1 } 2147483647 100 10 100 = 0 := by
  decide

/-! ## `focus` and the focus stack -/

theorem filter_ne_erase (x : Nat) : ∀ l : List Nat,
    (l.erase x).filter (fun t => t != x) = l.filter (fun t => t != x) := by
  intro l
  induction l with
  | nil => rfl
  | cons a t ih =>
    by_cases h : a = x
    · subst h
      simp
    · have h2 : (a == x) = false := by simpa using h
      rw [List.erase_cons_tail (by simpa using h)]
      simp [List.filter_cons, ih]

/-- C25: `focus(c)` for a visible client puts `c` at the head of the focus
stack of its monitor with the other clients of the stack in their order, leaves
every client list as it is, and makes the monitor of `c` the selected monitor
with `c` as its selection; `focus(NULL)` and `focus` of a client that is not
visible select the first visible client of the focus stack of the selected
monitor, and no client when that stack has no visible client. -/
theorem C25_focus_moves_to_stack_head {F : Type} (s : State F) :
    (∀ c, ISVISIBLE s c = true →
      ((focus s (some c)).mon (s.client c).mon).stack = c :: (s.mon (s.client c).mon).stack.erase c
      ∧ (((focus s (some c)).mon (s.client c).mon).stack).head? = some c
      ∧ (((focus s (some c)).mon (s.client c).mon).stack).filter (fun t => t != c)
          = ((s.mon (s.client c).mon).stack).filter (fun t => t != c)
      ∧ (∀ m, ((focus s (some c)).mon m).clients = (s.mon m).clients)
      ∧ (focus s (some c)).selmon = (s.client c).mon
      ∧ ((focus s (some c)).mon (focus s (some c)).selmon).sel = some c)
    ∧ (∀ c : Option Nat, (c = none ∨ ∃ x, c = some x ∧ ISVISIBLE s x = false) →
      ((focus s c).mon (focus s c).selmon).sel
          = (s.mon s.selmon).stack.find? (fun t => ISVISIBLE s t)
      ∧ (∀ m, ((focus s c).mon m).clients = (s.mon m).clients)
      ∧ ((∀ t ∈ (s.mon s.selmon).stack, ISVISIBLE s t = false) →
          (focus s c).selmon = s.selmon ∧ ((focus s c).mon s.selmon).sel = none)) := by
  constructor
  · intro c hv
    obtain ⟨-, -, f3, f4, -, -, f7, f8⟩ := focus_frame s (some c)
    have hT : focusTarget s (some c) = some c := by simp [focusTarget, hv]
    rw [hT] at f7 f8
    have f4c := f4 (s.client c).mon
    rw [hT] at f4c
    simp only [if_true] at f4c f7
    refine ⟨f4c, by rw [f4c]; rfl, ?_, f3, f7, f8⟩
    rw [f4c, List.filter_cons]
    simp [filter_ne_erase]
  · intro c hc
    obtain ⟨-, -, f3, -, -, -, f7, f8⟩ := focus_frame s c
    have hT : focusTarget s c = (s.mon s.selmon).stack.find? (fun t => ISVISIBLE s t) := by
      rcases hc with rfl | ⟨x, rfl, hx⟩
      · rfl
      · simp [focusTarget, hx]
    refine ⟨by rw [f8, hT], f3, ?_⟩
    intro hnone
    have hn : (s.mon s.selmon).stack.find? (fun t => ISVISIBLE s t) = none := by
      rw [List.find?_eq_none]
      intro t ht
      simp [hnone t ht]
    rw [hT, hn] at f7 f8
    simp only [] at f7
    rw [f7] at f8
    exact ⟨f7, f8⟩

theorem C25_focus_moves_to_stack_head_witness :
    ((focus (oneMonitor [1, 2, 3] [1, 2, 3] (some 1) (fun _ => plainClient 1 0) none) (some 3)).mon 0).stack
        = [3, 1, 2]
    ∧ ((focus (oneMonitor [1, 2] [1, 2] (some 1) (fun _ => plainClient 2 0) none) none).mon 0).sel = none :=
  ⟨((C25_focus_moves_to_stack_head
      (oneMonitor [1, 2, 3] [1, 2, 3] (some 1) (fun _ => plainClient 1 0) none)).1 3 (by decide)).1,
   (((C25_focus_moves_to_stack_head
      (oneMonitor [1, 2] [1, 2] (some 1) (fun _ => plainClient 2 0) none)).2 none (Or.inl rfl)).2.2
      (by decide)).2⟩

/-! ## `applysizehints` and the size hints -/

/-- The last statements of the hint branch of `applysizehints`: the returned
width and height are within the declared minimum and maximum. -/
theorem applysizehints_minmax {F : Type} (fl : GeomFloat F) (env : LayoutEnv) (m : Monitor F)
    (isfloating : Bool) (c : Geom F) (rq : Req) (interact : Bool)
    (happ : (resizehints || isfloating || !hasArrange (m.lt m.sellt)) = true)
    (hw : c.maxw ≠ 0 → c.minw ≤ c.maxw) (hh : c.maxh ≠ 0 → c.minh ≤ c.maxh) :
    c.minw ≤ (applysizehints fl env m isfloating c rq interact).1.w
    ∧ (c.maxw ≠ 0 → (applysizehints fl env m isfloating c rq interact).1.w ≤ c.maxw)
    ∧ c.minh ≤ (applysizehints fl env m isfloating c rq interact).1.h
    ∧ (c.maxh ≠ 0 → (applysizehints fl env m isfloating c rq interact).1.h ≤ c.maxh) := by
  unfold applysizehints
  simp only [happ, if_true]
  refine ⟨?_, ?_, ?_, ?_⟩
  · by_cases h : c.maxw = 0
    · simp [h]
    · simp [h, hw h]
  · intro h
    simp [h]
  · by_cases h : c.maxh = 0
    · simp [h]
    · simp [h, hh h]
  · intro h
    simp [h]

/-- C26 (failing input): a floating client whose only size hint is a width
increment of 30 pixels is resized to a width of 20 pixels while the bar is 20
pixels high: the width that `applysizehints` returns is 0, and it is 0 for
every requested width up to 29. -/
theorem C26_increment_snaps_width_to_zero :
    (applysizehints hundredths wideEnv wideMonitor true { smallClient with incw := 30 }
        ⟨0, 0, 20, 100, 1⟩ false).1.w = 0
    ∧ (applysizehints hundredths wideEnv wideMonitor true { smallClient with incw := 30 }
        ⟨0, 0, 20, 100, 1⟩ false).1.h = 100
    ∧ (applysizehints hundredths wideEnv wideMonitor true { smallClient with incw := 30 }
        ⟨0, 0, 29, 100, 1⟩ true).1.w = 0 := by
  decide

/-! ## `zoom`: the swap with the head, and the client list as a permutation -/

theorem findbeforeGo_split (c a : Nat) (B : List Nat) : ∀ P : List Nat, c ∉ P → a ≠ c →
    findbeforeGo (some c) (P ++ a :: c :: B) = some a := by
  intro P
  induction P with
  | nil => intro _ _; simp [findbeforeGo]
  | cons t P ih =>
    intro hc hac
    have hcP : c ∉ P := fun h => hc (List.mem_cons_of_mem _ h)
    cases P with
    | nil =>
      simp only [List.cons_append, List.nil_append, findbeforeGo]
      rw [if_neg (by simpa using hac)]
      simp
    | cons u P2 =>
      have huc : u ≠ c := fun h => hcP (by simp [h])
      have := ih hcP hac
      simp only [List.cons_append, findbeforeGo] at this ⊢
      rw [if_neg (by simpa using huc)]
      exact this

theorem insertAfter_split (a x : Nat) (B : List Nat) : ∀ P : List Nat, a ∉ P →
    insertAfter a x (P ++ a :: B) = P ++ a :: x :: B := by
  intro P
  induction P with
  | nil => intro _; simp [insertAfter]
  | cons t P ih =>
    intro h
    have hta : t ≠ a := fun e => h (by simp [e])
    have hP : a ∉ P := fun e => h (List.mem_cons_of_mem _ e)
    have e := ih hP
    simp only [List.cons_append, insertAfter, if_neg hta]
    exact congrArg (List.cons t) e

/-- The list work of `zoom` when the selected client `c` stands behind the head
`h`: the node before `c` is found, and moving `c` to the head and `h` behind
that node swaps the two. -/
theorem zoom_swap_lists (h c : Nat) (A B : List Nat) (hnd : (h :: A ++ c :: B).Nodup) :
    ∃ a, findbeforeGo (some c) (h :: A ++ c :: B) = some a
      ∧ (if a ≠ h then insertAfter a h ((c :: (h :: A ++ c :: B).erase c).erase h)
         else c :: (h :: A ++ c :: B).erase c) = c :: A ++ h :: B := by
  have hnd' : (h :: (A ++ c :: B)).Nodup := by simpa using hnd
  have hhc : h ≠ c := by
    intro e; have := (List.nodup_cons.1 hnd').1; apply this; simp [e]
  have hcA : c ∉ A := by
    intro e
    have := (List.nodup_cons.1 hnd').2
    rw [List.nodup_append] at this
    exact this.2.2 e (List.mem_cons_self _ _)
  have hhA : h ∉ A := fun e => (List.nodup_cons.1 hnd').1 (List.mem_append_left _ e)
  have hhB : h ∉ B := fun e => (List.nodup_cons.1 hnd').1
    (List.mem_append_right _ (List.mem_cons_of_mem _ e))
  have he : (h :: A ++ c :: B).erase c = h :: A ++ B := by
    have : (h :: A ++ c :: B) = (h :: A) ++ c :: B := rfl
    rw [this, List.erase_append_right _ (by simp [hcA, Ne.symm hhc])]
    simp
  rcases List.eq_nil_or_concat A with rfl | ⟨A2, a, hA⟩
  · refine ⟨h, by simp [findbeforeGo], ?_⟩
    rw [if_neg (by simp), he]
    rfl
  · rw [List.concat_eq_append] at hA
    subst hA
    have haA2 : a ∉ A2 := by
      have := (List.nodup_cons.1 hnd').2
      rw [List.nodup_append] at this
      have h1 := this.1
      rw [List.nodup_append] at h1
      intro e
      exact h1.2.2 e (by simp)
    have hah : a ≠ h := fun e => hhA (by simp [e])
    have hac : a ≠ c := fun e => hcA (by simp [e])
    refine ⟨a, ?_, ?_⟩
    · have : (h :: (A2 ++ [a]) ++ c :: B) = (h :: A2) ++ a :: c :: B := by simp
      rw [this]
      exact findbeforeGo_split c a B (h :: A2)
        (by simp only [List.mem_cons, not_or]; exact ⟨Ne.symm hhc, fun e => hcA (by simp [e])⟩) hac
    · rw [if_pos hah, he]
      have e1 : (c :: (h :: (A2 ++ [a]) ++ B)).erase h = (c :: A2) ++ a :: B := by
        rw [List.erase_cons_tail (by simpa using Ne.symm hhc)]
        simp
      rw [e1, insertAfter_split a h B (c :: A2)
        (by simp only [List.mem_cons, not_or]; exact ⟨hac, haA2⟩)]
      simp

/-- C24: in an arranging layout with a tiled selected client `c` that stands
behind the head `h` of the client list, `h` being the first tiled client,
`zoom` returns with `c` at the head of the list and `h` at the place that `c`
had, every other client where it was; `h` is remembered in `prevzoom` and `c`
is selected.  (The client list holds each client once and only clients of the
monitor.) -/
theorem C24_zoom_swaps_with_head {F : Type} (s : State F) (h c : Nat) (A B : List Nat)
    (hA : hasArrange ((s.mon s.selmon).lt (s.mon s.selmon).sellt) = true)
    (hsel : (s.mon s.selmon).sel = some c)
    (hct : isTiled s c = true) (hht : isTiled s h = true)
    (hL : (s.mon s.selmon).clients = h :: A ++ c :: B)
    (hnd : (s.mon s.selmon).clients.Nodup)
    (hown : ∀ x ∈ (s.mon s.selmon).clients, (s.client x).mon = s.selmon) :
    ∃ s1, zoom s = some s1
      ∧ (s1.mon s.selmon).clients = c :: A ++ h :: B
      ∧ s1.prevzoom = some h
      ∧ (s1.mon s.selmon).sel = some c
      ∧ s1.selmon = s.selmon := by
  have hfirst : nexttiled s (s.mon s.selmon).clients = some h := by
    rw [hL]; exact nexttiled_cons_tiled s h _ hht
  rw [hL] at hnd
  have hch : c ≠ h := by
    intro e
    have h1 : (h :: (A ++ c :: B)).Nodup := by simpa using hnd
    exact (List.nodup_cons.1 h1).1 (by simp [e])
  have hcL : c ∈ (s.mon s.selmon).clients := by rw [hL]; simp
  obtain ⟨a, ha1, ha2⟩ := zoom_swap_lists h c A B hnd
  have hfb : findbefore s (some c) = some a := by
    unfold findbefore
    rw [hL] at *
    rw [if_neg (by simpa using hch)]
    exact ha1
  obtain ⟨s1, h1, h2, h3, h4, h5⟩ := zoomTail_spec s c h a none hown hcL
    (isTiled_visible s c hct) hfirst hch (by simpa using hfb)
  refine ⟨s1, ?_, ?_, h3, h4, h2.2.2.2.1⟩
  · rw [zoom_guard s c hA hsel hct]
    unfold zoomBlock
    simp only [hsel, hfirst]
    rw [if_neg (by simpa using hch)]
    exact h1
  · rw [h5, hL]; exact ha2

theorem C24_zoom_swaps_with_head_witness :
    ∃ s1, zoom (oneMonitor [1, 2, 3, 4] [3, 1, 2, 4] (some 3) (fun _ => plainClient 1 0) none) = some s1
      ∧ (s1.mon 0).clients = [3, 2, 1, 4] ∧ s1.prevzoom = some 1 := by
  obtain ⟨s1, h1, h2, h3, -⟩ := C24_zoom_swaps_with_head
    (oneMonitor [1, 2, 3, 4] [3, 1, 2, 4] (some 3) (fun _ => plainClient 1 0) none) 1 3 [2] [4]
    (by decide) rfl (by decide) (by decide) rfl (by decide)
    (by intro x _; rfl)
  exact ⟨s1, h1, h2, h3⟩

/-- The statements of `zoom` after its first block only permute the client
list of the selected monitor, for a client `c` of the list and a node `at` of
the list (or NULL). -/
theorem zoomTail_perm {F : Type} (s1 : State F) (c : Nat) (at0 : Option Nat)
    (hown : ∀ x ∈ (s1.mon s1.selmon).clients, (s1.client x).mon = s1.selmon)
    (hc : c ∈ (s1.mon s1.selmon).clients)
    (hat : ∀ a, at0 = some a → a ∈ (s1.mon s1.selmon).clients) :
    ∃ s2, zoomTail s1 (some c) at0 = some s2
      ∧ (s2.mon s1.selmon).clients.Perm (s1.mon s1.selmon).clients := by
  have hcm := hown c hc
  obtain ⟨r1, -, r3, r4, -⟩ := reattach_Frame s1 c
  have hatL : ∀ a, (if some c ≠ nexttiled s1 (s1.mon s1.selmon).clients ∧ at0 = none
      then findbefore s1 (some c) else at0) = some a → a ∈ (s1.mon s1.selmon).clients := by
    intro a ha
    split at ha
    · unfold findbefore at ha
      split at ha
      · cases ha
      · exact findbeforeGo_mem _ _ _ ha
    · exact hat a ha
  unfold zoomTail
  simp only []
  refine ⟨_, rfl, ?_⟩
  simp only [arrange]
  rw [(focus_frame _ _).2.2.1]
  generalize (if some c ≠ nexttiled s1 (s1.mon s1.selmon).clients ∧ at0 = none
      then findbefore s1 (some c) else at0) = at_ at hatL
  generalize ht2 : attach (detach s1 c) c = t2 at r1 r3 r4
  have hsel2 : t2.selmon = s1.selmon := r1.2.2.2.1
  have hL2 : (t2.mon s1.selmon).clients = c :: (s1.mon s1.selmon).clients.erase c := by
    rw [r4]; simp [hcm]
  have hp2 : (t2.mon s1.selmon).clients.Perm (s1.mon s1.selmon).clients := by
    rw [hL2]; exact (List.perm_cons_erase hc).symm
  split
  · cases hcold : nexttiled s1 (s1.mon s1.selmon).clients with
    | none => simpa [zoomSwap] using hp2
    | some co =>
      cases at_ with
      | none => simpa [zoomSwap] using hp2
      | some a =>
        have hcoL : co ∈ (s1.mon s1.selmon).clients := (nexttiled_some _ _ _ hcold).2
        have hco2 : (t2.client co).mon = t2.selmon := by rw [r3, hsel2]; exact hown co hcoL
        obtain ⟨-, -, w3, -⟩ := zoomSwap_spec t2 co a hco2
        rw [hsel2] at w3
        rw [w3]
        by_cases h : a = co
        · rw [if_neg (by simp [h])]; exact hp2
        · rw [if_pos h]
          have hmem : a ∈ ((t2.mon s1.selmon).clients).erase co :=
            (List.mem_erase_of_ne h).2 (hp2.symm.subset (hatL a rfl))
          exact ((insertAfter_perm a co _ hmem).trans
            (List.perm_cons_erase (hp2.symm.subset hcoL)).symm).trans hp2
  · exact hp2

/-- What the first block of `zoom` hands on: the state with at most `prevzoom`
cleared, a client of the list, and a node of the list or NULL. -/
theorem zoomBlock_cases {F : Type} (s : State F)
    (hown : ∀ x ∈ (s.mon s.selmon).clients, (s.client x).mon = s.selmon)
    (hsel : (∃ c, (s.mon s.selmon).sel = some c ∧ c ∈ (s.mon s.selmon).clients)
      ∨ ((s.mon s.selmon).sel = none ∧ nexttiled s (s.mon s.selmon).clients = none)) :
    (∀ r, zoomBlock s = Sum.inl r → r = { s with prevzoom := none })
    ∧ (∀ s1 c at0, zoomBlock s = Sum.inr (s1, c, at0) →
        (s1 = s ∨ s1 = { s with prevzoom := none })
        ∧ (∃ x, c = some x ∧ x ∈ (s.mon s.selmon).clients)
        ∧ (∀ a, at0 = some a → a ∈ (s.mon s.selmon).clients)) := by
  have hfb : ∀ a, findbefore s s.prevzoom = some a → a ∈ (s.mon s.selmon).clients := by
    intro a ha
    unfold findbefore at ha
    split at ha
    · cases ha
    · exact findbeforeGo_mem _ _ _ ha
  unfold zoomBlock
  simp only []
  split
  · rename_i hfirst
    split
    · cases hs : (s.mon s.selmon).sel with
      | none => simp
      | some c0 =>
        have hc0 : c0 ∈ (s.mon s.selmon).clients := by
          rw [hs] at hfirst
          exact (nexttiled_some _ _ _ hfirst.symm).2
        have hm0 : (s.client c0).mon = s.selmon := hown c0 hc0
        simp only [hm0]
        cases hn : nexttiled s (nextOf (s.mon s.selmon).clients c0) with
        | none => simp
        | some c1 =>
          have hc1 : c1 ∈ (s.mon s.selmon).clients :=
            nextOf_subset _ _ _ (nexttiled_some _ _ _ hn).2
          simp only [Sum.inr.injEq, Prod.mk.injEq, and_imp, reduceCtorEq, false_implies,
            implies_true, true_and]
          rintro s1 c at0 rfl rfl rfl
          exact ⟨Or.inr rfl, ⟨c1, rfl, hc1⟩, hfb⟩
    · rename_i hcp
      simp only [not_or, not_not] at hcp
      simp only [Sum.inr.injEq, Prod.mk.injEq, and_imp, reduceCtorEq, false_implies,
        implies_true, true_and]
      rintro s1 c at0 rfl rfl rfl
      refine ⟨Or.inl rfl, ?_, hfb⟩
      cases hf : findbefore s s.prevzoom with
      | none => rw [hf] at hcp; simp at hcp
      | some a =>
        rw [hf] at hcp
        simp only [] at hcp ⊢
        cases hn : nexttiled s (nextOf (s.mon s.selmon).clients a) with
        | none => rw [hn] at hcp; exact absurd rfl hcp.1
        | some x => exact ⟨x, rfl, nextOf_subset _ _ _ (nexttiled_some _ _ _ hn).2⟩
  · rename_i hfirst
    simp only [Sum.inr.injEq, Prod.mk.injEq, and_imp, reduceCtorEq, false_implies,
      implies_true, true_and]
    rintro s1 c at0 rfl rfl rfl
    refine ⟨Or.inl rfl, ?_, by simp⟩
    rcases hsel with ⟨c, h1, h2⟩ | ⟨h1, h2⟩
    · exact ⟨c, h1, h2⟩
    · exact absurd (h1.trans h2.symm) hfirst
/-- C30: when the selection of the selected monitor is on its client list (or
there is no selection and no tiled client), `zoom` returns for every value of
`prevzoom` and the client list afterwards holds exactly the clients that it
held before, each once; when the layout has no arrange function or the
selected client is floating the list is left as it is.  (The client list holds
each client once and only clients of the monitor.) -/
theorem C30_zoom_permutes_client_list {F : Type} (s : State F)
    (hnd : (s.mon s.selmon).clients.Nodup)
    (hown : ∀ x ∈ (s.mon s.selmon).clients, (s.client x).mon = s.selmon)
    (hsel : (∃ c, (s.mon s.selmon).sel = some c ∧ c ∈ (s.mon s.selmon).clients)
      ∨ ((s.mon s.selmon).sel = none ∧ nexttiled s (s.mon s.selmon).clients = none)) :
    ∃ s1, zoom s = some s1
      ∧ (s1.mon s.selmon).clients.Perm (s.mon s.selmon).clients
      ∧ (s1.mon s.selmon).clients.Nodup
      ∧ (∀ x, x ∈ (s1.mon s.selmon).clients ↔ x ∈ (s.mon s.selmon).clients)
      ∧ ((hasArrange ((s.mon s.selmon).lt (s.mon s.selmon).sellt) = false
          ∨ ∃ c, (s.mon s.selmon).sel = some c ∧ (s.client c).isfloating = true) →
        (s1.mon s.selmon).clients = (s.mon s.selmon).clients) := by
  have key : ∃ s1, zoom s = some s1
      ∧ (s1.mon s.selmon).clients.Perm (s.mon s.selmon).clients
      ∧ ((hasArrange ((s.mon s.selmon).lt (s.mon s.selmon).sellt) = false
          ∨ ∃ c, (s.mon s.selmon).sel = some c ∧ (s.client c).isfloating = true) →
        (s1.mon s.selmon).clients = (s.mon s.selmon).clients) := by
    obtain ⟨b1, b2⟩ := zoomBlock_cases s hown hsel
    by_cases hg : (!hasArrange ((s.mon s.selmon).lt (s.mon s.selmon).sellt)
        || (match (s.mon s.selmon).sel with
            | some x => (s.client x).isfloating
            | none => false)) = true
    · refine ⟨s, ?_, List.Perm.refl _, fun _ => rfl⟩
      unfold zoom
      simp only [hg, if_true]
    · have hz : zoom s = (match zoomBlock s with
          | Sum.inl r => some r
          | Sum.inr (s1, c, at0) => zoomTail s1 c at0) := by
        unfold zoom
        simp only [hg, if_false, Bool.false_eq_true]
      have hno : ¬ (hasArrange ((s.mon s.selmon).lt (s.mon s.selmon).sellt) = false
          ∨ ∃ c, (s.mon s.selmon).sel = some c ∧ (s.client c).isfloating = true) := by
        rintro (h | ⟨c, h1, h2⟩)
        · apply hg; simp [h]
        · apply hg; simp [h1, h2]
      rw [hz]
      cases hb : zoomBlock s with
      | inl r =>
        have := b1 r hb
        subst this
        exact ⟨_, rfl, List.Perm.refl _, fun _ => rfl⟩
      | inr q =>
        obtain ⟨s1, c, at0⟩ := q
        obtain ⟨c1, ⟨x, rfl, hx⟩, c3⟩ := b2 s1 (c) at0 hb
        rcases c1 with rfl | rfl
        · obtain ⟨s2, z1, z2⟩ := zoomTail_perm s1 x at0 hown hx c3
          exact ⟨s2, z1, z2, fun h => absurd h hno⟩
        · obtain ⟨s2, z1, z2⟩ := zoomTail_perm { s with prevzoom := none } x at0 hown hx c3
          exact ⟨s2, z1, z2, fun h => absurd h hno⟩
  obtain ⟨s1, k1, k2, k3⟩ := key
  exact ⟨s1, k1, k2, k2.nodup_iff.2 hnd, fun x => k2.mem_iff, k3⟩

theorem C30_zoom_permutes_client_list_witness :
    ∃ s1, zoom (oneMonitor [1, 2, 3] [1, 2, 3] (some 1) (fun _ => plainClient 1 0) (some 7)) = some s1
      ∧ (s1.mon 0).clients.Perm [1, 2, 3] := by
  obtain ⟨s1, h1, h2, -⟩ := C30_zoom_permutes_client_list
    (oneMonitor [1, 2, 3] [1, 2, 3] (some 1) (fun _ => plainClient 1 0) (some 7))
    (by decide) (by intro x _; rfl) (Or.inl ⟨1, rfl, by decide⟩)
  exact ⟨s1, h1, h2⟩

/-! ## `destroynotify` for the window that a swallowing terminal gave away -/

/-- C23 (counterexample): a window and a terminal are managed on tag 1, the
terminal is made sticky, swallows a child window, is moved to tag 2 and made
non-sticky again, so that it is hidden but still the head of the focus stack.
`destroynotify` for the window kept in `p->swallowing->win` then clears the
relation, and its closing `focus(NULL)` moves the visible client 100 to the head
of the focus stack: the stack 101, 100 becomes 100, 101. -/
theorem C23_destroynotify_reorders_focus_stack :
    ∃ s1 s2 s3 : State Nat,
      manage rules (fun p => if p = 6 then 5 else 0) 64 (setupState 55 1 10 10 10 10 1920 1080 20) 100
        ⟨7, 0, "a".toList, none, none, none, false, false, false, none⟩ = some s1
      ∧ manage rules (fun p => if p = 6 then 5 else 0) 64 s1 101
        ⟨11, 5, "st".toList, some "St".toList, some "st".toList, none, false, false, false, none⟩
        = some s2
      ∧ manage rules (fun p => if p = 6 then 5 else 0) 64 (togglesticky s2) 102
        ⟨22, 6, "b".toList, none, none, none, false, false, false, none⟩ = some s3
      ∧ ((togglesticky (tag s3 (1 <<< 1))).client 101).swallowing = some 102
      ∧ ((togglesticky (tag s3 (1 <<< 1))).client 102).win = 11
      ∧ wintoclient (togglesticky (tag s3 (1 <<< 1))) 11 = none
      ∧ swallowingclient (togglesticky (tag s3 (1 <<< 1))) 11 = some 101
      ∧ ((togglesticky (tag s3 (1 <<< 1))).mon 0).stack = [101, 100]
      ∧ ((destroynotify (togglesticky (tag s3 (1 <<< 1))) 11).client 101).swallowing = none
      ∧ ((destroynotify (togglesticky (tag s3 (1 <<< 1))) 11).mon 0).stack = [100, 101]
      ∧ ¬ (((destroynotify (togglesticky (tag s3 (1 <<< 1))) 11).mon 0).stack
            = ((togglesticky (tag s3 (1 <<< 1))).mon 0).stack) := by
  refine ⟨_, _, _, rfl, rfl, rfl, ?_, ?_, ?_, ?_, ?_, ?_, ?_, ?_⟩ <;> decide

/-- C23 (amended): the window `w` is the one kept in `p->swallowing->win` of the
client `p` (no client on a list shows `w`, and `p` is the client that
`swallowingclient` finds for `w`).  `destroynotify` for `w` clears
`p->swallowing` and restores nothing: `p->win` stays as it is and every client
list is unchanged; the focus stacks are unchanged except that the first visible
client of the focus stack of the selected monitor, which the closing
`focus(NULL)` selects, is moved to the head of the stack of its monitor, so
that every focus stack is unchanged when that client already is the head or no
client is visible. -/
theorem C23_destroyed_terminal_window_clears_relation {F : Type} (s : State F) (w p c : Nat)
    (hw : wintoclient s w = none) (hp : swallowingclient s w = some p)
    (hpc : (s.client p).swallowing = some c) (hc : (s.client c).swallowing = none) :
    (s.client c).win = w
    ∧ ((destroynotify s w).client p).swallowing = none
    ∧ ((destroynotify s w).client p).win = (s.client p).win
    ∧ (∀ m, ((destroynotify s w).mon m).clients = (s.mon m).clients)
    ∧ (∀ m, ((destroynotify s w).mon m).stack
        = match (s.mon s.selmon).stack.find? (fun t => ISVISIBLE s t) with
          | some x => if m = (s.client x).mon then x :: (s.mon m).stack.erase x else (s.mon m).stack
          | none => (s.mon m).stack)
    ∧ ((∀ x, (s.mon s.selmon).stack.find? (fun t => ISVISIBLE s t) = some x →
          (s.mon (s.client x).mon).stack.head? = some x) →
        ∀ m, ((destroynotify s w).mon m).stack = (s.mon m).stack) := by
  have hcw : (s.client c).win = w := by
    have := List.find?_some hp
    simp only [hpc] at this
    simpa using this
  have hd : destroynotify s w
      = focus (s.setClient p { s.client p with swallowing := none }) none := by
    unfold destroynotify
    simp only [hw, hp, hpc]
    unfold unmanage
    simp only [hc, Option.isSome_none, Bool.false_eq_true, if_false, hcw, hp, arrange]
  obtain ⟨-, -, f3, f4, f5, -, -, -⟩ :=
    focus_frame (s.setClient p { s.client p with swallowing := none }) none
  have hvis : ∀ t, ISVISIBLE (s.setClient p { s.client p with swallowing := none }) t
      = ISVISIBLE s t := by
    intro t
    apply ISVISIBLE_congr
    · by_cases h : t = p <;> simp [setClient_client, h]
    · by_cases h : t = p <;> simp [setClient_client, h]
    · by_cases h : t = p <;> simp [setClient_client, h]
    · rfl
  have hT : focusTarget (s.setClient p { s.client p with swallowing := none }) none
      = (s.mon s.selmon).stack.find? (fun t => ISVISIBLE s t) := by
    simp only [focusTarget, hvis]
    rfl
  have hstack : ∀ m, ((destroynotify s w).mon m).stack
      = match (s.mon s.selmon).stack.find? (fun t => ISVISIBLE s t) with
        | some x => if m = (s.client x).mon then x :: (s.mon m).stack.erase x else (s.mon m).stack
        | none => (s.mon m).stack := by
    intro m
    rw [hd, f4 m, hT]
    cases hx : (s.mon s.selmon).stack.find? (fun t => ISVISIBLE s t) with
    | none => rfl
    | some x =>
      have hxm : ((s.setClient p { s.client p with swallowing := none }).client x).mon
          = (s.client x).mon := by
        by_cases h : x = p <;> simp [setClient_client, h]
      simp only [hxm]
      rfl
  refine ⟨hcw, ?_, ?_, ?_, hstack, ?_⟩
  · rw [hd, f5 p]; simp [setClient_client]
  · rw [hd, f5 p]; simp [setClient_client]
  · rw [hd]; exact f3
  · intro hhead m
    rw [hstack m]
    cases hx : (s.mon s.selmon).stack.find? (fun t => ISVISIBLE s t) with
    | none => rfl
    | some x =>
      have hh := hhead x hx
      simp only []
      by_cases hm : m = (s.client x).mon
      · subst hm
        rw [if_pos rfl]
        cases hl : (s.mon (s.client x).mon).stack with
        | nil => rw [hl] at hh; simp at hh
        | cons y r =>
          rw [hl] at hh
          simp at hh
          subst hh
          simp
      · rw [if_neg hm]

theorem C23_destroyed_terminal_window_clears_relation_witness :
    ((destroynotify (swallow (oneMonitor [1, 2] [2, 1] (some 2)
        (fun i => if i = 1 then terminalClient else plainClient 1 22) none) 1 2) 11).client 1).swallowing
      = none
    ∧ ((destroynotify (swallow (oneMonitor [1, 2] [2, 1] (some 2)
        (fun i => if i = 1 then terminalClient else plainClient 1 22) none) 1 2) 11).client 1).win = 22 :=
  ⟨(C23_destroyed_terminal_window_clears_relation (swallow (oneMonitor [1, 2] [2, 1] (some 2)
        (fun i => if i = 1 then terminalClient else plainClient 1 22) none) 1 2) 11 1 2
      (by decide) (by decide) (by decide) (by decide)).2.1,
   by decide⟩

/-! ## The `Pertag` settings in reachable states -/

theorem xor_one_xor_one (a : Nat) : (a ^^^ 1) ^^^ 1 = a := by
  rw [Nat.xor_assoc]; simp

theorem FromCreatemon.ok {F : Type} {m : Monitor F} (h : FromCreatemon m) : PertagOk m := by
  obtain ⟨a, b, c, d, e, f, h⟩ := h
  have h1 := congrArg Monitor.pertag h
  have h2 := congrArg Monitor.tagset h
  have h3 := congrArg Monitor.nmaster h
  have h4 := congrArg Monitor.mfact h
  have h5 := congrArg Monitor.sellt h
  have h6 := congrArg Monitor.lt h
  have h7 := congrArg Monitor.showbar h
  simp only [createmon] at h1 h2 h3 h4 h5 h6 h7
  refine ⟨?_, ?_, ?_, ?_, ?_, ?_, ?_, ?_, ?_⟩
  · rw [h1]; show 1 ≤ tags.length; decide
  · rw [h1]; show 1 ≤ tags.length; decide
  · intro i; rw [h2]; show 1 ≤ TAGMASK; decide
  · rw [h1, h3]
  · rw [h1, h4]
  · rw [h1, h5]
  · rw [h1, h5, h6]
  · rw [h1, h5, h6]
  · rw [h1, h7]

/-- The call `focus` keeps the invariant of every monitor. -/
theorem focus_PertagOk {F : Type} (s : State F) (c : Option Nat) (m : Nat)
    (h : PertagOk (s.mon m)) : PertagOk ((focus s c).mon m) := by
  rw [(focus_frame s c).2.2.2.2.2.1 m]
  exact h

/-- Assigning the selected monitor keeps the invariant when the new object
satisfies it. -/
theorem setMon_PertagOk {F : Type} (s : State F) (v : Monitor F)
    (h : ∀ m, m ≠ s.selmon → PertagOk (s.mon m)) (hv : PertagOk v) :
    ∀ m, PertagOk ((s.setMon s.selmon v).mon m) := by
  intro m
  rw [setMon_mon]
  split
  · exact hv
  · rename_i hm
    exact h m hm

theorem updatebarpos_PertagOk {F : Type} (bh : Int) (m : Monitor F) (h : PertagOk m) :
    PertagOk (updatebarpos bh m) := by
  unfold updatebarpos
  simp only []
  split
  · exact h
  · exact h

/-- The tail shared by `view` and `toggleview` establishes the invariant on the
selected monitor from the bounds alone. -/
theorem applyPertag_ok {F : Type} (s : State F)
    (hoth : ∀ m, m ≠ s.selmon → PertagOk (s.mon m))
    (hc : (s.mon s.selmon).pertag.curtag ≤ tags.length)
    (hp : (s.mon s.selmon).pertag.prevtag ≤ tags.length)
    (ht : ∀ i, (s.mon s.selmon).tagset i ≤ TAGMASK) :
    ∀ m, PertagOk ((applyPertag s).mon m) := by
  intro m
  simp only [applyPertag, arrange]
  apply focus_PertagOk
  have hlt1 : upd (upd (s.mon s.selmon).lt
          ((s.mon s.selmon).pertag.sellts (s.mon s.selmon).pertag.curtag)
          ((s.mon s.selmon).pertag.ltidxs (s.mon s.selmon).pertag.curtag
            ((s.mon s.selmon).pertag.sellts (s.mon s.selmon).pertag.curtag)))
        ((s.mon s.selmon).pertag.sellts (s.mon s.selmon).pertag.curtag ^^^ 1)
        ((s.mon s.selmon).pertag.ltidxs (s.mon s.selmon).pertag.curtag
          ((s.mon s.selmon).pertag.sellts (s.mon s.selmon).pertag.curtag ^^^ 1))
        ((s.mon s.selmon).pertag.sellts (s.mon s.selmon).pertag.curtag)
      = (s.mon s.selmon).pertag.ltidxs (s.mon s.selmon).pertag.curtag
          ((s.mon s.selmon).pertag.sellts (s.mon s.selmon).pertag.curtag) :=
    (upd_other _ _ _ _ (ne_xor_one _)).trans (upd_same _ _ _)
  split
  · unfold togglebar
    simp only [arrange, setMon_selmon]
    apply setMon_PertagOk
    · intro k hk
      simp only [setMon_selmon] at hk
      rw [setMon_mon, if_neg hk]
      exact hoth k hk
    · apply updatebarpos_PertagOk
      simp only [setMon_mon, if_true]
      exact ⟨hc, hp, ht, rfl, rfl, rfl, hlt1, upd_same _ _ _, (upd_same _ _ _).symm⟩
  · rename_i hsb
    apply setMon_PertagOk _ _ hoth
    refine ⟨hc, hp, ht, rfl, rfl, rfl, hlt1, upd_same _ _ _, ?_⟩
    simpa using hsb
theorem lowbit_succ_le (x : Nat) (hx : x &&& TAGMASK ≠ 0) : lowbit x + 1 ≤ tags.length := by
  obtain ⟨i, hi, hb⟩ := tag_bit_of_ne_zero _ (and_tagmask_lt x) hx
  rw [Nat.and_assoc, tagmask_and_bit i hi] at hb
  have := (lowbit_spec x i (by omega) hb).2
  have h9 : tags.length = 9 := rfl
  omega

theorem tagmask_and_self (x : Nat) (h : x ≤ TAGMASK) : x &&& TAGMASK = x := by
  have h1 : x < 2 ^ 9 := Nat.lt_succ_of_le h
  have h2 : TAGMASK = 2 ^ 9 - 1 := rfl
  rw [h2, Nat.and_pow_two_sub_one_eq_mod, Nat.mod_eq_of_lt h1]

theorem view_PertagOk {F : Type} (s : State F) (ui : Nat) (h : ∀ m, PertagOk (s.mon m)) :
    ∀ m, PertagOk ((view s ui).mon m) := by
  obtain ⟨hc, hp, ht, -⟩ := h s.selmon
  unfold view
  simp only []
  split
  · exact h
  · apply applyPertag_ok
    · intro k hk
      simp only [setMon_selmon] at hk
      rw [setMon_mon, if_neg hk]
      exact h k
    all_goals simp only [setMon_selmon, setMon_mon, if_true]
    · split
      · rename_i hz
        have hz2 : ui &&& TAGMASK ≠ 0 := by simpa using hz
        show (if ui = UINT_MAX then 0 else lowbit ui + 1) ≤ tags.length
        split
        · exact Nat.zero_le _
        · exact lowbit_succ_le ui hz2
      · exact hp
    · split
      · exact hc
      · exact hc
    · intro i
      split
      · show upd (s.mon s.selmon).tagset ((s.mon s.selmon).seltags ^^^ 1) (ui &&& TAGMASK) i ≤ TAGMASK
        unfold upd
        split
        · exact Nat.and_le_right
        · exact ht i
      · exact ht i

/-- Where `toggleview` is defined (`curtag` is not 0 at the shift), the machine
run gives the same state for every value of the out-of-range shift. -/
theorem toggleview_eq_shift {F : Type} (s t : State F) (sh ui : Nat)
    (ht : toggleview s ui = some t) : toggleviewShift sh s ui = t := by
  unfold toggleview at ht
  unfold toggleviewShift
  simp only [] at ht ⊢
  by_cases hnz : ((s.mon s.selmon).seltagset ^^^ (ui &&& TAGMASK) != 0) = true
  · rw [if_pos hnz] at ht ⊢
    by_cases hmax : (s.mon s.selmon).seltagset ^^^ (ui &&& TAGMASK) = UINT_MAX
    · rw [if_pos hmax] at ht
      rw [if_pos rfl] at ht
      cases ht
    · rw [if_neg hmax] at ht ⊢
      by_cases hcur : (s.mon s.selmon).pertag.curtag = 0
      · rw [if_pos hcur] at ht
        cases ht
      · rw [if_neg hcur] at ht
        rw [if_neg hcur]
        exact Option.some.inj ht
  · rw [if_neg hnz] at ht ⊢
    exact Option.some.inj ht

theorem toggleviewShift_PertagOk {F : Type} (s : State F) (sh ui : Nat)
    (h : ∀ m, PertagOk (s.mon m)) : ∀ m, PertagOk ((toggleviewShift sh s ui).mon m) := by
  obtain ⟨hc, hp, hts, -⟩ := h s.selmon
  have hnew : (s.mon s.selmon).seltagset ^^^ (ui &&& TAGMASK) ≤ TAGMASK := by
    have h1 : (s.mon s.selmon).seltagset < 2 ^ 9 := Nat.lt_succ_of_le (hts _)
    have h2 : ui &&& TAGMASK < 2 ^ 9 := and_tagmask_lt ui
    exact Nat.le_of_lt_succ (Nat.xor_lt_two_pow h1 h2)
  unfold toggleviewShift
  simp only []
  split
  · rename_i hnz
    have hnz2 : (s.mon s.selmon).seltagset ^^^ (ui &&& TAGMASK) ≠ 0 := by simpa using hnz
    have hmax : (s.mon s.selmon).seltagset ^^^ (ui &&& TAGMASK) ≠ UINT_MAX := by
      intro e
      rw [e] at hnew
      exact absurd hnew (by decide)
    rw [if_neg hmax]
    generalize (if (s.mon s.selmon).pertag.curtag = 0 then sh
      else 1 <<< ((s.mon s.selmon).pertag.curtag - 1)) = bit
    apply applyPertag_ok
    · intro k hk
      simp only [setMon_selmon] at hk
      rw [setMon_mon, if_neg hk]
      exact h k
    all_goals simp only [setMon_selmon, setMon_mon, if_true]
    · split
      · show lowbit ((s.mon s.selmon).seltagset ^^^ (ui &&& TAGMASK)) + 1 ≤ tags.length
        apply lowbit_succ_le
        rw [tagmask_and_self _ hnew]
        exact hnz2
      · exact hc
    · split
      · exact hc
      · exact hp
    · intro i
      have : upd (s.mon s.selmon).tagset (s.mon s.selmon).seltags
          ((s.mon s.selmon).seltagset ^^^ (ui &&& TAGMASK)) i ≤ TAGMASK := by
        unfold upd
        split
        · exact hnew
        · exact hts i
      split
      · exact this
      · exact this
  · exact h

theorem setnmaster_PertagOk {F : Type} (s : State F) (i : Int) (h : ∀ m, PertagOk (s.mon m)) :
    ∀ m, PertagOk ((setnmaster s i).mon m) := by
  obtain ⟨hc, hp, ht, a1, a2, a3, a4, a5, a6⟩ := h s.selmon
  unfold setnmaster
  simp only [arrange]
  apply setMon_PertagOk _ _ (fun k _ => h k)
  exact ⟨hc, hp, ht, (upd_same _ _ _).symm, a2, a3, a4, a5, a6⟩

theorem setmfact_PertagOk {F : Type} (fl : FloatOps F) (s : State F) (x : F)
    (h : ∀ m, PertagOk (s.mon m)) : ∀ m, PertagOk ((setmfact fl s x).mon m) := by
  obtain ⟨hc, hp, ht, a1, a2, a3, a4, a5, a6⟩ := h s.selmon
  unfold setmfact
  simp only [arrange]
  generalize (if fl.lt1 x = true then fl.add x (s.mon s.selmon).mfact else fl.sub1 x) = f
  split
  · exact h
  · split
    · exact h
    · apply setMon_PertagOk _ _ (fun k _ => h k)
      exact ⟨hc, hp, ht, a1, (upd_same _ _ _).symm, a3, a4, a5, a6⟩

theorem togglebar_PertagOk {F : Type} (s : State F) (h : ∀ m, PertagOk (s.mon m)) :
    ∀ m, PertagOk ((togglebar s).mon m) := by
  obtain ⟨hc, hp, ht, a1, a2, a3, a4, a5, a6⟩ := h s.selmon
  unfold togglebar
  simp only [arrange]
  apply setMon_PertagOk _ _ (fun k _ => h k)
  apply updatebarpos_PertagOk
  exact ⟨hc, hp, ht, a1, a2, a3, a4, a5, (upd_same _ _ _).symm⟩

theorem setlayout_PertagOk {F : Type} (s : State F) (v : Option Nat)
    (h : ∀ m, PertagOk (s.mon m)) : ∀ m, PertagOk ((setlayout s v).mon m) := by
  obtain ⟨hc, hp, ht, a1, a2, a3, a4, a5, a6⟩ := h s.selmon
  unfold setlayout
  simp only [arrange]
  apply setMon_PertagOk _ _ (fun k _ => h k)
  have hx : (s.mon s.selmon).pertag.sellts (s.mon s.selmon).pertag.curtag ^^^ 1
      = (s.mon s.selmon).sellt ^^^ 1 := by rw [a3]
  cases v with
  | none =>
    simp only []
    rw [if_pos (Or.inl trivial)]
    refine ⟨hc, hp, ht, a1, a2, ?_, ?_, ?_, a6⟩
    · exact (upd_same _ _ _).symm
    · show (s.mon s.selmon).lt ((s.mon s.selmon).pertag.sellts (s.mon s.selmon).pertag.curtag ^^^ 1)
        = (s.mon s.selmon).pertag.ltidxs (s.mon s.selmon).pertag.curtag
            ((s.mon s.selmon).pertag.sellts (s.mon s.selmon).pertag.curtag ^^^ 1)
      rw [hx]; exact a5
    · show (s.mon s.selmon).lt (((s.mon s.selmon).pertag.sellts (s.mon s.selmon).pertag.curtag ^^^ 1) ^^^ 1)
        = (s.mon s.selmon).pertag.ltidxs (s.mon s.selmon).pertag.curtag
            (((s.mon s.selmon).pertag.sellts (s.mon s.selmon).pertag.curtag ^^^ 1) ^^^ 1)
      rw [hx, xor_one_xor_one]; exact a4
  | some p =>
    simp only []
    by_cases hv : (some p = none ∨ some p ≠ some ((s.mon s.selmon).lt (s.mon s.selmon).sellt))
    · rw [if_pos hv]
      refine ⟨hc, hp, ht, a1, a2, ?_, ?_, ?_, a6⟩
      · exact (upd_same _ _ _).symm
      · show upd (s.mon s.selmon).lt _ p _ = upd _ _ (upd _ _ p) _ _
        rw [upd_same, upd_same, upd_same]
      · show upd (s.mon s.selmon).lt
            ((s.mon s.selmon).pertag.sellts (s.mon s.selmon).pertag.curtag ^^^ 1) p
            (((s.mon s.selmon).pertag.sellts (s.mon s.selmon).pertag.curtag ^^^ 1) ^^^ 1)
          = upd _ _ (upd _ _ p) _ _
        rw [upd_same, upd_other _ _ _ _ (ne_xor_one _).symm, upd_other _ _ _ _ (ne_xor_one _).symm,
          hx, xor_one_xor_one]
        exact a4
    · rw [if_neg hv]
      refine ⟨hc, hp, ht, a1, a2, a3, ?_, ?_, a6⟩
      · show upd (s.mon s.selmon).lt _ p _ = upd _ _ (upd _ _ p) _ _
        rw [upd_same, upd_same, upd_same]
      · show upd (s.mon s.selmon).lt (s.mon s.selmon).sellt p ((s.mon s.selmon).sellt ^^^ 1)
          = upd _ _ (upd _ _ p) _ _
        rw [upd_same, upd_other _ _ _ _ (ne_xor_one _).symm, upd_other _ _ _ _ (ne_xor_one _).symm]
        exact a5

/-- Every reachable state satisfies the invariant on every monitor. -/
theorem pertagReach_ok {F : Type} {fl : FloatOps F} {s : State F} (h : PertagReach fl s) :
    ∀ m, PertagOk (s.mon m) := by
  induction h with
  | start s h0 => exact fun m => (h0 m).ok
  | view s ui _ ih => exact view_PertagOk s ui ih
  | toggleview s sh ui _ ih => exact toggleviewShift_PertagOk s sh ui ih
  | setnmaster s i _ ih => exact setnmaster_PertagOk s i ih
  | incnmaster s i _ ih => exact setnmaster_PertagOk s _ ih
  | setmfact s x _ ih => exact setmfact_PertagOk _ s x ih
  | setlayout s v _ _ ih => exact setlayout_PertagOk s v ih
  | setlayoutex s _ ih =>
    unfold setlayoutex
    exact setlayout_PertagOk s _ ih
  | togglebar s _ ih => exact togglebar_PertagOk s ih

/-- C28: in every state reached from monitors that `createmon` returned through
`view`, `toggleview`, `setnmaster`, `incnmaster`, `setmfact`, `setlayout`,
`setlayoutex` with +1 and `togglebar`, on every monitor `pertag->curtag` is at
most the number of tags, and `nmaster`, `mfact`, `sellt`, both layout slots and
`showbar` equal the `Pertag` entries stored at `curtag`.  (`toggleview` with
`curtag` 0, as after `view(~0)`, is covered for every value that its shift by
`curtag - 1` may yield.) -/
theorem C28_pertag_settings_applied {F : Type} (fl : FloatOps F) (s : State F)
    (h : PertagReach fl s) (m : Nat) :
    (s.mon m).pertag.curtag ≤ tags.length ∧ PertagApplied (s.mon m) :=
  ⟨(pertagReach_ok h m).1, (pertagReach_ok h m).2.2.2⟩

theorem C28_pertag_settings_applied_witness :
    ((setlayoutex (setnmaster (toggleviewShift (1 <<< 31)
        (view (setupState (55 : Nat) 1 10 10 10 10 1920 1080 20) UINT_MAX) 4) 3) 1).mon 0).pertag.curtag
        ≤ tags.length
    ∧ PertagApplied
        ((setlayoutex (setnmaster (toggleviewShift (1 <<< 31)
          (view (setupState (55 : Nat) 1 10 10 10 10 1920 1080 20) UINT_MAX) 4) 3) 1).mon 0) :=
  C28_pertag_settings_applied hundredthsOps _
    (PertagReach.setlayoutex _ (PertagReach.setnmaster _ 3 (PertagReach.toggleview _ (1 <<< 31) 4
      (PertagReach.view _ UINT_MAX
        (PertagReach.start _ (fun _ => ⟨55, 1, 10, 10, 10, 10, rfl⟩)))))) 0

/-! ## Tag masks in reachable states -/

theorem TagsOk_iff (x : Nat) : TagsOk x ↔ x ≠ 0 ∧ x ≤ TAGMASK := by
  unfold TagsOk
  constructor
  · rintro ⟨h1, h2⟩
    exact ⟨h1, by rw [← h2]; exact Nat.and_le_right⟩
  · rintro ⟨h1, h2⟩
    exact ⟨h1, tagmask_and_self x h2⟩

theorem TagsOk_masked (x : Nat) (h : x &&& TAGMASK ≠ 0) : TagsOk (x &&& TAGMASK) :=
  (TagsOk_iff _).2 ⟨h, Nat.and_le_right⟩

theorem TagsOk_xor (x y : Nat) (hx : TagsOk x) (h : x ^^^ (y &&& TAGMASK) ≠ 0) :
    TagsOk (x ^^^ (y &&& TAGMASK)) := by
  rw [TagsOk_iff] at hx ⊢
  refine ⟨h, ?_⟩
  have h1 : x < 2 ^ 9 := Nat.lt_succ_of_le hx.2
  have h2 : y &&& TAGMASK < 2 ^ 9 := and_tagmask_lt y
  exact Nat.le_of_lt_succ (Nat.xor_lt_two_pow h1 h2)

/-- The invariant carries over to a state whose tag-sets satisfy it, whose
client lists hold only clients that were on a list before, or the client `c`,
and in which only `c` has a new tag mask. -/
theorem TagInv_of_frame {F : Type} (s t : State F) (c : Nat) (h : TagInv s)
    (hts : ∀ m i, TagsOk ((t.mon m).tagset i))
    (hcl : ∀ m x, x ∈ (t.mon m).clients → x = c ∨ ∃ k, x ∈ (s.mon k).clients)
    (htg : ∀ x, x ≠ c → (t.client x).tags = (s.client x).tags)
    (hc : ∀ m, c ∈ (t.mon m).clients → TagsOk (t.client c).tags) :
    TagInv t := by
  refine ⟨?_, hts⟩
  intro m x hx
  by_cases hxc : x = c
  · subst hxc
    exact hc m hx
  · rcases hcl m x hx with e | ⟨k, hk⟩
    · exact absurd e hxc
    · rw [htg x hxc]; exact h.1 k x hk

theorem focus_tags {F : Type} (s : State F) (c : Option Nat) (j : Nat) :
    ((focus s c).client j).tags = (s.client j).tags := by
  rw [(focus_frame s c).2.2.2.2.1 j]

theorem focus_TagInv {F : Type} (s : State F) (c : Option Nat) (h : TagInv s) :
    TagInv (focus s c) := by
  apply TagInv_of_frame s _ 0 h
  · intro m i; rw [(focus_mon_fields s c m).1]; exact h.2 m i
  · intro m x hx
    rw [(focus_frame s c).2.2.1 m] at hx
    exact Or.inr ⟨m, hx⟩
  · intro x _; exact focus_tags s c x
  · intro m hx
    rw [(focus_frame s c).2.2.1 m] at hx
    rw [focus_tags]
    exact h.1 m 0 hx

/-- Writing a tag mask that satisfies the invariant into a client keeps it. -/
theorem setTags_TagInv {F : Type} (s : State F) (c : Nat) (v : Client) (h : TagInv s)
    (hv : TagsOk v.tags ∨ v.tags = (s.client c).tags) : TagInv (s.setClient c v) := by
  apply TagInv_of_frame s _ c h
  · exact h.2
  · intro m x hx; exact Or.inr ⟨m, hx⟩
  · intro x hx; simp [setClient_client, hx]
  · intro m hm
    simp only [setClient_client, if_true]
    rcases hv with hv | hv
    · exact hv
    · rw [hv]; exact h.1 m c hm

theorem tag_TagInv {F : Type} (s : State F) (ui : Nat) (h : TagInv s) : TagInv (tag s ui) := by
  unfold tag
  split
  · split
    · rename_i c _ hz
      simp only [arrange]
      apply focus_TagInv
      apply setTags_TagInv _ _ _ h
      left
      exact TagsOk_masked ui (by simpa using hz)
    · exact h
  · exact h

theorem toggletag_TagInv {F : Type} (s : State F) (ui : Nat) (h : TagInv s) :
    TagInv (toggletag s ui) := by
  unfold toggletag
  split
  · exact h
  · rename_i c hsel
    simp only []
    split
    · rename_i hz
      simp only [arrange]
      apply focus_TagInv
      apply TagInv_of_frame s _ c h
      · exact h.2
      · intro m x hx; exact Or.inr ⟨m, hx⟩
      · intro x hx; simp [setClient_client, hx]
      · intro k hk
        simp only [setClient_client, if_true]
        exact TagsOk_xor _ _ (h.1 k c hk) (by simpa using hz)
    · exact h

theorem setMon_tagframe {F : Type} (s : State F) (k : Nat) (v : Monitor F)
    (h1 : v.tagset = (s.mon k).tagset) (h2 : v.clients = (s.mon k).clients) (m : Nat) :
    ((s.setMon k v).mon m).tagset = (s.mon m).tagset
    ∧ ((s.setMon k v).mon m).clients = (s.mon m).clients := by
  rw [setMon_mon]
  by_cases hm : m = k
  · subst hm
    rw [if_pos rfl]
    exact ⟨h1, h2⟩
  · rw [if_neg hm]
    exact ⟨rfl, rfl⟩

theorem togglebar_tagframe {F : Type} (s : State F) (m : Nat) :
    ((togglebar s).mon m).tagset = (s.mon m).tagset
    ∧ ((togglebar s).mon m).clients = (s.mon m).clients := by
  unfold togglebar
  simp only [arrange]
  apply setMon_tagframe
  · unfold updatebarpos
    simp only []
    split <;> rfl
  · unfold updatebarpos
    simp only []
    split <;> rfl

/-- The tail shared by `view` and `toggleview` writes no tag mask, no tag-set
and no client list. -/
theorem applyPertag_tagframe {F : Type} (s : State F) :
    (∀ m, ((applyPertag s).mon m).tagset = (s.mon m).tagset)
    ∧ (∀ m, ((applyPertag s).mon m).clients = (s.mon m).clients)
    ∧ (∀ j, ((applyPertag s).client j).tags = (s.client j).tags) := by
  simp only [applyPertag, arrange]
  refine ⟨?_, ?_, ?_⟩
  · intro m
    rw [(focus_mon_fields _ none m).1]
    split
    · rw [(togglebar_tagframe _ m).1]
      exact (setMon_tagframe s s.selmon _ (by rfl) (by rfl) m).1
    · exact (setMon_tagframe s s.selmon _ (by rfl) (by rfl) m).1
  · intro m
    rw [(focus_frame _ none).2.2.1 m]
    split
    · rw [(togglebar_tagframe _ m).2]
      exact (setMon_tagframe s s.selmon _ (by rfl) (by rfl) m).2
    · exact (setMon_tagframe s s.selmon _ (by rfl) (by rfl) m).2
  · intro j
    rw [focus_tags]
    split
    · rfl
    · rfl

theorem applyPertag_TagInv {F : Type} (s : State F) (h : TagInv s) : TagInv (applyPertag s) := by
  obtain ⟨a1, a2, a3⟩ := applyPertag_tagframe s
  apply TagInv_of_frame s _ 0 h
  · intro m i; rw [a1]; exact h.2 m i
  · intro m x hx; rw [a2] at hx; exact Or.inr ⟨m, hx⟩
  · intro x _; exact a3 x
  · intro m hm; rw [a2] at hm; rw [a3]; exact h.1 m 0 hm

/-- Assigning a monitor whose client list is the old one and whose tag-sets
satisfy the invariant keeps it. -/
theorem setMon_TagInv {F : Type} (s : State F) (k : Nat) (v : Monitor F) (h : TagInv s)
    (hcl : v.clients = (s.mon k).clients) (hts : ∀ i, TagsOk (v.tagset i)) :
    TagInv (s.setMon k v) := by
  apply TagInv_of_frame s _ 0 h
  · intro m i
    rw [setMon_mon]
    split
    · exact hts i
    · exact h.2 m i
  · intro m x hx
    rw [setMon_mon] at hx
    split at hx
    · rw [hcl] at hx; exact Or.inr ⟨k, hx⟩
    · exact Or.inr ⟨m, hx⟩
  · intro x _; rfl
  · intro m hm
    rw [setMon_mon] at hm
    split at hm
    · rw [hcl] at hm; exact h.1 k 0 hm
    · exact h.1 m 0 hm

theorem view_TagInv {F : Type} (s : State F) (ui : Nat) (h : TagInv s) : TagInv (view s ui) := by
  unfold view
  simp only []
  split
  · exact h
  · apply applyPertag_TagInv
    apply setMon_TagInv _ _ _ h
    · split <;> rfl
    · intro i
      split
      · rename_i hz
        show TagsOk (upd (s.mon s.selmon).tagset ((s.mon s.selmon).seltags ^^^ 1) (ui &&& TAGMASK) i)
        unfold upd
        split
        · exact TagsOk_masked ui (by simpa using hz)
        · exact h.2 _ i
      · exact h.2 _ i

theorem toggleviewShift_TagInv {F : Type} (s : State F) (sh ui : Nat) (h : TagInv s) :
    TagInv (toggleviewShift sh s ui) := by
  unfold toggleviewShift
  simp only []
  split
  · rename_i hnz
    have hnew : TagsOk ((s.mon s.selmon).seltagset ^^^ (ui &&& TAGMASK)) :=
      TagsOk_xor _ _ (h.2 _ _) (by simpa using hnz)
    have hmax : (s.mon s.selmon).seltagset ^^^ (ui &&& TAGMASK) ≠ UINT_MAX := by
      intro e
      have := ((TagsOk_iff _).1 hnew).2
      rw [e] at this
      exact absurd this (by decide)
    rw [if_neg hmax]
    generalize (if (s.mon s.selmon).pertag.curtag = 0 then sh
      else 1 <<< ((s.mon s.selmon).pertag.curtag - 1)) = bit
    apply applyPertag_TagInv
    apply setMon_TagInv _ _ _ h
    · split <;> rfl
    · intro i
      have : TagsOk (upd (s.mon s.selmon).tagset (s.mon s.selmon).seltags
          ((s.mon s.selmon).seltagset ^^^ (ui &&& TAGMASK)) i) := by
        unfold upd
        split
        · exact hnew
        · exact h.2 _ i
      split <;> exact this
  · exact h
theorem attachtopGo_mem (tiled : Nat → Bool) (nm : Int) (c : Nat) (l : List Nat) (n : Int) (x : Nat)
    (hx : x ∈ attachtopGo tiled nm c n l) : x = c ∨ x ∈ l := by
  obtain ⟨pre, post, h1, h2⟩ := attachtopGo_split tiled nm c l n
  rw [h2] at hx
  rw [h1]
  simp only [List.mem_append, List.mem_cons] at hx ⊢
  tauto

theorem sendmon_TagInv {F : Type} (s : State F) (c m : Nat) (h : TagInv s) :
    TagInv (sendmon s c m) := by
  by_cases hne : (s.client c).mon = m
  · unfold sendmon
    rw [if_pos hne]
    exact h
  · obtain ⟨s3, e, -, b2, b3, -, b5, -⟩ := sendmon_before_focus s c m hne
    rw [e]
    apply focus_TagInv
    apply TagInv_of_frame s s3 c h
    · intro k i; rw [b5]; exact h.2 k i
    · intro k x hx
      rw [b3] at hx
      split at hx
      · rcases attachtopGo_mem _ _ _ _ _ _ hx with e1 | e1
        · exact Or.inl e1
        · exact Or.inr ⟨m, e1⟩
      · split at hx
        · exact Or.inr ⟨k, List.mem_of_mem_erase hx⟩
        · exact Or.inr ⟨k, hx⟩
    · intro x hx
      rw [b2, if_neg hx]
    · intro _ _
      rw [b2, if_pos rfl]
      exact h.2 m _

theorem setClient_tags {F : Type} (s : State F) (c : Nat) (v : Client) (j : Nat)
    (hv : v.tags = (s.client c).tags) : ((s.setClient c v).client j).tags = (s.client j).tags := by
  rw [setClient_client]
  split
  · rename_i e; rw [hv, e]
  · rfl

/-- The function `swallow` writes no tag mask and no tag-set, and adds no
client to a list. -/
theorem swallow_tagframe {F : Type} (s : State F) (p c : Nat) :
    (∀ m, ((swallow s p c).mon m).tagset = (s.mon m).tagset)
    ∧ (∀ m x, x ∈ ((swallow s p c).mon m).clients → x ∈ (s.mon m).clients)
    ∧ (∀ j, ((swallow s p c).client j).tags = (s.client j).tags) := by
  obtain ⟨u1, -, u3, -, u5, -, -⟩ := unlink_facts s c
  unfold swallow
  split
  · exact ⟨fun _ => rfl, fun _ _ hx => hx, fun _ => rfl⟩
  · split
    · exact ⟨fun _ => rfl, fun _ _ hx => hx, fun _ => rfl⟩
    · simp only [arrange, setClient_mon]
      refine ⟨u5, ?_, ?_⟩
      · intro m x hx
        rw [u3] at hx
        split at hx
        · exact List.mem_of_mem_erase hx
        · exact hx
      · intro j
        refine (setClient_tags _ _ _ _ ?_).trans ((setClient_tags _ _ _ _ ?_).trans
          ((setClient_tags _ _ _ _ ?_).trans ((setClient_tags _ _ _ _ ?_).trans ?_)))
        · rfl
        · rfl
        · rfl
        · rfl
        · rw [u1]

theorem TagInv_swallow {F : Type} (s : State F) (p c : Nat) (h : TagInv s) :
    TagInv (swallow s p c) := by
  obtain ⟨a1, a2, a3⟩ := swallow_tagframe s p c
  apply TagInv_of_frame s _ 0 h
  · intro m i; rw [a1]; exact h.2 m i
  · intro m x hx; exact Or.inr ⟨m, a2 m x hx⟩
  · intro x _; exact a3 x
  · intro m hm; rw [a3]; exact h.1 m 0 (a2 m 0 hm)

/-- Linking a client with a valid tag mask into the lists of its monitor keeps
the invariant. -/
theorem TagInv_attach {F : Type} (s : State F) (c : Nat) (v : Client) (h : TagInv s)
    (hv : TagsOk v.tags) :
    TagInv ((attachstack (attachtop (s.setClient c v) c) c).setMon v.mon
      { (attachstack (attachtop (s.setClient c v) c) c).mon v.mon with sel := some c }) := by
  have hcl : ∀ m x, x ∈ ((attachstack (attachtop (s.setClient c v) c) c).mon m).clients →
      x = c ∨ x ∈ (s.mon m).clients := by
    intro m x hx
    simp only [attachstack, attachtop, setClient_client, if_true, setMon_mon, setMon_client,
      setClient_mon] at hx
    by_cases hm : m = v.mon
    · simp only [hm, if_true] at hx
      rcases attachtopGo_mem _ _ _ _ _ _ hx with e | e
      · exact Or.inl e
      · right; rw [hm]; exact e
    · simp only [hm, if_false] at hx
      exact Or.inr hx
  have hts : ∀ m, ((attachstack (attachtop (s.setClient c v) c) c).mon m).tagset
      = (s.mon m).tagset := by
    intro m
    simp only [attachstack, attachtop, setClient_client, if_true, setMon_mon, setMon_client,
      setClient_mon]
    by_cases hm : m = v.mon
    · simp only [hm, if_true]
    · simp only [hm, if_false]
  apply TagInv_of_frame s _ c h
  · intro m i
    rw [setMon_mon]
    split
    · rename_i e
      show TagsOk (((attachstack (attachtop (s.setClient c v) c) c).mon v.mon).tagset i)
      rw [hts]; exact h.2 _ i
    · rw [hts]; exact h.2 _ i
  · intro m x hx
    rw [setMon_mon] at hx
    split at hx
    · rcases hcl v.mon x hx with e | e
      · exact Or.inl e
      · exact Or.inr ⟨_, e⟩
    · rcases hcl m x hx with e | e
      · exact Or.inl e
      · exact Or.inr ⟨_, e⟩
  · intro x hx
    simp [attachstack, attachtop, setClient_client, hx]
  · intro _ _
    simpa [attachstack, attachtop, setClient_client] using hv
theorem applyrules_TagsOk {F : Type} (rs : List Rule) (s : State F) (name : List Char)
    (rc rn : Option (List Char)) (c : Client) (h : TagInv s) :
    TagsOk (applyrules rs s name rc rn c).tags := by
  unfold applyrules
  simp only []
  split
  · rename_i hz
    exact TagsOk_masked _ (by simpa using hz)
  · exact h.2 _ _

theorem wintoclient_mem {F : Type} (s : State F) (w x : Nat) (h : wintoclient s w = some x) :
    ∃ m, x ∈ (s.mon m).clients := by
  have := List.mem_of_find?_eq_some h
  unfold allClients at this
  rw [List.mem_flatten] at this
  obtain ⟨l, hl, hx⟩ := this
  rw [List.mem_map] at hl
  obtain ⟨m, -, rfl⟩ := hl
  exact ⟨m, hx⟩

theorem manage_TagInv {F : Type} (rs : List Rule) (gp : Nat → Nat) (fuel : Nat) (s t : State F)
    (c : Nat) (w : NewWindow) (h : TagInv s) (ht : manage rs gp fuel s c w = some t) :
    TagInv t := by
  unfold manage at ht
  simp only [] at ht
  split at ht
  · cases ht
  · rename_i c1 term heq
    have hc1 : TagsOk c1.tags := by
      split at heq
      · rename_i p hp
        have e := Option.some.inj heq
        have e1 := congrArg Prod.fst e
        simp only [] at e1
        have hp2 : ∃ m, p ∈ (s.mon m).clients := by
          cases hw : w.trans with
          | none => rw [hw] at hp; cases hp
          | some tw => rw [hw] at hp; exact wintoclient_mem s tw p hp
        obtain ⟨m, hm⟩ := hp2
        rw [← e1]
        exact h.1 m p hm
      · cases hterm : termforwin gp fuel s
            (applyrules rs s w.name w.res_class w.res_name { newClient w with mon := s.selmon }) with
        | none => rw [hterm] at heq; cases heq
        | some tv =>
          rw [hterm] at heq
          have e := Option.some.inj heq
          have e1 := congrArg Prod.fst e
          simp only [] at e1
          rw [← e1]
          exact applyrules_TagsOk _ _ _ _ _ _ h
    have ht2 := Option.some.inj ht
    subst ht2
    apply focus_TagInv
    simp only [arrange]
    have h4 := fun v hv => TagInv_attach s c v h hv
    split
    · apply TagInv_swallow
      apply h4
      repeat' split
      all_goals exact hc1
    · apply h4
      repeat' split
      all_goals exact hc1
/-- Every reachable state satisfies the invariant on the tag masks. -/
theorem tagReach_inv {F : Type} {s : State F} (h : TagReach s) : TagInv s := by
  induction h with
  | start s h0 =>
    refine ⟨?_, ?_⟩
    · intro m x hx
      rw [(h0 m).2] at hx
      cases hx
    · intro m i
      obtain ⟨a, b, c, d, e, f, hm⟩ := (h0 m).1
      have h2 := congrArg Monitor.tagset hm
      simp only [createmon] at h2
      rw [h2]
      show TagsOk 1
      exact ⟨by decide, by decide⟩
  | manage s t rs gp fuel c w _ ht ih => exact manage_TagInv rs gp fuel s t c w ih ht
  | tag s ui _ ih => exact tag_TagInv s ui ih
  | tagex s sh ui _ ih => exact tag_TagInv s _ ih
  | tagall s _ ih => exact tag_TagInv s _ ih
  | toggletag s ui _ ih => exact toggletag_TagInv s ui ih
  | sendmon s c m _ ih => exact sendmon_TagInv s c m ih
  | view s ui _ ih => exact view_TagInv s ui ih
  | toggleview s sh ui _ ih => exact toggleviewShift_TagInv s sh ui ih

/-- C29: in every state reached from monitors that `createmon` returned through
`manage` (which calls `applyrules`), `tag`, `tagex`, `tagall`, `toggletag`,
`sendmon`, `view` and `toggleview`, the tag mask of every client on a client
list and the active tag-set of every monitor are not zero and hold only bits
of `TAGMASK`.  (`toggleview` with `curtag` 0 and `tagex` with a count of 31 or
more are covered for every value that their shifts may yield.) -/
theorem C29_tag_masks_never_empty {F : Type} (s : State F) (h : TagReach s) :
    (∀ m, ∀ x ∈ (s.mon m).clients,
      (s.client x).tags ≠ 0 ∧ (s.client x).tags &&& TAGMASK = (s.client x).tags)
    ∧ (∀ m, (s.mon m).seltagset ≠ 0 ∧ (s.mon m).seltagset &&& TAGMASK = (s.mon m).seltagset) :=
  ⟨fun m x hx => (tagReach_inv h).1 m x hx, fun m => (tagReach_inv h).2 m _⟩

theorem C29_tag_masks_never_empty_witness :
    ∃ s1 : State Nat,
      manage rules (fun _ => 0) 64 (setupState 55 1 10 10 10 10 1920 1080 20) 100
        ⟨7, 0, "xterm".toList, some "XTerm".toList, some "xterm".toList, none, false, false, false, none⟩
        = some s1
      ∧ ((toggleviewShift (1 <<< 31) (view (toggletag s1 5) UINT_MAX) 4).mon 0).seltagset ≠ 0
      ∧ ((toggleviewShift (1 <<< 31) (view (toggletag s1 5) UINT_MAX) 4).client 100).tags ≠ 0 :=
  ⟨_, rfl,
    ((C29_tag_masks_never_empty _ (TagReach.toggleview _ (1 <<< 31) 4 (TagReach.view _ UINT_MAX
        (TagReach.toggletag _ 5
        (TagReach.manage _ _ rules (fun _ => 0) 64 100
          ⟨7, 0, "xterm".toList, some "XTerm".toList, some "xterm".toList, none, false, false, false, none⟩
          (TagReach.start _ (fun _ => ⟨⟨55, 1, 10, 10, 10, 10, rfl⟩, rfl⟩)) rfl))))).2 0).1,
    ((C29_tag_masks_never_empty _ (TagReach.toggleview _ (1 <<< 31) 4 (TagReach.view _ UINT_MAX
        (TagReach.toggletag _ 5
        (TagReach.manage _ _ rules (fun _ => 0) 64 100
          ⟨7, 0, "xterm".toList, some "XTerm".toList, some "xterm".toList, none, false, false, false, none⟩
          (TagReach.start _ (fun _ => ⟨⟨55, 1, 10, 10, 10, 10, rfl⟩, rfl⟩)) rfl))))).1 0 100
            (by decide)).1⟩

/-! ## `pushstack` -/

theorem countVisible_append {F : Type} (s : State F) (l1 l2 : List Nat) :
    countVisible s (l1 ++ l2) = countVisible s l1 + countVisible s l2 := by
  unfold countVisible
  simp [List.filter_append]

theorem MOD_range (x n : Int) (hn : 0 < n) : 0 ≤ MOD x n ∧ MOD x n < n := by
  unfold MOD
  have h1 := Int.tmod_lt_of_pos x hn
  split
  · rename_i h
    refine ⟨?_, by omega⟩
    have hx : x < 0 := by
      by_contra hc
      have := Int.tmod_nonneg n (not_lt.1 hc)
      omega
    have h2 := Int.tmod_lt_of_pos (-x) hn
    have h3 : (-x).tmod n = -(x.tmod n) := by
      rw [Int.tmod_def, Int.tmod_def, Int.neg_tdiv]; ring
    rw [h3] at h2
    omega
  · rename_i h
    exact ⟨by omega, h1⟩

/-- For the relative arguments that the key bindings pass (`INC(+1)`,
`INC(-1)`, and every other argument in the range of `ISINC`) and a visible
selected client, the position that `stackpos` returns is at most the number of
visible clients other than `sel`: the loop of `pushstack` stops at a node
other than `sel`. -/
theorem stackpos_inc_range {F : Type} (s : State F) (a : Int) (sel : Nat)
    (ha : ISINC a = true)
    (hsel : (s.mon s.selmon).sel = some sel)
    (hin : sel ∈ (s.mon s.selmon).clients)
    (hnd : (s.mon s.selmon).clients.Nodup)
    (hv : ISVISIBLE s sel = true) :
    ∃ pos, stackpos s a = some pos ∧ 0 ≤ pos
      ∧ pos ≤ ((visibleOthers s sel (s.mon s.selmon).clients).length : Int) := by
  obtain ⟨A, B, hL, hA, hB⟩ := split_at_mem _ sel hin hnd
  have hne : (s.mon s.selmon).clients ≠ [] := by rw [hL]; simp
  have hprev : a ≠ PREVSEL := by
    intro e
    rw [e] at ha
    exact absurd ha (by decide)
  have hcount : countVisible s ((s.mon s.selmon).clients.takeWhile (fun c => c != sel))
      + countVisible s ((s.mon s.selmon).clients.dropWhile (fun c => c != sel))
      = ((visibleOthers s sel (s.mon s.selmon).clients).length : Int) + 1 := by
    rw [hL, takeWhile_split A B sel hA, dropWhile_split A B sel hA]
    have e1 : visibleOthers s sel (A ++ sel :: B)
        = A.filter (fun c => ISVISIBLE s c) ++ B.filter (fun c => ISVISIBLE s c) := by
      unfold visibleOthers
      rw [List.filter_append, List.filter_cons]
      simp only [bne_self_eq_false, Bool.and_false, Bool.false_eq_true, if_false]
      congr 1
      · apply List.filter_congr
        intro x hx
        have : x ≠ sel := fun e => hA (e ▸ hx)
        simp [this]
      · apply List.filter_congr
        intro x hx
        have : x ≠ sel := fun e => hB (e ▸ hx)
        simp [this]
    rw [e1]
    simp only [countVisible, List.filter_cons, hv, if_true, List.length_cons, List.length_append]
    push_cast
    omega
  have hpos : (0 : Int) < countVisible s ((s.mon s.selmon).clients.takeWhile (fun c => c != sel))
      + countVisible s ((s.mon s.selmon).clients.dropWhile (fun c => c != sel)) := by
    rw [hcount]
    have : (0 : Int) ≤ ((visibleOthers s sel (s.mon s.selmon).clients).length : Int) :=
      Int.natCast_nonneg _
    omega
  obtain ⟨m1, m2⟩ := MOD_range
    (countVisible s ((s.mon s.selmon).clients.takeWhile (fun c => c != sel)) + GETINC a) _ hpos
  refine ⟨_, ?_, m1, by omega⟩
  unfold stackpos
  simp only [hne, if_false, hprev, ha, if_true, hsel, hin]
  rw [if_neg (by omega)]

end Dwm
